import Mathlib

/-! Verification of annict-slack-bot: a shallow embedding of the info-aggregation core
of the bot.

* `time`   : the part of Go's `time` package that the repository relies on
             (instants, locations with their zone transitions, `Truncate`, `Equal`,
             `IsZero`, `After`, civil dates, `Format`);
* `sort`   : Go's `sort.Slice`, the pattern-defeating quicksort of the standard library;
* `jst`    : `pkg/jst/time.go`;
* `entity` : `domain/entity/program.go`;
* `usecase`: `usecase/annict_info_getter.go`;
* `validator`: `interfaces/validator/http_validator.go`;
* `repository`: the two mappers and `FetchLibraryEntries` of
             `interfaces/repository/annict_repository.go`;
* `slack`  : the blocks of `github.com/slack-go/slack` that the presenter builds;
* `presenter`: `interfaces/presenter/slack_presenter.go`.

Go strings are Lean strings, a nullable `*string` is an `Option String`, and a Go
`(value, error)` result is a pair whose second component is an `Option`.
-/

set_option autoImplicit false

/-! ## Go's `time` package -/

namespace time

/-- A Duration is a signed count of nanoseconds. -/
abbrev Duration := Int

def Nanosecond : Duration := 1
def Microsecond : Duration := 1000 * Nanosecond
def Millisecond : Duration := 1000 * Microsecond
def Second : Duration := 1000 * Millisecond
def Minute : Duration := 60 * Second
def Hour : Duration := 60 * Minute

/-- A transition of a Location (Go `zoneTrans`, with the offset of its zone): from the
instant `when` on, given in seconds since the zero Time, the wall clock is `offset`
seconds east of UTC. -/
structure zoneTrans where
  when : Int
  offset : Int
  deriving DecidableEq, Repr

/-- A Location maps instants to a wall clock, as a zone of the tz database does: `first`
is the offset, in seconds east of UTC, in effect before the first transition (the zone
that Go `lookupFirstZone` finds), and `tx` are the transitions in ascending order of
time.  After the last transition its offset stays in effect, as the rule in the footer
of the zone file says for the zones used here. -/
structure Location where
  name : String
  first : Int
  tx : List zoneTrans
  deriving DecidableEq, Repr

/-- The Location `time.UTC`. -/
def UTC : Location := { name := "UTC", first := 0, tx := [] }

/-- The answer of a zone lookup: the offset in effect and the instants `start` and `stop`
between which it is in effect, `none` standing for Go's `alpha` and `omega`. -/
structure zoneSpan where
  offset : Int
  start : Option Int
  stop : Option Int
  deriving DecidableEq, Repr

/-- The search of `lookup` through the transitions still to visit, `span` being the
answer if none of them is at or before `sec`.  The transitions are in ascending order,
so that visiting them in turn finds the entry that Go finds by bisection, the one with
the largest time at or before `sec`. -/
def lookupFrom : List zoneTrans → Int → zoneSpan → zoneSpan
  | [], _, span => span
  | tr :: rest, sec, span =>
    if sec < tr.when then { span with stop := some tr.when }
    else lookupFrom rest sec { offset := tr.offset, start := some tr.when, stop := none }

/-- Go `(*Location).lookup`: the zone in effect at the instant `sec`, given in seconds
since the zero Time. -/
def Location.lookup (l : Location) (sec : Int) : zoneSpan :=
  lookupFrom l.tx sec { offset := l.first, start := none, stop := none }

/-- The zone "Asia/Tokyo" of the tz database (release 2023c): local mean time, 9:18:59
east of UTC, until 1887-12-31 15:00 UTC, then UTC+9, with summer time at UTC+10 in the
summers of 1948 to 1951. -/
def asiaTokyo : Location :=
  { name := "Asia/Tokyo", first := 33539,
    tx := [⟨59547884400, 32400⟩, ⟨61451794800, 36000⟩, ⟨61463286000, 32400⟩,
           ⟨61480825200, 36000⟩, ⟨61494735600, 32400⟩, ⟨61515298800, 36000⟩,
           ⟨61526185200, 32400⟩, ⟨61546748400, 36000⟩, ⟨61557634800, 32400⟩] }

/-- A Time is an instant together with the Location used to present it.  The instant is
kept, as in Go, as the time elapsed since the zero Time, January 1, year 1,
00:00:00 UTC; here in nanoseconds. -/
structure Time where
  abs : Int
  loc : Location
  deriving DecidableEq, Repr

/-- The zero value `time.Time{}`. -/
def Time.zero : Time := ⟨0, UTC⟩

instance : Inhabited Time := ⟨Time.zero⟩

/-- Go `t.In(loc)`: the same instant, presented in `loc`. -/
def Time.In (t : Time) (loc : Location) : Time := { t with loc := loc }

/-- Go `t.IsZero()`: whether `t` is the zero instant, whatever its Location. -/
def Time.IsZero (t : Time) : Bool := t.abs == 0

/-- Go `t.Equal(u)`: same instant, the Locations are ignored. -/
def Time.Equal (t u : Time) : Bool := t.abs == u.abs

/-- Go `t.After(u)`. -/
def Time.After (t u : Time) : Bool := decide (u.abs < t.abs)

/-- Go `t.Add(d)`. -/
def Time.Add (t : Time) (d : Duration) : Time := { t with abs := t.abs + d }

/-- Go `t.Truncate(d)`: rounds `t` down to a multiple of `d` since the zero Time, and
returns `t` unchanged when `d <= 0`.  It works on the absolute instant, not on the
wall clock of the Location of `t`. -/
def Time.Truncate (t : Time) (d : Duration) : Time :=
  if d ≤ 0 then t else { t with abs := t.abs - t.abs % d }

/-- Whether `year` is a leap year of the proleptic Gregorian calendar. -/
def isLeap (year : Int) : Bool :=
  year % 4 == 0 && (year % 100 != 0 || year % 400 == 0)

/-- Number of days before the start of month `m + 1` in a non-leap year (Go table
`daysBefore`). -/
def daysBefore : Nat → Nat
  | 0 => 0
  | 1 => 31
  | 2 => 59
  | 3 => 90
  | 4 => 120
  | 5 => 151
  | 6 => 181
  | 7 => 212
  | 8 => 243
  | 9 => 273
  | 10 => 304
  | 11 => 334
  | _ => 365

/-- Days from January 1, year 1 to January 1 of `year`. -/
def daysSinceEpoch (year : Int) : Int :=
  let y := year - 1
  365 * y + y / 4 - y / 100 + y / 400

/-- Go `time.Date`, for in-range arguments: the instant whose wall clock in `loc` reads
the given civil date and time.  The offset is looked up at the wall-clock reading taken
as UTC, and looked up again at the corrected instant when that falls in another zone. -/
def Date (year : Int) (month day hour min sec nsec : Nat) (loc : Location) : Time :=
  let d : Int := daysSinceEpoch year + daysBefore (month - 1)
      + (if isLeap year && decide (3 ≤ month) then 1 else 0) + (day - 1 : Nat)
  let unix : Int := d * 86400 + hour * 3600 + min * 60 + sec
  let span := loc.lookup unix
  let unix :=
    if span.offset ≠ 0 then
      let utc := unix - span.offset
      let before := match span.start with
        | some start => decide (utc < start)
        | none => false
      let after := match span.stop with
        | some stop => decide (utc ≥ stop)
        | none => false
      let offset := if before || after then (loc.lookup utc).offset else span.offset
      unix - offset
    else unix
  ⟨unix * Second + nsec, loc⟩

/-- The offset of the wall clock of `t` in its own Location, in seconds east of UTC. -/
def Time.offset (t : Time) : Int := (t.loc.lookup (t.abs / Second)).offset

/-- Number of whole days between the zero Time and the wall clock of `t` in its own
Location. -/
def Time.days (t : Time) : Int := (t.abs + t.offset * Second) / (24 * Hour)

/-- Go `absDate`: year and day of the year (from 0) of a day count since January 1,
year 1. -/
def yearDay (days : Int) : Int × Nat :=
  let n400 := days / 146097
  let d0 : Nat := (days % 146097).toNat
  let n100 := d0 / 36524
  let n100 := n100 - n100 / 4
  let d1 := d0 - 36524 * n100
  let n4 := d1 / 1461
  let d2 := d1 - 1461 * n4
  let n1 := d2 / 365
  let n1 := n1 - n1 / 4
  let d3 := d2 - 365 * n1
  (400 * n400 + 100 * n100 + 4 * n4 + n1 + 1, d3)

/-- Go `absDate` with `full = true`: month (1 to 12) and day of the month of the day
`yday` of `year`. -/
def monthDay (year : Int) (yday : Nat) : Nat × Nat :=
  if isLeap year && yday == 59 then (2, 29)
  else
    let day := if isLeap year && decide (59 < yday) then yday - 1 else yday
    let month := day / 31
    if daysBefore (month + 1) ≤ day then (month + 2, day - daysBefore (month + 1) + 1)
    else (month + 1, day - daysBefore month + 1)

/-- Go `t.Date()`: year, month and day of `t` on the wall clock of its Location. -/
def Time.Date (t : Time) : Int × Nat × Nat :=
  let yd := yearDay t.days
  let md := monthDay yd.1 yd.2
  (yd.1, md.1, md.2)

/-- Go `t.Clock()`: hour, minute and second of `t` on the wall clock of its Location. -/
def Time.Clock (t : Time) : Int × Int × Int :=
  let s := ((t.abs + t.offset * Second) / Second) % 86400
  (s / 3600, (s % 3600) / 60, s % 60)

/-- Go `t.Year()`. -/
def Time.Year (t : Time) : Int := t.Date.1

/-- Go `t.Month()`, as a number from 1 to 12. -/
def Time.Month (t : Time) : Nat := t.Date.2.1

end time

/-! ## Go's `sort` package

`sort.Slice` as of Go 1.21 (the repository uses `log/slog`): pattern-defeating quicksort,
with insertion sort for at most 12 elements and heapsort as fallback.  A slice is the list
of its elements; the functions take the data and return the data they leave.  The
comparator of `sort.Slice` takes two indices; here it is given on the two elements.  The
functions that reach `breakPatterns_func` take the step `Next` of its pseudo-random
generator as a parameter. -/

namespace sort

section

variable {α : Type}

/-- A loop `for i <= j && test(i) { i++ }` of the partition functions; returns the final
`i`.  The loop stops at `i = j + 1` at the latest, within `fuel = j + 1 - i` iterations. -/
def scanUp (test : List α → Nat → Bool) (d : List α) (j : Nat) : Nat → Nat → Nat
  | 0, i => i
  | fuel + 1, i => if i ≤ j ∧ test d i = true then scanUp test d j fuel (i + 1) else i

/-- A loop `for i <= j && test(j) { j-- }` of the partition functions; returns the final
`j`.  In every use `i` is at least 1, so that `j` does not drop below 0. -/
def scanDown (test : List α → Nat → Bool) (d : List α) (i : Nat) : Nat → Nat
  | 0 => 0
  | j + 1 => if i ≤ j + 1 ∧ test d (j + 1) = true then scanDown test d i j else j + 1

/-- Go `bits.Len`: the number of bits needed to write `x`; `fuel` bounds the recursion. -/
def bitsLenAux : Nat → Nat → Nat
  | 0, _ => 0
  | fuel + 1, x => if x = 0 then 0 else bitsLenAux fuel (x / 2) + 1

/-- Go `bits.Len(uint(x))`. -/
def bitsLen (x : Nat) : Nat := bitsLenAux x x

/-- Go `nextPowerOfTwo`. -/
def nextPowerOfTwo (length : Nat) : Nat := 2 ^ bitsLen length

/-- Go `(*xorshift).Next` on the 64-bit state `r`, with the shift amounts 13, 7 and 17:
the new state, which is also the value returned.  The sorting functions take the step of
the generator as their parameter `Next`, for the shift amounts are not the same in every
Go release; this is one instance of it. -/
def xorshift_Next (r : Nat) : Nat :=
  let r := r ^^^ ((r <<< 13) % 2 ^ 64)
  let r := r ^^^ (r >>> 7)
  r ^^^ ((r <<< 17) % 2 ^ 64)

/-- One iteration of the loop of `breakPatterns_func`: the index `other` drawn from the
generator state `random`. -/
def breakPatterns_other (random modulus length : Nat) : Nat :=
  let other := random &&& (modulus - 1)
  if other ≥ length then other - length else other

/-- Go `sortedHint`: hint for pdqsort when choosing the pivot. -/
inductive sortedHint where
  | unknownHint
  | increasingHint
  | decreasingHint
  deriving DecidableEq, Repr

/-- What the sorting functions need of the comparator `less`: the two requirements that
Go documents for `Less` (it is transitive, and so is its negation), and a preorder `le`
that it refines: `less x y` implies `le x y` and its negation implies `le y x`.  The
comparator may answer true in both directions for two elements equivalent for `le`. -/
structure Respects (less : α → α → Bool) (le : α → α → Prop) : Prop where
  refl : ∀ x, le x x
  trans : ∀ x y z, le x y → le y z → le x z
  of_less : ∀ x y, less x y = true → le x y
  of_not_less : ∀ x y, less x y = false → le y x
  less_trans : ∀ x y z, less x y = true → less y z = true → less x z = true
  not_less_trans : ∀ x y z, less x y = false → less y z = false → less x z = false

end

variable {α : Type} [Inhabited α]

/-- The element `data[k]` of a slice; the zero value stands for a read beyond the length,
which the sorting functions never make. -/
def elem (d : List α) (k : Nat) : α := d.getD k default

/-- Go `data.Swap(i, j)`. -/
def Swap (d : List α) (i j : Nat) : List α :=
  (d.set i (elem d j)).set j (elem d i)

/-- The inner loop of `insertionSort_func`:
`for j := i; j > a && data.Less(j, j-1); j-- { data.Swap(j, j-1) }`, started at `j`. -/
def insertionSort_inner (less : α → α → Bool) (a : Nat) : Nat → (List α) → (List α)
  | 0, d => d
  | j + 1, d =>
    if a < j + 1 ∧ less (elem d (j + 1)) (elem d j) = true then
      insertionSort_inner less a j (Swap d (j + 1) j)
    else d

/-- The outer loop of `insertionSort_func`, with `n` iterations left, at index `i`. -/
def insertionSort_outer (less : α → α → Bool) (a : Nat) : Nat → Nat → (List α) → (List α)
  | 0, _, d => d
  | n + 1, i, d => insertionSort_outer less a n (i + 1) (insertionSort_inner less a i d)

/-- Go `insertionSort_func`: sorts `data[a:b]` using insertion sort. -/
def insertionSort_func (less : α → α → Bool) (d : List α) (a b : Nat) : List α :=
  insertionSort_outer less a (b - (a + 1)) (a + 1) d

/-- The loop of `siftDown_func`, started at `root`; `fuel` bounds the number of
iterations, each of which moves `root` to one of its children. -/
def siftDown_loop (less : α → α → Bool) (hi first : Nat) :
    Nat → (List α) → Nat → (List α)
  | 0, d, _ => d
  | fuel + 1, d, root =>
    let child := 2 * root + 1
    if child ≥ hi then d
    else
      let child :=
        if child + 1 < hi ∧ less (elem d (first + child)) (elem d (first + child + 1)) = true then child + 1
        else child
      if !less (elem d (first + root)) (elem d (first + child)) then d
      else siftDown_loop less hi first fuel (Swap d (first + root) (first + child)) child

/-- Go `siftDown_func`: implements the heap property on `data[lo:hi]`; `first` is an
offset into the array where the root of the heap lies. -/
def siftDown_func (less : α → α → Bool) (d : List α) (lo hi first : Nat) : List α :=
  siftDown_loop less hi first hi d lo

/-- The first loop of `heapSort_func`, `for i := (hi - 1) / 2; i >= 0; i--`, from `i`. -/
def heapSort_build (less : α → α → Bool) (hi first : Nat) : Nat → (List α) → (List α)
  | 0, d => siftDown_func less d 0 hi first
  | i + 1, d => heapSort_build less hi first i (siftDown_func less d (i + 1) hi first)

/-- The second loop of `heapSort_func`, `for i := hi - 1; i >= 0; i--`, from `i`. -/
def heapSort_pop (less : α → α → Bool) (first : Nat) : Nat → (List α) → (List α)
  | 0, d => siftDown_func less (Swap d first (first + 0)) 0 0 first
  | i + 1, d =>
    heapSort_pop less first i (siftDown_func less (Swap d first (first + (i + 1))) 0 (i + 1) first)

/-- Go `heapSort_func`. -/
def heapSort_func (less : α → α → Bool) (d : List α) (a b : Nat) : List α :=
  let first := a
  let hi := b - a
  heapSort_pop less first (hi - 1) (heapSort_build less hi first ((hi - 1) / 2) d)

/-- The loop shared by `partition_func` and `partitionEqual_func`:
`for { (scan i up); (scan j down); if i > j { break }; data.Swap(i, j); i++; j-- }`.
Returns the data and the final `i` and `j`. -/
def partitionLoop (up down : List α → Nat → Bool) :
    Nat → (List α) → Nat → Nat → (List α) × Nat × Nat
  | 0, d, i, j => (d, i, j)
  | fuel + 1, d, i, j =>
    let i := scanUp up d j (j + 1 - i) i
    let j := scanDown down d i j
    if i > j then (d, i, j)
    else partitionLoop up down fuel (Swap d i j) (i + 1) (j - 1)

/-- The test `data.Less(i, a)`. -/
def lessThanPivot (less : α → α → Bool) (a : Nat) (d : List α) (i : Nat) : Bool :=
  less (elem d i) (elem d a)

/-- The test `!data.Less(j, a)`. -/
def notLessThanPivot (less : α → α → Bool) (a : Nat) (d : List α) (j : Nat) : Bool :=
  !less (elem d j) (elem d a)

/-- The test `!data.Less(a, i)`. -/
def pivotNotLess (less : α → α → Bool) (a : Nat) (d : List α) (i : Nat) : Bool :=
  !less (elem d a) (elem d i)

/-- The test `data.Less(a, j)`. -/
def pivotLess (less : α → α → Bool) (a : Nat) (d : List α) (j : Nat) : Bool :=
  less (elem d a) (elem d j)

/-- Go `partition_func`: does one quicksort partition.  Returns the data, the new index
of the pivot and whether the slice was already partitioned. -/
def partition_func (less : α → α → Bool) (d : List α) (a b pivot : Nat) :
    (List α) × Nat × Bool :=
  let d := Swap d a pivot
  let i := a + 1
  let j := b - 1
  let i := scanUp (lessThanPivot less a) d j (j + 1 - i) i
  let j := scanDown (notLessThanPivot less a) d i j
  if i > j then (Swap d j a, j, true)
  else
    let d := Swap d i j
    let r := partitionLoop (lessThanPivot less a) (notLessThanPivot less a) b d (i + 1) (j - 1)
    (Swap r.1 r.2.2 a, r.2.2, false)

/-- Go `partitionEqual_func`: partitions `data[a:b]` into elements equal to `data[pivot]`
followed by elements greater than `data[pivot]`.  Returns the data and the index where
the second part starts. -/
def partitionEqual_func (less : α → α → Bool) (d : List α) (a b pivot : Nat) :
    (List α) × Nat :=
  let d := Swap d a pivot
  let r := partitionLoop (pivotNotLess less a) (pivotLess less a) (b + 1) d (a + 1) (b - 1)
  (r.1, r.2.1)

/-- The loop `for j := i + 1; j < b; j++ { if !data.Less(j, j-1) { break };
data.Swap(j, j-1) }` of `partialInsertionSort_func`, at `j`. -/
def shiftRight (less : α → α → Bool) (b : Nat) : Nat → Nat → (List α) → (List α)
  | 0, _, d => d
  | fuel + 1, j, d =>
    if j < b then
      if !less (elem d j) (elem d (j - 1)) then d
      else shiftRight less b fuel (j + 1) (Swap d j (j - 1))
    else d

/-- The test `!data.Less(i, i-1)`. -/
def notLessThanPrevious (less : α → α → Bool) (d : List α) (i : Nat) : Bool :=
  !less (elem d i) (elem d (i - 1))

/-- The loop `for j := 0; j < maxSteps; j++` of `partialInsertionSort_func`, with `steps`
iterations left, at index `i`.  The scan `for i < b && !data.Less(i, i-1) { i++ }` is
`scanUp` up to `b - 1`; the loop that shifts the smaller element to the left,
`for j := i - 1; j >= 1; j--`, is the inner loop of the insertion sort with lower end 0. -/
def partialInsertionSort_loop (less : α → α → Bool) (a b : Nat) :
    Nat → Nat → (List α) → (List α) × Bool
  | 0, _, d => (d, false)
  | steps + 1, i, d =>
    let i := scanUp (notLessThanPrevious less) d (b - 1) (b - i) i
    if i = b then (d, true)
    else if b - a < 50 then (d, false)
    else
      let d := Swap d i (i - 1)
      let d := if i - a ≥ 2 then insertionSort_inner less 0 (i - 1) d else d
      let d := if b - i ≥ 2 then shiftRight less b (b - (i + 1)) (i + 1) d else d
      partialInsertionSort_loop less a b steps i d

/-- Go `partialInsertionSort_func`: partially sorts a slice, returns true if the slice is
sorted at the end. -/
def partialInsertionSort_func (less : α → α → Bool) (d : List α) (a b : Nat) :
    (List α) × Bool :=
  partialInsertionSort_loop less a b 5 (a + 1) d

/-- Go `breakPatterns_func`: scatters some elements around in an attempt to break some
patterns that might cause imbalanced partitions in quicksort.  `Next` is the step
`random.Next()` of the generator, whose state starts at `length`. -/
def breakPatterns_func (Next : Nat → Nat) (d : List α) (a b : Nat) : List α :=
  let length := b - a
  if length ≥ 8 then
    let random := length
    let modulus := nextPowerOfTwo length
    let idx := a + (length / 4) * 2 - 1
    let random := Next random
    let d := Swap d (idx - 1 + 0) (a + breakPatterns_other random modulus length)
    let random := Next random
    let d := Swap d (idx - 1 + 1) (a + breakPatterns_other random modulus length)
    let random := Next random
    Swap d (idx - 1 + 2) (a + breakPatterns_other random modulus length)
  else d

/-- Go `order2_func`: returns `x, y` where `data[x] <= data[y]`, where `x, y = a, b` or
`x, y = b, a`, and the updated count of swaps. -/
def order2_func (less : α → α → Bool) (d : List α) (a b swaps : Nat) : Nat × Nat × Nat :=
  if less (elem d b) (elem d a) then (b, a, swaps + 1) else (a, b, swaps)

/-- Go `median_func`: returns `x` where `data[x]` is the median of `data[a]`, `data[b]`,
`data[c]`, where `x` is `a`, `b`, or `c`, and the updated count of swaps. -/
def median_func (less : α → α → Bool) (d : List α) (a b c swaps : Nat) : Nat × Nat :=
  let r := order2_func less d a b swaps
  let a := r.1
  let b := r.2.1
  let r := order2_func less d b c r.2.2
  let b := r.1
  let r := order2_func less d a b r.2.2
  (r.2.1, r.2.2)

/-- Go `medianAdjacent_func`: finds the median of `data[a - 1]`, `data[a]`,
`data[a + 1]`. -/
def medianAdjacent_func (less : α → α → Bool) (d : List α) (a swaps : Nat) : Nat × Nat :=
  median_func less d (a - 1) a (a + 1) swaps

/-- Go `choosePivot_func`: chooses a pivot in `data[a:b]`. -/
def choosePivot_func (less : α → α → Bool) (d : List α) (a b : Nat) : Nat × sortedHint :=
  let l := b - a
  let swaps := 0
  let i := a + l / 4 * 1
  let j := a + l / 4 * 2
  let k := a + l / 4 * 3
  let r :=
    if l ≥ 8 then
      let r3 :=
        if l ≥ 50 then
          let ri := medianAdjacent_func less d i swaps
          let rj := medianAdjacent_func less d j ri.2
          let rk := medianAdjacent_func less d k rj.2
          (ri.1, rj.1, rk.1, rk.2)
        else (i, j, k, swaps)
      median_func less d r3.1 r3.2.1 r3.2.2.1 r3.2.2.2
    else (j, swaps)
  if r.2 = 0 then (r.1, sortedHint.increasingHint)
  else if r.2 = 4 * 3 then (r.1, sortedHint.decreasingHint)
  else (r.1, sortedHint.unknownHint)

/-- The loop of `reverseRange_func`. -/
def reverseRange_loop : Nat → (List α) → Nat → Nat → (List α)
  | 0, d, _, _ => d
  | fuel + 1, d, i, j =>
    if i < j then reverseRange_loop fuel (Swap d i j) (i + 1) (j - 1) else d

/-- Go `reverseRange_func`. -/
def reverseRange_func (d : List α) (a b : Nat) : List α :=
  reverseRange_loop (b - a) d a (b - 1)

/-- The first part of an iteration of the loop of Go `pdqsort_func`, from the call of
`breakPatterns_func` to the call of `partialInsertionSort_func`.  Returns the data, the
limit, the index of the pivot, and whether the slice was found sorted, in which case the
function returns. -/
def pdqsort_prepare (Next : Nat → Nat) (less : α → α → Bool) (d : List α) (a b limit : Nat)
    (wasBalanced wasPartitioned : Bool) : List α × Nat × Nat × Bool :=
  let d := if !wasBalanced then breakPatterns_func Next d a b else d
  let limit := if !wasBalanced then limit - 1 else limit
  let c := choosePivot_func less d a b
  let d := if c.2 = sortedHint.decreasingHint then reverseRange_func d a b else d
  let pivot := if c.2 = sortedHint.decreasingHint then (b - 1) - (c.1 - a) else c.1
  let hint := if c.2 = sortedHint.decreasingHint then sortedHint.increasingHint else c.2
  if wasBalanced && wasPartitioned && decide (hint = sortedHint.increasingHint) then
    let s := partialInsertionSort_func less d a b
    (s.1, limit, pivot, s.2)
  else (d, limit, pivot, false)

/-- The loop of Go `pdqsort_func`, which sorts `data[a:b]`: one step of `fuel` is spent
on each iteration and on each recursive call, `b - a + 1` steps being enough since every
iteration shrinks the range.  `limit` is the number of allowed bad pivots before falling
back to heapsort; `wasBalanced` and `wasPartitioned` are the two flags of the loop. -/
def pdqsort_loop (Next : Nat → Nat) (less : α → α → Bool) :
    Nat → List α → Nat → Nat → Nat → Bool → Bool → List α
  | 0, d, _, _, _, _, _ => d
  | fuel + 1, d, a, b, limit, wasBalanced, wasPartitioned =>
    let length := b - a
    if length ≤ 12 then insertionSort_func less d a b
    else if limit = 0 then heapSort_func less d a b
    else
      let s := pdqsort_prepare Next less d a b limit wasBalanced wasPartitioned
      if s.2.2.2 then s.1
      else
        let d := s.1
        let limit := s.2.1
        let pivot := s.2.2.1
        if a > 0 ∧ less (elem d (a - 1)) (elem d pivot) = false then
          let e := partitionEqual_func less d a b pivot
          pdqsort_loop Next less fuel e.1 e.2 b limit wasBalanced wasPartitioned
        else
          let p := partition_func less d a b pivot
          let mid := p.2.1
          let wasPartitioned := p.2.2
          let leftLen := mid - a
          let rightLen := b - mid
          let balanceThreshold := length / 8
          if leftLen < rightLen then
            let wasBalanced := decide (leftLen ≥ balanceThreshold)
            let d := pdqsort_loop Next less fuel p.1 a mid limit true true
            pdqsort_loop Next less fuel d (mid + 1) b limit wasBalanced wasPartitioned
          else
            let wasBalanced := decide (rightLen ≥ balanceThreshold)
            let d := pdqsort_loop Next less fuel p.1 (mid + 1) b limit true true
            pdqsort_loop Next less fuel d a mid limit wasBalanced wasPartitioned

/-- Go `pdqsort_func`. -/
def pdqsort_func (Next : Nat → Nat) (less : α → α → Bool) (d : List α) (a b limit : Nat) : List α :=
  pdqsort_loop Next less (b - a + 1) d a b limit true true

/-- Go `sort.Slice` on the slice `x`, with the comparator `less` given on elements. -/
def Slice (Next : Nat → Nat) (less : α → α → Bool) (x : List α) : List α :=
  let length := x.length
  let limit := bitsLen length
  pdqsort_func Next less x 0 length limit

/-! ### Vocabulary for the properties of the sorting functions -/

/-- The slice `e` is the slice `d` with the elements of the index range `[a, b)`
permuted. -/
def PermIn (a b : Nat) (d e : List α) : Prop :=
  e.length = d.length
    ∧ ∃ σ : Equiv.Perm Nat, (∀ k, ¬ (a ≤ k ∧ k < b) → σ k = k) ∧ ∀ k, elem e k = elem d (σ k)

/-- The elements at the indices of `[a, b)` are in order for `le`. -/
def SortedOn (le : α → α → Prop) (d : List α) (a b : Nat) : Prop :=
  ∀ i j, a ≤ i → i < j → j < b → le (elem d i) (elem d j)

/-- The heap property at node `i` of the heap `data[first : first + hi]`. -/
def HeapAt (le : α → α → Prop) (d : List α) (first hi i : Nat) : Prop :=
  (2 * i + 1 < hi → le (elem d (first + (2 * i + 1))) (elem d (first + i)))
    ∧ (2 * i + 2 < hi → le (elem d (first + (2 * i + 2))) (elem d (first + i)))

/-- What the tests of a partition loop tell about an element, for the pivot value `p`
kept at index `a`: `up` holds of elements with property `L` and fails for elements with
property `R`, and the other way round for `down`; the two tests never fail together. -/
structure Tests (p : α) (L R : α → Prop) (a : Nat) (up down : List α → Nat → Bool) :
    Prop where
  up_true : ∀ d i, elem d a = p → up d i = true → L (elem d i)
  up_false : ∀ d i, elem d a = p → up d i = false → R (elem d i)
  down_true : ∀ d j, elem d a = p → down d j = true → R (elem d j)
  down_false : ∀ d j, elem d a = p → down d j = false → L (elem d j)
  excl : ∀ d k, up d k = false → down d k = true

/-- No element of `data[a:b]` answers true to `less · data[a-1]`: the state of a range
that lies to the right of an earlier pivot. -/
def AbovePrevious (less : α → α → Bool) (d : List α) (a b : Nat) : Prop :=
  0 < a → ∀ k, a ≤ k → k < b → less (elem d k) (elem d (a - 1)) = false

end sort

/-! ## `pkg/jst` -/

namespace jst

open time

/-- The function `init`: the value that it stores in the package variable `jstLocation`,
given the outcome `loaded` of `time.LoadLocation("Asia/Tokyo")`, `none` standing for an
error.  The functions of the package take the value of the variable as their parameter
`jstLocation`. -/
def init (loaded : Option Location) : Location :=
  match loaded with
  | none => UTC
  | some loc => loc

/-- Go `jst.Now`, as a function of the reading `timeNow` of the system clock. -/
def Now (jstLocation : Location) (timeNow : Time) : Time := timeNow.In jstLocation

/-- `jst.GetAnnictSeason`; the result is `fmt.Sprintf("%d-%s", year, season)`. -/
def GetAnnictSeason (jstLocation : Location) (t : Time) : String :=
  let jstTime := t.In jstLocation
  let year := jstTime.Year
  let month := jstTime.Month
  let season :=
    if month ≥ 1 ∧ month ≤ 3 then "winter"
    else if month ≥ 4 ∧ month ≤ 6 then "spring"
    else if month ≥ 7 ∧ month ≤ 9 then "summer"
    else if month ≥ 10 ∧ month ≤ 12 then "autumn"
    else ""
  toString year ++ "-" ++ season

/-- `jst.IsSameDate`. -/
def IsSameDate (jstLocation : Location) (t1 t2 : Time) : Bool :=
  ((t1.In jstLocation).Truncate (24 * Hour)).Equal ((t2.In jstLocation).Truncate (24 * Hour))

end jst

/-! ## Go errors -/

/-- A Go error value: either a plain message, or the result of `fmt.Errorf` with the
verb `%w`, which keeps the error it wraps. -/
inductive GoError where
  | errorString (s : String)
  | wrapError (msg : String) (err : GoError)
  deriving DecidableEq, Repr

/-- The method `Error()`. -/
def GoError.Error : GoError → String
  | .errorString s => s
  | .wrapError msg _ => msg

/-- Go `errors.Unwrap`. -/
def GoError.Unwrap : GoError → Option GoError
  | .errorString _ => none
  | .wrapError _ err => some err

/-- Go `fmt.Errorf(text + ": %w", err)`. -/
def Errorf (text : String) (err : GoError) : GoError :=
  .wrapError (text ++ ": " ++ err.Error) err

/-! ## `domain/entity` -/

namespace entity

/-- Work represents an anime work. -/
structure Work where
  Title : String
  OfficialSiteURL : Option String
  ImageURL : Option String
  deriving DecidableEq, Repr

/-- Episode represents an anime episode. -/
structure Episode where
  NumberText : String
  Title : Option String
  deriving DecidableEq, Repr

/-- Channel represents a broadcast channel. -/
structure Channel where
  Name : String
  deriving DecidableEq, Repr

/-- Program represents a scheduled broadcast of an episode. -/
structure Program where
  Work : Work
  Episode : Episode
  Channel : Channel
  StartTime : time.Time
  deriving DecidableEq, Repr

/-- The zero value `entity.Program{}`. -/
def Program.zero : Program :=
  { Work := { Title := "", OfficialSiteURL := none, ImageURL := none },
    Episode := { NumberText := "", Title := none },
    Channel := { Name := "" },
    StartTime := time.Time.zero }

instance : Inhabited Program := ⟨Program.zero⟩

end entity

/-! ## `usecase` -/

namespace usecase

open entity

/-- ProgramRepository: the two fetches, each invoked at most once by `Execute`, are given
by the `(programs, err)` pair they return.  A `[]*entity.Program` is the list of the
programs pointed to: the repository allocates a fresh `entity.Program` for every node,
so the pointers of the two lists are all distinct. -/
structure ProgramRepository where
  FetchTodayPrograms : List Program × Option GoError
  FetchLibraryEntries : List Program × Option GoError

/-- ImageValidationService: `ValidateURL n url` is the `(isValid, validatedURL)` answer
to the call number `n` (counted from 0) of a run, so that the answers may differ from
one call to the next even for the same URL. -/
structure ImageValidationService where
  ValidateURL : Nat → String → Bool × String

/-- AnnictInfoGetter defines the use case for fetching today's programs. -/
structure AnnictInfoGetter where
  repo : ProgramRepository
  validator : ImageValidationService

/-- AnnictInfoGetterOutput holds the output of the use case. -/
structure AnnictInfoGetterOutput where
  LibraryEntries : List Program
  Programs : List Program
  deriving DecidableEq, Repr

/-- A call made by `Execute` to one of its collaborators, with what the call returned
where the run depends on it. -/
inductive Call where
  | FetchTodayPrograms
  | FetchLibraryEntries
  | ValidateURL (url : String) (isValid : Bool)
  | Now (t : time.Time)
  deriving DecidableEq, Repr

/-- The calls to the validator recorded in a log: URL asked about and verdict. -/
def validatorCalls : List Call → List (String × Bool)
  | [] => []
  | Call.ValidateURL url isValid :: cs => (url, isValid) :: validatorCalls cs
  | _ :: cs => validatorCalls cs

/-- The readings of the clock recorded in a log. -/
def clockReadings : List Call → List time.Time
  | [] => []
  | Call.Now t :: cs => t :: clockReadings cs
  | _ :: cs => clockReadings cs

/-- The image check that both loops of `Execute` perform on `progToValidate`: when the
ImageURL is non-nil and non-empty the validator is asked, and the ImageURL is set to
nil if the answer is not valid.  Returns the program and the extended log. -/
def validateImage (ag : AnnictInfoGetter) (progToValidate : Program) (log : List Call) :
    Program × List Call :=
  match progToValidate.Work.ImageURL with
  | some url =>
    if url ≠ "" then
      let isValid := (ag.validator.ValidateURL (validatorCalls log).length url).1
      let log := log ++ [Call.ValidateURL url isValid]
      if !isValid then
        ({ progToValidate with Work := { progToValidate.Work with ImageURL := none } }, log)
      else (progToValidate, log)
    else (progToValidate, log)
  | none => (progToValidate, log)

/-- The first loop of `Execute`, over the programs still to visit; `clock n` is the
reading number `n` of `time.Now()` and `jstLocation` the package variable of `jst`. -/
def todayLoop (jstLocation : time.Location) (ag : AnnictInfoGetter)
    (clock : Nat → time.Time) :
    List Program → List Program → List Call → List Program × List Call
  | [], validatedPrograms, log => (validatedPrograms, log)
  | p :: rest, validatedPrograms, log =>
    if p.StartTime.IsZero then todayLoop jstLocation ag clock rest validatedPrograms log
    else
      let now := jst.Now jstLocation (clock (clockReadings log).length)
      let log := log ++ [Call.Now now]
      if !jst.IsSameDate jstLocation p.StartTime now then
        todayLoop jstLocation ag clock rest validatedPrograms log
      else
        let r := validateImage ag p log
        todayLoop jstLocation ag clock rest (validatedPrograms ++ [r.1]) r.2

/-- The second loop of `Execute`, over the library entries still to visit. -/
def libraryLoop (ag : AnnictInfoGetter) :
    List Program → List Program → List Call → List Program × List Call
  | [], validatedLibraryEntries, log => (validatedLibraryEntries, log)
  | l :: rest, validatedLibraryEntries, log =>
    let r := validateImage ag l log
    libraryLoop ag rest (validatedLibraryEntries ++ [r.1]) r.2

/-- `AnnictInfoGetter.Execute`: the `(output, err)` pair it returns, and the log of the
calls it made to the repository, the clock and the validator, in order. -/
def Execute (jstLocation : time.Location) (ag : AnnictInfoGetter)
    (clock : Nat → time.Time) :
    (Option AnnictInfoGetterOutput × Option GoError) × List Call :=
  let log := [Call.FetchTodayPrograms]
  match ag.repo.FetchTodayPrograms with
  | (_, some err) =>
    ((none, some (Errorf "failed to find recent unwatched programs" err)), log)
  | (programs, none) =>
    let today := todayLoop jstLocation ag clock programs [] log
    let log := today.2 ++ [Call.FetchLibraryEntries]
    match ag.repo.FetchLibraryEntries with
    | (_, some err) => ((none, some (Errorf "failed to find programs" err)), log)
    | (libraryEntries, none) =>
      let library := libraryLoop ag libraryEntries [] log
      ((some { Programs := today.1, LibraryEntries := library.1 }, none), library.2)

/-! ### Auxiliary descriptions of the two loops, used to state and prove their properties -/

/-- The URL that the image check submits to the validator: the ImageURL when it is
present and non-empty. -/
def imageToCheck (p : Program) : Option String :=
  match p.Work.ImageURL with
  | some url => if url ≠ "" then some url else none
  | none => none

/-- The program with its ImageURL set to nil. -/
def clearImage (p : Program) : Program :=
  { p with Work := { p.Work with ImageURL := none } }

/-- The image check on one program when `n` validator calls were made before: the
resulting program and the validator calls made, as (URL, verdict) pairs. -/
def checkOne (ag : AnnictInfoGetter) (n : Nat) (p : Program) : Program × List (String × Bool) :=
  match imageToCheck p with
  | some url =>
    let isValid := (ag.validator.ValidateURL n url).1
    (if isValid then p else clearImage p, [(url, isValid)])
  | none => (p, [])

/-- The image checks on a list of programs, in order, when `n` validator calls were made
before. -/
def runChecks (ag : AnnictInfoGetter) : Nat → List Program → List Program × List (String × Bool)
  | _, [] => ([], [])
  | n, p :: ps =>
    let r := checkOne ag n p
    let rest := runChecks ag (n + r.2.length) ps
    (r.1 :: rest.1, r.2 ++ rest.2)

/-- The programs that the first loop keeps, when `c` readings of the clock were made
before. -/
def retained (jstLocation : time.Location) (clock : Nat → time.Time) :
    Nat → List Program → List Program
  | _, [] => []
  | c, p :: ps =>
    if p.StartTime.IsZero then retained jstLocation clock c ps
    else if jst.IsSameDate jstLocation p.StartTime (jst.Now jstLocation (clock c)) then
      p :: retained jstLocation clock (c + 1) ps
    else retained jstLocation clock (c + 1) ps

/-- What the image checks make of a list: `output` has the programs of `input`, in the
same order and number; each differs from its input at most in the ImageURL, which is nil
when the input ImageURL was present and non-empty and the validator call made for it
(call number `n` plus the number of earlier programs of the list with such an ImageURL)
answered not valid, and is the input ImageURL otherwise. -/
def ImageChecked (ag : AnnictInfoGetter) (n : Nat) (input output : List Program) : Prop :=
  output.length = input.length ∧
  ∀ (i : Nat) (p : Program), input[i]? = some p →
    ∃ q, output[i]? = some q
      ∧ q.Work.Title = p.Work.Title
      ∧ q.Work.OfficialSiteURL = p.Work.OfficialSiteURL
      ∧ q.Episode = p.Episode
      ∧ q.Channel = p.Channel
      ∧ q.StartTime = p.StartTime
      ∧ ((∃ url, p.Work.ImageURL = some url ∧ url ≠ ""
            ∧ (ag.validator.ValidateURL
                (n + ((input.take i).filter (fun r => (imageToCheck r).isSome)).length)
                url).1 = false)
          → q.Work.ImageURL = none)
      ∧ ((¬ ∃ url, p.Work.ImageURL = some url ∧ url ≠ ""
            ∧ (ag.validator.ValidateURL
                (n + ((input.take i).filter (fun r => (imageToCheck r).isSome)).length)
                url).1 = false)
          → q.Work.ImageURL = p.Work.ImageURL)

end usecase

/-! ## `interfaces/validator` -/

namespace strings

/-- Go `strings.HasPrefix(s, pre)`. -/
def HasPrefix (s pre : String) : Bool := pre.data.isPrefixOf s.data

end strings

namespace validator

/-- The request that `ValidateURL` builds: method, URL, and the timeout of the context it
carries. -/
structure Request where
  Method : String
  URL : String
  Timeout : time.Duration
  deriving DecidableEq, Repr

/-- What `ValidateURL` reads of an `http.Response`: the status code and the value of
`Header.Get("Content-Type")`, which is empty when the header is missing. -/
structure Response where
  StatusCode : Int
  ContentType : String
  deriving DecidableEq, Repr

/-- HTTPClient defines the methods needed from the infrastructure HTTP client.  `Do`
returns either an error (transport failure, timeout, cancellation) or a response, as
`http.Client.Do` does; the infrastructure client does not follow redirects, so a
redirect comes back as a response with its 3xx status. -/
structure HTTPClient where
  Do : Request → Except GoError Response

/-- The validator with its injected client. -/
structure httpImageValidator where
  httpClient : HTTPClient

def imageCheckTimeout : time.Duration := 5 * time.Second

/-- `httpImageValidator.ValidateURL`.  `NewRequestWithContext timeout method url` stands
for `http.NewRequestWithContext` applied to the context with that timeout, which fails on
a URL it cannot parse.  Logging is left out. -/
def ValidateURL (NewRequestWithContext : time.Duration → String → String → Except GoError Request)
    (v : httpImageValidator) (url : String) : Bool × String :=
  if url = "" then (false, "")
  else
    match NewRequestWithContext imageCheckTimeout "HEAD" url with
    | .error _ => (false, "")
    | .ok req =>
      match v.httpClient.Do req with
      | .error _ => (false, "")
      | .ok resp =>
        if 200 ≤ resp.StatusCode ∧ resp.StatusCode < 300 then
          if strings.HasPrefix resp.ContentType "image/" then (true, url)
          else (false, "")
        else (false, "")

end validator

/-! ## `infrastructure/annict`: the records of the GraphQL client -/

namespace annict

/-- Modelled from the spec: the generated client types are not among the sources.  Image
record of a work, with the "recommended image" and "social preview image" fields the
mappers read. -/
structure Image where
  RecommendedImageURL : Option String
  FacebookOgImageURL : Option String
  deriving DecidableEq, Repr

/-- Modelled from the spec: work record, a struct value with the fields the mappers read;
`otherFieldsSet` tells whether any further field of the generated struct is non-zero. -/
structure Work where
  Title : String
  OfficialSiteURL : Option String
  Image : Option Image
  otherFieldsSet : Bool
  deriving DecidableEq, Repr

/-- Modelled from the spec: episode record of a program node, a struct value with the
pre-formatted number text, the raw episode number and the title. -/
structure Episode where
  NumberText : Option String
  Number : Option Int
  Title : Option String
  otherFieldsSet : Bool
  deriving DecidableEq, Repr

/-- Modelled from the spec: channel record, a struct value. -/
structure Channel where
  Name : String
  otherFieldsSet : Bool
  deriving DecidableEq, Repr

/-- Modelled from the spec: `GetPrograms_Viewer_Programs_Nodes`. -/
structure GetPrograms_Viewer_Programs_Nodes where
  StartedAt : String
  Work : Work
  Episode : Episode
  Channel : Channel
  deriving DecidableEq, Repr

/-- Modelled from the spec: the "next episode" projection of a library entry, behind a
nullable pointer. -/
structure NextEpisode where
  NumberText : Option String
  Title : Option String
  deriving DecidableEq, Repr

/-- Modelled from the spec: the "next program" projection of a library entry, behind a
nullable pointer. -/
structure NextProgram where
  StartedAt : String
  Channel : Channel
  deriving DecidableEq, Repr

/-- Modelled from the spec: `GetLibraryEntries_Viewer_LibraryEntries_Nodes`. -/
structure GetLibraryEntries_Viewer_LibraryEntries_Nodes where
  Work : Work
  NextEpisode : Option NextEpisode
  NextProgram : Option NextProgram
  deriving DecidableEq, Repr

/-- Modelled from the spec: `GetLibraryEntries_Viewer_LibraryEntries`, with its list of
nullable nodes. -/
structure GetLibraryEntries_Viewer_LibraryEntries where
  Nodes : List (Option GetLibraryEntries_Viewer_LibraryEntries_Nodes)
  deriving DecidableEq, Repr

/-- Modelled from the spec: `GetLibraryEntries_Viewer`. -/
structure GetLibraryEntries_Viewer where
  LibraryEntries : Option GetLibraryEntries_Viewer_LibraryEntries
  deriving DecidableEq, Repr

/-- Modelled from the spec: `GetLibraryEntries`, the response of the query. -/
structure GetLibraryEntries where
  Viewer : Option GetLibraryEntries_Viewer
  deriving DecidableEq, Repr

/-- Go `reflect.ValueOf(w).IsZero()` on a work record: every field holds its zero value. -/
def Work.IsZero (w : Work) : Bool :=
  w.Title == "" && w.OfficialSiteURL.isNone && w.Image.isNone && !w.otherFieldsSet

/-- Go `reflect.ValueOf(e).IsZero()` on an episode record. -/
def Episode.IsZero (e : Episode) : Bool :=
  e.NumberText.isNone && e.Number.isNone && e.Title.isNone && !e.otherFieldsSet

/-- Go `reflect.ValueOf(c).IsZero()` on a channel record. -/
def Channel.IsZero (c : Channel) : Bool :=
  c.Name == "" && !c.otherFieldsSet

end annict

/-! ## `interfaces/repository`: the mappers -/

namespace repository

open entity

/-- The test `x != nil && *x != ""` on a nullable string. -/
def nonEmpty (x : Option String) : Bool :=
  match x with
  | some s => s ≠ ""
  | none => false

/-- Go `fmt.Sprintf("第%d話", n)`. -/
def episodeNumberText (n : Int) : String := "第" ++ toString n ++ "話"

/-- The block of both mappers that fills `prog.Work` from a non-zero work record. -/
def mapWork (w : annict.Work) (work : entity.Work) : entity.Work :=
  if !w.IsZero then
    let work := { work with Title := w.Title }
    let work :=
      if nonEmpty w.OfficialSiteURL then { work with OfficialSiteURL := w.OfficialSiteURL }
      else work
    match w.Image with
    | some image =>
      if nonEmpty image.RecommendedImageURL then
        { work with ImageURL := image.RecommendedImageURL }
      else if image.FacebookOgImageURL.isSome then
        { work with ImageURL := image.FacebookOgImageURL }
      else work
    | none => work
  else work

/-- The block of both mappers that sets `prog.StartTime` from a `StartedAt` string;
`Parse s` is `time.Parse(time.RFC3339, s)`, `none` standing for a parse error. -/
def mapStartedAt (Parse : String → Option time.Time) (startedAt : String)
    (startTime : time.Time) : time.Time :=
  if startedAt ≠ "" then
    match Parse startedAt with
    | some parsedTime => parsedTime
    | none => startTime
  else startTime

/-- `mapAnnictProgramToDomainProgram`. -/
def mapAnnictProgramToDomainProgram (Parse : String → Option time.Time)
    (node : Option annict.GetPrograms_Viewer_Programs_Nodes) : Option Program :=
  match node with
  | none => none
  | some node =>
    let prog := Program.zero
    let prog := { prog with Work := mapWork node.Work prog.Work }
    let prog :=
      if !node.Episode.IsZero then
        let numberText :=
          if nonEmpty node.Episode.NumberText then node.Episode.NumberText.getD ""
          else
            match node.Episode.Number with
            | some n => episodeNumberText n
            | none => "不明"
        let title := if node.Episode.Title.isSome then node.Episode.Title else prog.Episode.Title
        { prog with Episode := { NumberText := numberText, Title := title } }
      else prog
    let prog :=
      if !node.Channel.IsZero then { prog with Channel := { Name := node.Channel.Name } }
      else prog
    some { prog with StartTime := mapStartedAt Parse node.StartedAt prog.StartTime }

/-- `mapAnnictLibraryEntriesToDomainProgram`. -/
def mapAnnictLibraryEntriesToDomainProgram (Parse : String → Option time.Time)
    (node : Option annict.GetLibraryEntries_Viewer_LibraryEntries_Nodes) : Option Program :=
  match node with
  | none => none
  | some node =>
    let prog := Program.zero
    let prog := { prog with Work := mapWork node.Work prog.Work }
    let prog :=
      match node.NextEpisode with
      | some nextEpisode =>
        let numberText :=
          if nonEmpty nextEpisode.NumberText then nextEpisode.NumberText.getD ""
          else "不明"
        let title := if nextEpisode.Title.isSome then nextEpisode.Title else prog.Episode.Title
        { prog with Episode := { NumberText := numberText, Title := title } }
      | none => prog
    let prog :=
      match node.NextProgram with
      | some nextProgram =>
        let prog :=
          if !nextProgram.Channel.IsZero then
            { prog with Channel := { Name := nextProgram.Channel.Name } }
          else prog
        { prog with StartTime := mapStartedAt Parse nextProgram.StartedAt prog.StartTime }
      | none => prog
    some prog

/-- The repository with its API client: `GetLibraryEntries seasons` is the
`(resp, err)` pair returned by `annictAPIClient.GetLibraryEntries(ctx, seasons)`. -/
structure annictRepository where
  GetLibraryEntries : List String → Option annict.GetLibraryEntries × Option GoError

/-- The comparator that `FetchLibraryEntries` passes to `sort.Slice`, on the programs at
the two indices. -/
def libraryEntriesLess (pi pj : Program) : Bool :=
  if pi.StartTime.IsZero then true
  else if pj.StartTime.IsZero then false
  else pi.StartTime.After pj.StartTime

/-- The order that `libraryEntriesLess` refines: a program without StartTime comes before
every program, and of two programs with a StartTime the one that starts later, or at the
same instant, comes before the other. -/
def startsNoLater (p q : Program) : Prop :=
  p.StartTime.IsZero = true
    ∨ (q.StartTime.IsZero = false ∧ q.StartTime.abs ≤ p.StartTime.abs)

/-- `annictRepository.FetchLibraryEntries`: the `(programs, err)` pair it returns;
`timeNow` is the reading of `time.Now()`, `jstLocation` the package variable of `jst`,
`Parse` is `time.Parse(time.RFC3339, ·)` and `Next` the generator step inside
`sort.Slice`.  The loop over the nodes skips a nil node
and a nil result of the mapper, and appends the other results in order. -/
def FetchLibraryEntries (jstLocation : time.Location) (Parse : String → Option time.Time)
    (Next : Nat → Nat) (r : annictRepository) (timeNow : time.Time) :
    List Program × Option GoError :=
  let targetSeason := jst.GetAnnictSeason jstLocation (jst.Now jstLocation timeNow)
  let seasons := [targetSeason]
  match r.GetLibraryEntries seasons with
  | (_, some err) => ([], some (Errorf "annictAPIClient.GetLibraryEntries failed" err))
  | (none, none) => ([], none)
  | (some resp, none) =>
    match resp.Viewer with
    | none => ([], none)
    | some viewer =>
      match viewer.LibraryEntries with
      | none => ([], none)
      | some libraryEntries =>
        let programs :=
          libraryEntries.Nodes.filterMap (mapAnnictLibraryEntriesToDomainProgram Parse)
        (sort.Slice Next libraryEntriesLess programs, none)

end repository

/-! ## Go's `time` package: formatting -/

namespace time

/-- Go `appendInt`: the decimal form of `x`, with a sign when negative and padded with
zeros on the left to `width` digits. -/
def appendInt (x : Int) (width : Nat) : String :=
  let digits := toString x.natAbs
  (if x < 0 then "-" else "") ++ "".pushn '0' (width - digits.length) ++ digits

/-- The pieces into which Go `nextStdChunk` splits the layouts that the repository uses:
the reference year "2006", month "01", day "02", hour "15" and minute "04", and the
text in between. -/
inductive stdChunk where
  | stdLongYear
  | stdZeroMonth
  | stdZeroDay
  | stdHour
  | stdZeroMinute
  | text (s : String)
  deriving DecidableEq, Repr

/-- Go `t.Format(layout)` for a layout given by its chunks: the fields are those of the
wall clock of `t` in its Location. -/
def Time.Format (t : Time) (layout : List stdChunk) : String :=
  layout.foldl (fun b chunk =>
    match chunk with
    | .stdLongYear => b ++ appendInt t.Date.1 4
    | .stdZeroMonth => b ++ appendInt t.Date.2.1 2
    | .stdZeroDay => b ++ appendInt t.Date.2.2 2
    | .stdHour => b ++ appendInt t.Clock.1 2
    | .stdZeroMinute => b ++ appendInt t.Clock.2.1 2
    | .text s => b ++ s) ""

end time

namespace jst

open time

/-- The constant `DateLayout = "2006-01-02"`. -/
def DateLayout : List stdChunk :=
  [.stdLongYear, .text "-", .stdZeroMonth, .text "-", .stdZeroDay]

/-- The constant `TimeLayout = "15:04"`. -/
def TimeLayout : List stdChunk := [.stdHour, .text ":", .stdZeroMinute]

/-- `jst.Format`. -/
def Format (jstLocation : Location) (t : Time) (layout : List stdChunk) : String :=
  (t.In jstLocation).Format layout

/-- `jst.FormatDate`. -/
def FormatDate (jstLocation : Location) (t : Time) : String :=
  Format jstLocation t DateLayout

/-- `jst.FormatTime`. -/
def FormatTime (jstLocation : Location) (t : Time) : String :=
  Format jstLocation t TimeLayout

end jst

/-! ## The blocks of `github.com/slack-go/slack` that the presenter builds -/

namespace slack

/-- The text object of a block; `Type_` is its field `Type`. -/
structure TextBlockObject where
  Type_ : String
  Text : String
  Emoji : Bool
  Verbatim : Bool
  deriving DecidableEq, Repr

def PlainTextType : String := "plain_text"

def MarkdownType : String := "mrkdwn"

/-- `slack.NewTextBlockObject`. -/
def NewTextBlockObject (elementType text : String) (emoji verbatim : Bool) : TextBlockObject :=
  { Type_ := elementType, Text := text, Emoji := emoji, Verbatim := verbatim }

/-- A block of a message, of one of the four kinds that the presenter builds.  A section
block is always built without fields and accessory, which are left out. -/
inductive Block where
  | HeaderBlock (Text : TextBlockObject)
  | SectionBlock (Text : TextBlockObject)
  | DividerBlock
  | ImageBlock (ImageURL AltText BlockID : String) (Title : Option TextBlockObject)
  deriving DecidableEq, Repr

/-- `slack.NewHeaderBlock`, without options. -/
def NewHeaderBlock (textObj : TextBlockObject) : Block := .HeaderBlock textObj

/-- `slack.NewSectionBlock(textObj, nil, nil)`. -/
def NewSectionBlock (textObj : TextBlockObject) : Block := .SectionBlock textObj

/-- `slack.NewDividerBlock`. -/
def NewDividerBlock : Block := .DividerBlock

/-- `slack.NewImageBlock`. -/
def NewImageBlock (imageURL altText blockID : String) (title : Option TextBlockObject) :
    Block :=
  .ImageBlock imageURL altText blockID title

end slack

/-! ## `interfaces/presenter` -/

namespace presenter

open entity slack

/-- `SlackProgramPresenter`; the limit is a Go `int`. -/
structure SlackProgramPresenter where
  annictLimitNumToDisplay : Int
  deriving DecidableEq, Repr

/-- `NewSlackProgramPresenter`. -/
def NewSlackProgramPresenter (limit : Int) : SlackProgramPresenter :=
  { annictLimitNumToDisplay := limit }

/-- Go `s[:high]` on a slice: `none` stands for the run-time panic "slice bounds out of
range".  Go checks `high` against the capacity; the one use below is made when
`len(s) > high`, where the length decides as well. -/
def sliceTo {α : Type} (s : List α) (high : Int) : Option (List α) :=
  if 0 ≤ high ∧ high ≤ s.length then some (s.take high.toNat) else none

/-- The variable `title` in the loop of `formatProgramList`. -/
def programTitle (program : Program) : String :=
  match program.Work.OfficialSiteURL with
  | some url =>
    if url ≠ "" then "<" ++ url ++ "|" ++ program.Work.Title ++ ">"
    else "*" ++ program.Work.Title ++ "*"
  | none => "*" ++ program.Work.Title ++ "*"

/-- The string `textBuilder.String()` at the end of an iteration of the loop of
`formatProgramList`. -/
def programText (jstLocation : time.Location) (program : Program) : String :=
  let textBuilder := ""
  let title := programTitle program
  let textBuilder := textBuilder ++ (title ++ "\n")
  let episodeTitleStr :=
    match program.Episode.Title with
    | some t => if t ≠ "" then "「" ++ t ++ "」" else ""
    | none => ""
  let airDateTimeStr :=
    jst.FormatDate jstLocation program.StartTime ++ " "
      ++ jst.FormatTime jstLocation program.StartTime
  let textBuilder :=
    textBuilder ++ (" • " ++ program.Episode.NumberText ++ " " ++ episodeTitleStr ++ "\n")
  textBuilder ++ (" • :tv: " ++ program.Channel.Name ++ " " ++ airDateTimeStr)

/-- One iteration of the loop of `formatProgramList`: the blocks appended for `program`,
its section block and, when it has an ImageURL, its image block. -/
def programBlocks (jstLocation : time.Location) (program : Program) : List Block :=
  let sectionText :=
    NewTextBlockObject MarkdownType (programText jstLocation program) false false
  let sectionBlock := NewSectionBlock sectionText
  let imageBlock : Option Block :=
    match program.Work.ImageURL with
    | some imageURL =>
      some (NewImageBlock imageURL (program.Work.Title ++ " image") "" none)
    | none => none
  let blocks := [sectionBlock]
  match imageBlock with
  | some imageBlock => blocks ++ [imageBlock]
  | none => blocks

/-- `formatProgramList`. -/
def formatProgramList (jstLocation : time.Location) (programs : List Program) :
    List Block :=
  programs.foldl (fun blocks program => blocks ++ programBlocks jstLocation program) []

/-- `FormatCombinedPrograms`: the blocks returned, or `none` when the call panics;
`jstLocation` is the package variable of `jst`. -/
def FormatCombinedPrograms (jstLocation : time.Location) (p : SlackProgramPresenter)
    (todaysPrograms unwatchedPrograms : List Program) (date : time.Time) :
    Option (List Block) :=
  let todayStr := jst.FormatDate jstLocation date
  let blocks : List Block := []
  let headerText := ":calendar: " ++ todayStr ++ " 放送予定のアニメ"
  let headerBlock := NewHeaderBlock (NewTextBlockObject PlainTextType headerText true false)
  let blocks := blocks ++ [headerBlock]
  let blocks :=
    if todaysPrograms.length = 0 then
      let noResultsBlock := NewSectionBlock
        (NewTextBlockObject MarkdownType "本日の放送予定は見つかりませんでした。" false false)
      blocks ++ [noResultsBlock]
    else blocks ++ formatProgramList jstLocation todaysPrograms
  let blocks := blocks ++ [NewDividerBlock]
  let unwatchedHeaderText := ":eyes: 未視聴のアニメ"
  let unwatchedHeaderBlock :=
    NewHeaderBlock (NewTextBlockObject PlainTextType unwatchedHeaderText true false)
  let blocks := blocks ++ [unwatchedHeaderBlock]
  if unwatchedPrograms.length = 0 then
    let noUnwatchedBlock := NewSectionBlock
      (NewTextBlockObject MarkdownType "未視聴のアニメは見つかりませんでした。" false false)
    some (blocks ++ [noUnwatchedBlock])
  else
    let limit := p.annictLimitNumToDisplay
    if (unwatchedPrograms.length : Int) > limit then
      match sliceTo unwatchedPrograms limit with
      | none => none
      | some unwatchedPrograms => some (blocks ++ formatProgramList jstLocation unwatchedPrograms)
    else some (blocks ++ formatProgramList jstLocation unwatchedPrograms)

/-- The number of section blocks among `blocks`: every rendered program, and every
placeholder, is one section block. -/
def countSections (blocks : List Block) : Nat :=
  blocks.countP (fun b => match b with
    | .SectionBlock _ => true
    | _ => false)

/-- `FormatError`, on the text that `%v` prints for the error. -/
def FormatError (err : GoError) : String :=
  ":warning: エラーが発生しました:\n" ++ "\x60\x60\x60" ++ err.Error ++ "\x60\x60\x60"

end presenter

/-! ## Concrete inputs used in the evaluations below -/

namespace inputs

open entity usecase

/-- The value of the package variable `jstLocation` after `init` has loaded the zone
"Asia/Tokyo". -/
def jstLoaded : time.Location := jst.init (some time.asiaTokyo)

/-- The value of the package variable `jstLocation` after `init` has failed to load the
zone. -/
def jstFallback : time.Location := jst.init none

/-- 2024-01-01 23:30 JST. -/
def lateEvening : time.Time := time.Date 2024 1 1 23 30 0 0 time.asiaTokyo

/-- 2024-01-02 00:10 JST. -/
def afterMidnight : time.Time := time.Date 2024 1 2 0 10 0 0 time.asiaTokyo

/-- 2024-01-02 08:00 JST. -/
def earlyMorning : time.Time := time.Date 2024 1 2 8 0 0 0 time.asiaTokyo

/-- 2024-01-02 10:00 JST. -/
def midMorning : time.Time := time.Date 2024 1 2 10 0 0 0 time.asiaTokyo

/-- 2024-01-02 20:00 JST. -/
def evening : time.Time := time.Date 2024 1 2 20 0 0 0 time.asiaTokyo

/-- A program with the given title, ImageURL and StartTime. -/
def program (title : String) (image : Option String) (start : time.Time) : Program :=
  { Work := { Title := title, OfficialSiteURL := none, ImageURL := image },
    Episode := { NumberText := "第1話", Title := none },
    Channel := { Name := "TOKYO MX" },
    StartTime := start }

/-- A validator that accepts exactly the URL "https://example.com/ok.png". -/
def onlyOk : ImageValidationService :=
  { ValidateURL := fun _ url =>
      if url = "https://example.com/ok.png" then (true, url) else (false, "") }

/-- A use case whose two fetches succeed with the given lists. -/
def getter (today library : List Program) : AnnictInfoGetter :=
  { repo := { FetchTodayPrograms := (today, none), FetchLibraryEntries := (library, none) },
    validator := onlyOk }

/-- Three programs: two of the evening of 2024-01-02, one with an image the validator
`onlyOk` accepts and one with an image it rejects, and one of the evening before. -/
def threeToday : List Program :=
  [program "A" (some "https://example.com/ok.png") evening,
   program "B" (some "https://example.com/gone.png") evening,
   program "C" none lateEvening]

/-- One library entry, without StartTime, with an image the validator `onlyOk` rejects. -/
def oneEntry : List Program :=
  [program "D" (some "https://example.com/gone.png") time.Time.zero]

/-- A clock that reads `t` at every call. -/
def fixedClock (t : time.Time) : Nat → time.Time := fun _ => t

/-- A use case whose first fetch fails. -/
def todayFails : AnnictInfoGetter :=
  { repo := { FetchTodayPrograms := ([], some (GoError.errorString "timeout")),
              FetchLibraryEntries := ([program "B" none evening], none) },
    validator := onlyOk }

/-- A use case whose second fetch fails after the first one succeeded. -/
def libraryFails : AnnictInfoGetter :=
  { repo := { FetchTodayPrograms :=
                ([program "A" (some "https://example.com/ok.png") evening], none),
              FetchLibraryEntries := ([], some (GoError.errorString "timeout")) },
    validator := onlyOk }

/-- An HTTP client that answers every request with the given status and Content-Type. -/
def answering (status : Int) (contentType : String) : validator.httpImageValidator :=
  { httpClient := { Do := fun _ => .ok { StatusCode := status, ContentType := contentType } } }

/-- An HTTP client whose every request fails, as on a timeout. -/
def timingOut : validator.httpImageValidator :=
  { httpClient := { Do := fun _ => .error (GoError.errorString "context deadline exceeded") } }

/-- A request builder that accepts every URL. -/
def newRequest (timeout : time.Duration) (method url : String) :
    Except GoError validator.Request :=
  .ok { Method := method, URL := url, Timeout := timeout }

/-- A parser of RFC 3339 timestamps that knows one timestamp only. -/
def parseOne (s : String) : Option time.Time :=
  if s = "2024-01-02T20:00:00+09:00" then some evening else none

/-- A work record with no recommended image and an empty social-preview image URL. -/
def workWithEmptyOgImage : annict.Work :=
  { Title := "A", OfficialSiteURL := some "",
    Image := some { RecommendedImageURL := none, FacebookOgImageURL := some "" },
    otherFieldsSet := false }

/-- A today-program node carrying `workWithEmptyOgImage` and a full episode record. -/
def nodeWithEmptyOgImage : annict.GetPrograms_Viewer_Programs_Nodes :=
  { StartedAt := "2024-01-02T20:00:00+09:00",
    Work := workWithEmptyOgImage,
    Episode := { NumberText := some "第3話", Number := some 3, Title := some "C",
                 otherFieldsSet := false },
    Channel := { Name := "TOKYO MX", otherFieldsSet := false } }

/-- A library-entry node carrying `workWithEmptyOgImage`. -/
def entryWithEmptyOgImage : annict.GetLibraryEntries_Viewer_LibraryEntries_Nodes :=
  { Work := workWithEmptyOgImage,
    NextEpisode := some { NumberText := some "", Title := none },
    NextProgram := none }

/-- A today-program node whose episode record is zero-valued. -/
def nodeWithoutEpisode : annict.GetPrograms_Viewer_Programs_Nodes :=
  { StartedAt := "2024-01-02T20:00:00+09:00",
    Work := { Title := "A", OfficialSiteURL := none, Image := none, otherFieldsSet := false },
    Episode := { NumberText := none, Number := none, Title := none, otherFieldsSet := false },
    Channel := { Name := "TOKYO MX", otherFieldsSet := false } }

/-- A library-entry node without next episode. -/
def entryWithoutNextEpisode : annict.GetLibraryEntries_Viewer_LibraryEntries_Nodes :=
  { Work := { Title := "A", OfficialSiteURL := none, Image := none, otherFieldsSet := false },
    NextEpisode := none,
    NextProgram := none }

/-- A parser of RFC 3339 timestamps that knows two timestamps only. -/
def parseTwo (s : String) : Option time.Time :=
  if s = "2024-01-02T20:00:00+09:00" then some evening
  else if s = "2024-01-02T19:00:00+09:00" then some (evening.Add (-time.Hour))
  else none

/-- A library-entry node with the given title whose next program starts at `startedAt`. -/
def entryAt (title startedAt : String) : annict.GetLibraryEntries_Viewer_LibraryEntries_Nodes :=
  { Work := { Title := title, OfficialSiteURL := none, Image := none, otherFieldsSet := false },
    NextEpisode := none,
    NextProgram := some { StartedAt := startedAt,
                          Channel := { Name := "TOKYO MX", otherFieldsSet := false } } }

/-- Three library entries with StartTimes T, unset and T - 1h, T being 2024-01-02 20:00
JST. -/
def threeEntries : annict.GetLibraryEntries_Viewer_LibraryEntries :=
  { Nodes := [some (entryAt "A" "2024-01-02T20:00:00+09:00"),
              some (entryAt "B" ""),
              some (entryAt "C" "2024-01-02T19:00:00+09:00")] }

/-- A repository whose query returns `threeEntries` for every season. -/
def threeEntriesRepository : repository.annictRepository :=
  { GetLibraryEntries := fun _ =>
      (some { Viewer := some { LibraryEntries := some threeEntries } }, none) }

/-- A today-program node whose episode has a number and a present but empty title. -/
def nodeWithEmptyEpisodeTitle : annict.GetPrograms_Viewer_Programs_Nodes :=
  { StartedAt := "2024-01-02T20:00:00+09:00",
    Work := { Title := "A", OfficialSiteURL := none, Image := none, otherFieldsSet := false },
    Episode := { NumberText := none, Number := some 3, Title := some "",
                 otherFieldsSet := false },
    Channel := { Name := "TOKYO MX", otherFieldsSet := false } }

/-- A library-entry node whose next episode has a present but empty title. -/
def entryWithEmptyEpisodeTitle : annict.GetLibraryEntries_Viewer_LibraryEntries_Nodes :=
  { Work := { Title := "A", OfficialSiteURL := none, Image := none, otherFieldsSet := false },
    NextEpisode := some { NumberText := some "第3話", Title := some "" },
    NextProgram := none }

/-- A today-program node whose episode has the given number text and raw number. -/
def nodeWithEpisode (numberText : Option String) (number : Option Int) :
    annict.GetPrograms_Viewer_Programs_Nodes :=
  { StartedAt := "2024-01-02T20:00:00+09:00",
    Work := { Title := "A", OfficialSiteURL := none, Image := none, otherFieldsSet := false },
    Episode := { NumberText := numberText, Number := number, Title := some "C",
                 otherFieldsSet := false },
    Channel := { Name := "TOKYO MX", otherFieldsSet := false } }

/-- Three library entries, the first with an image. -/
def threeLibrary : List Program :=
  [program "A" (some "https://example.com/a.png") evening,
   program "B" none evening,
   program "C" none time.Time.zero]

/-- A program whose work has the given OfficialSiteURL. -/
def programWithSite (url : Option String) : Program :=
  { Work := { Title := "A", OfficialSiteURL := url, ImageURL := none },
    Episode := { NumberText := "第1話", Title := some "B" },
    Channel := { Name := "TOKYO MX" },
    StartTime := evening }

/-- 2024-12-31 23:00 UTC, which is 2025-01-01 08:00 JST. -/
def newYearsEveUTC : time.Time := time.Date 2024 12 31 23 0 0 0 time.UTC

/-- 2024-03-31 14:59 UTC, which is 2024-03-31 23:59 JST. -/
def endOfMarch : time.Time := time.Date 2024 3 31 14 59 0 0 time.UTC

/-- 2024-03-31 15:00 UTC, which is 2024-04-01 00:00 JST. -/
def startOfApril : time.Time := time.Date 2024 3 31 15 0 0 0 time.UTC

/-- 1950-06-30 14:30 UTC, which is 1950-07-01 00:30 in Japan, then on summer time. -/
def summerNight1950 : time.Time := time.Date 1950 6 30 14 30 0 0 time.UTC

end inputs

/-! ## Properties of `jst.IsSameDate` -/


theorem time.Truncate_day_eq (t : time.Time) :
    (t.Truncate (24 * time.Hour)).abs = 24 * time.Hour * (t.abs / (24 * time.Hour)) := by
  have hd : ¬ ((24 : Int) * time.Hour ≤ 0) := by decide
  simp only [time.Time.Truncate, hd, if_false]
  have := Int.emod_add_ediv t.abs (24 * time.Hour)
  omega

theorem jst.IsSameDate_iff_UTC_day (jstLocation : time.Location) (t1 t2 : time.Time) :
    jst.IsSameDate jstLocation t1 t2 = true ↔ t1.abs / (24 * time.Hour) = t2.abs / (24 * time.Hour) := by
  unfold jst.IsSameDate time.Time.Equal
  rw [beq_iff_eq, time.Truncate_day_eq, time.Truncate_day_eq]
  simp only [time.Time.In]
  constructor
  · intro h
    have hd : (24 : Int) * time.Hour ≠ 0 := by decide
    exact Int.eq_of_mul_eq_mul_left hd h
  · intro h
    rw [h]

/-! ## Properties of `Execute` -/

namespace usecase

open entity

theorem validatorCalls_append (l1 l2 : List Call) :
    validatorCalls (l1 ++ l2) = validatorCalls l1 ++ validatorCalls l2 := by
  induction l1 with
  | nil => rfl
  | cons c cs ih => cases c <;> simp [validatorCalls, ih]

theorem clockReadings_append (l1 l2 : List Call) :
    clockReadings (l1 ++ l2) = clockReadings l1 ++ clockReadings l2 := by
  induction l1 with
  | nil => rfl
  | cons c cs ih => cases c <;> simp [clockReadings, ih]

theorem validateImage_fst (ag : AnnictInfoGetter) (p : Program) (log : List Call) :
    (validateImage ag p log).1 = (checkOne ag (validatorCalls log).length p).1 := by
  unfold validateImage checkOne imageToCheck
  cases h : p.Work.ImageURL with
  | none => rfl
  | some url =>
    by_cases hu : url = ""
    · simp [hu]
    · simp only [hu, ne_eq, not_false_eq_true, if_true]
      cases hv : (ag.validator.ValidateURL (validatorCalls log).length url).1 <;> simp [clearImage]

theorem validateImage_validatorCalls (ag : AnnictInfoGetter) (p : Program) (log : List Call) :
    validatorCalls (validateImage ag p log).2
      = validatorCalls log ++ (checkOne ag (validatorCalls log).length p).2 := by
  unfold validateImage checkOne imageToCheck
  cases h : p.Work.ImageURL with
  | none => simp
  | some url =>
    by_cases hu : url = ""
    · simp [hu]
    · simp only [hu, ne_eq, not_false_eq_true, if_true]
      cases hv : (ag.validator.ValidateURL (validatorCalls log).length url).1 <;>
        simp [validatorCalls_append, validatorCalls]

theorem validateImage_clockReadings (ag : AnnictInfoGetter) (p : Program) (log : List Call) :
    clockReadings (validateImage ag p log).2 = clockReadings log := by
  unfold validateImage
  cases h : p.Work.ImageURL with
  | none => simp
  | some url =>
    by_cases hu : url = ""
    · simp [hu]
    · simp only [hu, ne_eq, not_false_eq_true, if_true]
      cases hv : (ag.validator.ValidateURL (validatorCalls log).length url).1 <;>
        simp [clockReadings_append, clockReadings]

theorem libraryLoop_fst (ag : AnnictInfoGetter) (ls acc : List Program) (log : List Call) :
    (libraryLoop ag ls acc log).1 = acc ++ (runChecks ag (validatorCalls log).length ls).1 := by
  induction ls generalizing acc log with
  | nil => simp [libraryLoop, runChecks]
  | cons l rest ih =>
    simp only [libraryLoop, runChecks]
    rw [ih, validateImage_fst, validateImage_validatorCalls]
    simp

theorem libraryLoop_validatorCalls (ag : AnnictInfoGetter) (ls acc : List Program)
    (log : List Call) :
    validatorCalls (libraryLoop ag ls acc log).2
      = validatorCalls log ++ (runChecks ag (validatorCalls log).length ls).2 := by
  induction ls generalizing acc log with
  | nil => simp [libraryLoop, runChecks]
  | cons l rest ih =>
    simp only [libraryLoop, runChecks]
    rw [ih, validateImage_validatorCalls]
    simp

theorem todayLoop_fst (jstLocation : time.Location)
    (ag : AnnictInfoGetter) (clock : Nat → time.Time)
    (ps acc : List Program) (log : List Call) :
    (todayLoop jstLocation ag clock ps acc log).1
      = acc ++ (runChecks ag (validatorCalls log).length
          (retained jstLocation clock (clockReadings log).length ps)).1 := by
  induction ps generalizing acc log with
  | nil => simp [todayLoop, retained, runChecks]
  | cons p rest ih =>
    simp only [todayLoop, retained]
    by_cases hz : p.StartTime.IsZero = true
    · simp only [hz, if_true]
      exact ih acc log
    · simp only [hz, Bool.false_eq_true, if_false]
      by_cases hs : jst.IsSameDate jstLocation p.StartTime
          (jst.Now jstLocation (clock (clockReadings log).length)) = true
      · simp only [hs, Bool.not_true, Bool.false_eq_true, if_false, if_true]
        rw [ih, validateImage_fst, validateImage_validatorCalls, validateImage_clockReadings]
        simp [runChecks, validatorCalls_append, validatorCalls, clockReadings_append,
          clockReadings]
      · simp only [hs, Bool.not_false, if_true, if_false]
        rw [ih]
        simp [validatorCalls_append, validatorCalls, clockReadings_append, clockReadings]

theorem todayLoop_validatorCalls (jstLocation : time.Location)
    (ag : AnnictInfoGetter) (clock : Nat → time.Time)
    (ps acc : List Program) (log : List Call) :
    validatorCalls (todayLoop jstLocation ag clock ps acc log).2
      = validatorCalls log ++ (runChecks ag (validatorCalls log).length
          (retained jstLocation clock (clockReadings log).length ps)).2 := by
  induction ps generalizing acc log with
  | nil => simp [todayLoop, retained, runChecks]
  | cons p rest ih =>
    simp only [todayLoop, retained]
    by_cases hz : p.StartTime.IsZero = true
    · simp only [hz, if_true]
      exact ih acc log
    · simp only [hz, Bool.false_eq_true, if_false]
      by_cases hs : jst.IsSameDate jstLocation p.StartTime
          (jst.Now jstLocation (clock (clockReadings log).length)) = true
      · simp only [hs, Bool.not_true, Bool.false_eq_true, if_false, if_true]
        rw [ih, validateImage_validatorCalls, validateImage_clockReadings]
        simp [runChecks, validatorCalls_append, validatorCalls, clockReadings_append,
          clockReadings]
      · simp only [hs, Bool.not_false, if_true, if_false]
        rw [ih]
        simp [validatorCalls_append, validatorCalls, clockReadings_append, clockReadings]

theorem retained_sublist (jstLocation : time.Location)
    (clock : Nat → time.Time) (c : Nat) (ps : List Program) :
    (retained jstLocation clock c ps).Sublist ps := by
  induction ps generalizing c with
  | nil => simp [retained]
  | cons p rest ih =>
    simp only [retained]
    split
    · exact (ih c).cons p
    · split
      · exact (ih (c + 1)).cons₂ p
      · exact (ih (c + 1)).cons p

theorem retained_constant_clock (jstLocation : time.Location)
    (clock : Nat → time.Time) (now : time.Time)
    (hnow : ∀ k, clock k = now) (c : Nat) (ps : List Program) :
    retained jstLocation clock c ps
      = ps.filter (fun p => !p.StartTime.IsZero
          && jst.IsSameDate jstLocation p.StartTime (jst.Now jstLocation now)) := by
  induction ps generalizing c with
  | nil => simp [retained]
  | cons p rest ih =>
    simp only [retained, List.filter_cons, hnow]
    by_cases hz : p.StartTime.IsZero = true
    · simp [hz, ih]
    · by_cases hs : jst.IsSameDate jstLocation p.StartTime (jst.Now jstLocation now) = true
      · simp [hz, hs, ih]
      · simp [hz, hs, ih]

theorem checkOne_snd_length (ag : AnnictInfoGetter) (n : Nat) (p : Program) :
    (checkOne ag n p).2.length = if (imageToCheck p).isSome then 1 else 0 := by
  unfold checkOne
  cases imageToCheck p <;> simp

theorem imageToCheck_eq_some (p : Program) (url : String) :
    imageToCheck p = some url ↔ p.Work.ImageURL = some url ∧ url ≠ "" := by
  unfold imageToCheck
  cases h : p.Work.ImageURL with
  | none => simp
  | some u =>
    by_cases hu : u = ""
    · subst hu
      simp only [ne_eq, not_true_eq_false, if_false, Option.some.injEq]
      constructor
      · intro h1
        cases h1
      · rintro ⟨h1, h2⟩
        exact absurd h1.symm h2
    · simp only [ne_eq, hu, not_false_eq_true, if_true, Option.some.injEq]
      constructor
      · intro h1
        subst h1
        exact ⟨rfl, hu⟩
      · rintro ⟨h1, _⟩
        exact h1

theorem runChecks_snd_length (ag : AnnictInfoGetter) (n : Nat) (ps : List Program) :
    (runChecks ag n ps).2.length = (ps.filter (fun r => (imageToCheck r).isSome)).length := by
  induction ps generalizing n with
  | nil => simp [runChecks]
  | cons p rest ih =>
    simp only [runChecks, List.length_append, ih, checkOne_snd_length, List.filter_cons]
    cases h : (imageToCheck p).isSome <;> simp [h]; omega

theorem runChecks_fst_length (ag : AnnictInfoGetter) (n : Nat) (ps : List Program) :
    (runChecks ag n ps).1.length = ps.length := by
  induction ps generalizing n with
  | nil => simp [runChecks]
  | cons p rest ih => simp [runChecks, ih]

theorem runChecks_getElem? (ag : AnnictInfoGetter) (n : Nat) (ps : List Program) (i : Nat) :
    (runChecks ag n ps).1[i]?
      = (ps[i]?).map (fun p =>
          (checkOne ag (n + ((ps.take i).filter (fun r => (imageToCheck r).isSome)).length) p).1) := by
  induction ps generalizing n i with
  | nil => simp [runChecks]
  | cons p rest ih =>
    cases i with
    | zero => simp [runChecks]
    | succ i =>
      simp only [runChecks, List.getElem?_cons_succ, ih, checkOne_snd_length, List.take_succ_cons,
        List.filter_cons]
      cases h : (imageToCheck p).isSome <;> simp [h, Nat.add_assoc, Nat.add_comm 1]

theorem checkOne_fields (ag : AnnictInfoGetter) (n : Nat) (p : Program) :
    (checkOne ag n p).1.Work.Title = p.Work.Title
      ∧ (checkOne ag n p).1.Work.OfficialSiteURL = p.Work.OfficialSiteURL
      ∧ (checkOne ag n p).1.Episode = p.Episode
      ∧ (checkOne ag n p).1.Channel = p.Channel
      ∧ (checkOne ag n p).1.StartTime = p.StartTime := by
  unfold checkOne
  cases imageToCheck p with
  | none => simp
  | some url => cases hv : (ag.validator.ValidateURL n url).1 <;> simp [hv, clearImage]

theorem checkOne_image_of_invalid (ag : AnnictInfoGetter) (n : Nat) (p : Program)
    (h : ∃ url, p.Work.ImageURL = some url ∧ url ≠ "" ∧ (ag.validator.ValidateURL n url).1 = false) :
    (checkOne ag n p).1.Work.ImageURL = none := by
  obtain ⟨url, h1, h2, h3⟩ := h
  have hc : imageToCheck p = some url := (imageToCheck_eq_some p url).2 ⟨h1, h2⟩
  simp [checkOne, hc, h3, clearImage]

theorem checkOne_image_of_not_invalid (ag : AnnictInfoGetter) (n : Nat) (p : Program)
    (h : ¬ ∃ url, p.Work.ImageURL = some url ∧ url ≠ "" ∧ (ag.validator.ValidateURL n url).1 = false) :
    (checkOne ag n p).1.Work.ImageURL = p.Work.ImageURL := by
  unfold checkOne
  cases hc : imageToCheck p with
  | none => rfl
  | some url =>
    obtain ⟨h1, h2⟩ := (imageToCheck_eq_some p url).1 hc
    cases hv : (ag.validator.ValidateURL n url).1 with
    | true => simp [hv]
    | false => exact absurd ⟨url, h1, h2, hv⟩ h

theorem checkOne_present_image (ag : AnnictInfoGetter) (n : Nat) (p : Program) (url : String)
    (hurl : (checkOne ag n p).1.Work.ImageURL = some url) (hne : url ≠ "") :
    (checkOne ag n p).2 = [(url, true)] ∧ (ag.validator.ValidateURL n url).1 = true := by
  unfold checkOne at hurl ⊢
  cases hc : imageToCheck p with
  | none =>
    simp only [hc] at hurl
    have := (imageToCheck_eq_some p url).2 ⟨hurl, hne⟩
    rw [hc] at this
    cases this
  | some u =>
    simp only [hc] at hurl
    cases hv : (ag.validator.ValidateURL n u).1 with
    | false => simp [hv, clearImage] at hurl
    | true =>
      simp only [hv, if_true] at hurl
      have := (imageToCheck_eq_some p url).2 ⟨hurl, hne⟩
      rw [hc] at this
      cases this
      simp [hv]

theorem runChecks_ImageChecked (ag : AnnictInfoGetter) (n : Nat) (ps : List Program) :
    ImageChecked ag n ps (runChecks ag n ps).1 := by
  refine ⟨runChecks_fst_length ag n ps, ?_⟩
  intro i p hp
  refine ⟨(checkOne ag (n + ((ps.take i).filter (fun r => (imageToCheck r).isSome)).length) p).1,
    ?_, ?_⟩
  · rw [runChecks_getElem?, hp]
    rfl
  · obtain ⟨h1, h2, h3, h4, h5⟩ := checkOne_fields ag
      (n + ((ps.take i).filter (fun r => (imageToCheck r).isSome)).length) p
    exact ⟨h1, h2, h3, h4, h5, checkOne_image_of_invalid ag _ p,
      checkOne_image_of_not_invalid ag _ p⟩

/-- Every program that leaves the image checks with a present, non-empty ImageURL was
submitted to the validator, whose answer to that call was valid. -/
theorem runChecks_evidence (ag : AnnictInfoGetter) (n : Nat) (ps : List Program)
    (q : Program) (hq : q ∈ (runChecks ag n ps).1) (url : String)
    (hurl : q.Work.ImageURL = some url) (hne : url ≠ "") :
    ∃ j, (runChecks ag n ps).2[j]? = some (url, true)
      ∧ (ag.validator.ValidateURL (n + j) url).1 = true := by
  induction ps generalizing n with
  | nil => simp [runChecks] at hq
  | cons p rest ih =>
    simp only [runChecks, List.mem_cons] at hq
    rcases hq with hq | hq
    · subst hq
      obtain ⟨h1, h2⟩ := checkOne_present_image ag n p url hurl hne
      refine ⟨0, ?_, ?_⟩
      · simp [runChecks, h1]
      · simpa using h2
    · obtain ⟨j, h1, h2⟩ := ih (n + (checkOne ag n p).2.length) hq
      refine ⟨(checkOne ag n p).2.length + j, ?_, ?_⟩
      · simp only [runChecks]
        rw [List.getElem?_append_right (by omega)]
        simpa using h1
      · rw [← Nat.add_assoc]
        exact h2

theorem Execute_of_fetched (jstLocation : time.Location)
    (ag : AnnictInfoGetter) (clock : Nat → time.Time)
    (ps ls : List Program) (htoday : ag.repo.FetchTodayPrograms = (ps, none))
    (hlib : ag.repo.FetchLibraryEntries = (ls, none)) :
    (Execute jstLocation ag clock).1
        = (some { Programs := (runChecks ag 0 (retained jstLocation clock 0 ps)).1,
                  LibraryEntries :=
                    (runChecks ag (runChecks ag 0 (retained jstLocation clock 0 ps)).2.length ls).1 }, none)
      ∧ validatorCalls (Execute jstLocation ag clock).2
        = (runChecks ag 0 (retained jstLocation clock 0 ps)).2
          ++ (runChecks ag (runChecks ag 0 (retained jstLocation clock 0 ps)).2.length ls).2 := by
  unfold Execute
  simp only [htoday, hlib]
  have h1 := todayLoop_fst jstLocation ag clock ps [] [Call.FetchTodayPrograms]
  have h2 := todayLoop_validatorCalls jstLocation ag clock ps [] [Call.FetchTodayPrograms]
  simp only [validatorCalls, clockReadings, List.length_nil, List.nil_append] at h1 h2
  constructor
  · rw [libraryLoop_fst, h1, validatorCalls_append, h2]
    simp [validatorCalls]
  · rw [libraryLoop_validatorCalls, validatorCalls_append, h2]
    simp [validatorCalls]

end usecase

/-! ## Properties of Go's `sort.Slice` -/

namespace sort

section

variable {α : Type}

theorem scanUp_spec (test : List α → Nat → Bool) (d : List α) (j : Nat) :
    ∀ (fuel i : Nat), i ≤ j + 1 → j + 1 ≤ i + fuel →
      i ≤ scanUp test d j fuel i ∧ scanUp test d j fuel i ≤ j + 1
        ∧ (∀ k, i ≤ k → k < scanUp test d j fuel i → test d k = true)
        ∧ (scanUp test d j fuel i ≤ j → test d (scanUp test d j fuel i) = false) := by
  intro fuel
  induction fuel with
  | zero =>
    intro i h1 h2
    simp only [scanUp]
    exact ⟨Nat.le_refl _, h1, fun k hk1 hk2 => by omega, fun h => by omega⟩
  | succ fuel ih =>
    intro i h1 h2
    simp only [scanUp]
    by_cases hc : i ≤ j ∧ test d i = true
    · simp only [hc, and_self, if_true]
      obtain ⟨r1, r2, r3, r4⟩ := ih (i + 1) (by omega) (by omega)
      refine ⟨by omega, r2, ?_, r4⟩
      intro k hk1 hk2
      by_cases hki : k = i
      · subst hki
        exact hc.2
      · exact r3 k (by omega) hk2
    · simp only [hc, if_false]
      refine ⟨Nat.le_refl _, h1, fun k hk1 hk2 => by omega, ?_⟩
      intro hij
      by_contra hne
      exact hc ⟨hij, by simpa using hne⟩

theorem scanDown_spec (test : List α → Nat → Bool) (d : List α) (i : Nat) (hi : 1 ≤ i) :
    ∀ (j : Nat), i ≤ j + 1 →
      i ≤ scanDown test d i j + 1 ∧ scanDown test d i j ≤ j
        ∧ (∀ k, scanDown test d i j < k → k ≤ j → test d k = true)
        ∧ (i ≤ scanDown test d i j → test d (scanDown test d i j) = false) := by
  intro j
  induction j with
  | zero =>
    intro h1
    simp only [scanDown]
    exact ⟨by omega, Nat.le_refl _, fun k hk1 hk2 => by omega, fun h => by omega⟩
  | succ j ih =>
    intro h1
    simp only [scanDown]
    by_cases hc : i ≤ j + 1 ∧ test d (j + 1) = true
    · simp only [hc, and_self, if_true]
      obtain ⟨r1, r2, r3, r4⟩ := ih (by omega)
      refine ⟨r1, by omega, ?_, r4⟩
      intro k hk1 hk2
      by_cases hkj : k = j + 1
      · subst hkj
        exact hc.2
      · exact r3 k hk1 (by omega)
    · simp only [hc, if_false]
      refine ⟨h1, Nat.le_refl _, fun k hk1 hk2 => by omega, ?_⟩
      intro hij
      by_contra hne
      exact hc ⟨hij, by simpa using hne⟩

theorem bitsLenAux_zero (fuel : Nat) : bitsLenAux fuel 0 = 0 := by
  cases fuel <;> simp [bitsLenAux]

theorem two_pow_bitsLenAux_le (fuel : Nat) :
    ∀ x, 1 ≤ x → x ≤ fuel → 2 ^ bitsLenAux fuel x ≤ 2 * x := by
  induction fuel with
  | zero =>
    intro x h1 h2
    omega
  | succ fuel ih =>
    intro x h1 h2
    have hx : x ≠ 0 := by omega
    simp only [bitsLenAux, hx, if_false]
    by_cases h : x / 2 = 0
    · rw [h, bitsLenAux_zero]
      simp
      omega
    · have := ih (x / 2) (by omega) (by omega)
      rw [pow_succ]
      omega

theorem nextPowerOfTwo_le (length : Nat) (h : 1 ≤ length) :
    nextPowerOfTwo length ≤ 2 * length :=
  two_pow_bitsLenAux_le length length h (Nat.le_refl _)

theorem breakPatterns_other_lt (random length : Nat) (h : 1 ≤ length) :
    breakPatterns_other random (nextPowerOfTwo length) length < length := by
  unfold breakPatterns_other
  have h1 : random &&& (nextPowerOfTwo length - 1) ≤ nextPowerOfTwo length - 1 :=
    Nat.and_le_right
  have h2 := nextPowerOfTwo_le length h
  simp only
  split <;> omega

end

variable {α : Type} [Inhabited α] {less : α → α → Bool} {le : α → α → Prop}

theorem Swap_length (d : List α) (i j : Nat) : (Swap d i j).length = d.length := by
  simp [Swap]

theorem Swap_left (d : List α) (i j : Nat) (hi : i < d.length) :
    elem (Swap d i j) i = elem d j := by
  unfold Swap elem
  by_cases h : i = j
  · subst h
    simp [List.getD_eq_getElem?_getD, List.getElem?_set, hi]
  · simp [List.getD_eq_getElem?_getD, List.getElem?_set, hi, h, Ne.symm h]

theorem Swap_right (d : List α) (i j : Nat) (hj : j < d.length) :
    elem (Swap d i j) j = elem d i := by
  unfold Swap elem
  simp [List.getD_eq_getElem?_getD, List.getElem?_set, hj]

theorem Swap_other (d : List α) {i j k : Nat} (h1 : k ≠ i) (h2 : k ≠ j) :
    elem (Swap d i j) k = elem d k := by
  unfold Swap elem
  simp [List.getD_eq_getElem?_getD, List.getElem?_set, Ne.symm h1, Ne.symm h2]

theorem Swap_self (d : List α) (i : Nat) : Swap d i i = d := by
  unfold Swap elem
  apply List.ext_getElem?
  intro k
  by_cases h : i = k
  · subst h
    by_cases hi : i < d.length
    · simp [List.getElem?_set, hi, List.getD_eq_getElem?_getD]
    · simp [List.getElem?_set, hi, List.getElem?_eq_none (Nat.le_of_not_lt hi)]
  · simp [List.getElem?_set, h]

theorem elem_eq_getElem (d : List α) (i : Nat) (h : i < d.length) : elem d i = d[i] := by
  simp [elem, List.getD_eq_getElem?_getD, List.getElem?_eq_getElem h]

theorem PermIn.refl (a b : Nat) (d : List α) : PermIn a b d d :=
  ⟨rfl, Equiv.refl _, fun _ _ => rfl, fun _ => rfl⟩

theorem PermIn.length_eq {a b : Nat} {d e : List α} (h : PermIn a b d e) :
    e.length = d.length := h.1

theorem PermIn.trans {a b : Nat} {d e f : List α} (h1 : PermIn a b d e) (h2 : PermIn a b e f) :
    PermIn a b d f := by
  obtain ⟨l1, σ, hσ, h1⟩ := h1
  obtain ⟨l2, τ, hτ, h2⟩ := h2
  refine ⟨l2.trans l1, τ.trans σ, ?_, ?_⟩
  · intro k hk
    simp only [Equiv.trans_apply]
    rw [hτ k hk, hσ k hk]
  · intro k
    simp only [Equiv.trans_apply]
    rw [h2, h1]

theorem PermIn.mono {a b a2 b2 : Nat} {d e : List α} (h : PermIn a b d e)
    (ha : a2 ≤ a) (hb : b ≤ b2) : PermIn a2 b2 d e := by
  obtain ⟨l1, σ, hσ, h1⟩ := h
  refine ⟨l1, σ, ?_, h1⟩
  intro k hk
  apply hσ
  omega

theorem PermIn.swap {a b : Nat} (d : List α) {i j : Nat} (hi : a ≤ i ∧ i < b)
    (hj : a ≤ j ∧ j < b) (hb : b ≤ d.length) : PermIn a b d (Swap d i j) := by
  refine ⟨Swap_length d i j, Equiv.swap i j, ?_, ?_⟩
  · intro k hk
    apply Equiv.swap_apply_of_ne_of_ne
    · rintro rfl
      exact hk hi
    · rintro rfl
      exact hk hj
  · intro k
    by_cases h1 : k = i
    · subst h1
      rw [Swap_left d k j (by omega)]
      simp
    · by_cases h2 : k = j
      · subst h2
        rw [Swap_right d i k (by omega)]
        simp
      · rw [Swap_other d h1 h2, Equiv.swap_apply_of_ne_of_ne h1 h2]

theorem PermIn.maps_in {a b : Nat} {σ : Equiv.Perm Nat}
    (hσ : ∀ k, ¬ (a ≤ k ∧ k < b) → σ k = k) {k : Nat} (hk : a ≤ k ∧ k < b) :
    a ≤ σ k ∧ σ k < b := by
  by_contra hc
  have h1 := hσ (σ k) hc
  have h2 := σ.injective h1
  rw [h2] at hc
  exact hc hk

theorem PermIn.outside {a b : Nat} {d e : List α} (h : PermIn a b d e) {k : Nat}
    (hk : ¬ (a ≤ k ∧ k < b)) : elem e k = elem d k := by
  obtain ⟨_, σ, hσ, h1⟩ := h
  rw [h1, hσ k hk]

theorem PermIn.forall_in {a b : Nat} {d e : List α} (h : PermIn a b d e) {P : α → Prop}
    (hP : ∀ k, a ≤ k → k < b → P (elem d k)) : ∀ k, a ≤ k → k < b → P (elem e k) := by
  obtain ⟨_, σ, hσ, h1⟩ := h
  intro k hk1 hk2
  rw [h1]
  have := PermIn.maps_in hσ ⟨hk1, hk2⟩
  exact hP _ this.1 this.2

theorem list_eq_map_elem (d : List α) : d = (List.range d.length).map (elem d) := by
  apply List.ext_getElem
  · simp
  · intro k h1 h2
    simp [elem, List.getD_eq_getElem?_getD, List.getElem?_eq_getElem h1]

theorem PermIn.list_perm {d e : List α} (h : PermIn 0 d.length d e) : e.Perm d := by
  obtain ⟨hl, σ, hσ, h1⟩ := h
  rw [list_eq_map_elem e, list_eq_map_elem d, hl]
  have he : (List.range d.length).map (elem e)
      = ((List.range d.length).map σ).map (elem d) := by
    rw [List.map_map]
    apply List.map_congr_left
    intro k _
    exact h1 k
  rw [he]
  apply List.Perm.map
  apply (List.perm_ext_iff_of_nodup ?_ (List.nodup_range _)).2
  · intro k
    simp only [List.mem_map, List.mem_range]
    constructor
    · rintro ⟨m, hm, rfl⟩
      exact (PermIn.maps_in hσ ⟨Nat.zero_le _, hm⟩).2
    · intro hk
      refine ⟨σ.symm k, ?_, by simp⟩
      by_contra hc
      have h2 : σ (σ.symm k) = σ.symm k := hσ _ (by omega)
      simp at h2
      rw [← h2] at hc
      exact hc hk
  · exact (List.nodup_range _).map σ.injective

theorem insertionSort_inner_spec (hr : Respects less le) (a i : Nat) :
    ∀ (j : Nat) (d : List α), a ≤ j → j ≤ i → i + 1 ≤ d.length →
      SortedOn le d a j → SortedOn le d (j + 1) (i + 1) →
      (∀ x y, a ≤ x → x < j → j < y → y ≤ i → le (elem d x) (elem d y)) →
      (∀ y, j < y → y ≤ i → le (elem d j) (elem d y)) →
      SortedOn le (insertionSort_inner less a j d) a (i + 1)
        ∧ PermIn a (i + 1) d (insertionSort_inner less a j d) := by
  intro j
  induction j with
  | zero =>
    intro d ha _ _ _ h2 _ h4
    refine ⟨?_, PermIn.refl _ _ _⟩
    simp only [insertionSort_inner]
    intro x y hx hxy hy
    by_cases h0 : x = 0
    · subst h0
      exact h4 y hxy (by omega)
    · exact h2 x y (by omega) hxy hy
  | succ j ih =>
    intro d ha hji hlen h1 h2 h3 h4
    simp only [insertionSort_inner]
    by_cases hc : a < j + 1 ∧ less (elem d (j + 1)) (elem d j) = true
    · simp only [hc, and_self, if_true]
      have hlt := hr.of_less _ _ hc.2
      have hs : ∀ k, k ≠ j + 1 → k ≠ j → elem (Swap d (j + 1) j) k = elem d k :=
        fun k hk1 hk2 => Swap_other d hk1 hk2
      have hsl : elem (Swap d (j + 1) j) (j + 1) = elem d j :=
        Swap_left d _ _ (by omega)
      have hsr : elem (Swap d (j + 1) j) j = elem d (j + 1) := Swap_right d _ _ (by omega)
      obtain ⟨r1, r2⟩ := ih (Swap d (j + 1) j) (by omega) (by omega)
        (by rw [Swap_length]; exact hlen)
        (by
          intro x y hx hxy hy
          rw [hs x (by omega) (by omega), hs y (by omega) (by omega)]
          exact h1 x y hx hxy (by omega))
        (by
          intro x y hx hxy hy
          rw [hs y (by omega) (by omega)]
          by_cases hx1 : x = j + 1
          · subst hx1
            rw [hsl]
            exact h3 j y (by omega) (by omega) (by omega) (by omega)
          · rw [hs x hx1 (by omega)]
            exact h2 x y (by omega) hxy hy)
        (by
          intro x y hx hxj hjy hy
          rw [hs x (by omega) (by omega)]
          by_cases hy1 : y = j + 1
          · subst hy1
            rw [hsl]
            exact h1 x j hx hxj (by omega)
          · rw [hs y hy1 (by omega)]
            exact h3 x y hx (by omega) (by omega) hy)
        (by
          intro y hjy hy
          rw [hsr]
          by_cases hy1 : y = j + 1
          · subst hy1
            rw [hsl]
            exact hlt
          · rw [hs y hy1 (by omega)]
            exact h4 y (by omega) hy)
      exact ⟨r1, (PermIn.swap d (by omega) (by omega) hlen).trans r2⟩
    · simp only [hc, if_false]
      refine ⟨?_, PermIn.refl _ _ _⟩
      intro x y hx hxy hy
      by_cases hxj : x < j + 1
      · by_cases hyj : y < j + 1
        · exact h1 x y hx hxy hyj
        · by_cases hyj2 : y = j + 1
          · subst hyj2
            have hless : less (elem d (j + 1)) (elem d j) = false := by
              by_contra hne
              exact hc ⟨by omega, by simpa using hne⟩
            have hle := hr.of_not_less _ _ hless
            by_cases hxj2 : x = j
            · subst hxj2
              exact hle
            · exact hr.trans _ _ _ (h1 x j hx (by omega) (by omega)) hle
          · exact h3 x y hx hxj (by omega) (by omega)
      · by_cases hxj2 : x = j + 1
        · subst hxj2
          exact h4 y hxy (by omega)
        · exact h2 x y (by omega) hxy hy

theorem insertionSort_outer_spec (hr : Respects less le) (a : Nat) :
    ∀ (n i : Nat) (d : List α), a ≤ i → i + n ≤ d.length → SortedOn le d a i →
      SortedOn le (insertionSort_outer less a n i d) a (i + n)
        ∧ PermIn a (i + n) d (insertionSort_outer less a n i d) := by
  intro n
  induction n with
  | zero =>
    intro i d _ _ h
    exact ⟨h, PermIn.refl _ _ _⟩
  | succ n ih =>
    intro i d hai hlen h
    simp only [insertionSort_outer]
    obtain ⟨r1, r2⟩ := insertionSort_inner_spec hr a i i d hai (Nat.le_refl _) (by omega) h
      (by intro x y hx hxy hy; omega) (by intro x y hx hxj hjy hy; omega)
      (by intro y hjy hy; omega)
    obtain ⟨s1, s2⟩ := ih (i + 1) _ (by omega) (by rw [r2.length_eq]; omega) r1
    have e : i + 1 + n = i + (n + 1) := by omega
    rw [e] at s1 s2
    exact ⟨s1, (r2.mono (Nat.le_refl _) (by omega)).trans s2⟩

theorem insertionSort_func_spec (hr : Respects less le) (d : List α) (a b : Nat)
    (hb : b ≤ d.length) :
    SortedOn le (insertionSort_func less d a b) a b
      ∧ PermIn a b d (insertionSort_func less d a b) := by
  unfold insertionSort_func
  by_cases hab : a + 1 ≤ b
  · obtain ⟨r1, r2⟩ := insertionSort_outer_spec hr a (b - (a + 1)) (a + 1) d (by omega)
      (by omega) (by intro x y hx hxy hy; omega)
    have e : a + 1 + (b - (a + 1)) = b := by omega
    rw [e] at r1 r2
    exact ⟨r1, r2⟩
  · have e : b - (a + 1) = 0 := by omega
    rw [e]
    exact ⟨by intro x y hx hxy hy; omega, PermIn.refl _ _ _⟩

theorem siftDown_loop_spec (hr : Respects less le) (lo hi first : Nat) :
    ∀ (fuel : Nat) (d : List α) (root : Nat), hi ≤ root + fuel → lo ≤ root →
      first + hi ≤ d.length →
      (∀ i, lo ≤ i → i < hi → i ≠ root → HeapAt le d first hi i) →
      (∀ c p, (c = 2 * root + 1 ∨ c = 2 * root + 2) → c < hi → lo ≤ p →
        (root = 2 * p + 1 ∨ root = 2 * p + 2) → le (elem d (first + c)) (elem d (first + p))) →
      (∀ i, lo ≤ i → i < hi → HeapAt le (siftDown_loop less hi first fuel d root) first hi i)
        ∧ PermIn (first + lo) (first + hi) d (siftDown_loop less hi first fuel d root) := by
  intro fuel
  induction fuel with
  | zero =>
    intro d root hf _ _ h1 _
    refine ⟨?_, PermIn.refl _ _ _⟩
    intro i hi1 hi2
    exact h1 i hi1 hi2 (by omega)
  | succ fuel ih =>
    intro d root hf hlo hlen h1 h2
    simp only [siftDown_loop]
    by_cases hc : 2 * root + 1 ≥ hi
    · simp only [hc, if_true]
      refine ⟨?_, PermIn.refl _ _ _⟩
      intro i hi1 hi2
      by_cases hir : i = root
      · subst hir
        exact ⟨fun h => by omega, fun h => by omega⟩
      · exact h1 i hi1 hi2 hir
    · simp only [hc, if_false]
      -- the chosen child and the facts about it
      obtain ⟨c, hcdef, hc1, hc2, hc3⟩ : ∃ c,
          (if 2 * root + 1 + 1 < hi ∧
              less (elem d (first + (2 * root + 1))) (elem d (first + (2 * root + 1) + 1)) = true
            then 2 * root + 1 + 1 else 2 * root + 1) = c
          ∧ (c = 2 * root + 1 ∨ c = 2 * root + 2) ∧ c < hi
          ∧ (∀ o, (o = 2 * root + 1 ∨ o = 2 * root + 2) → o < hi →
              le (elem d (first + o)) (elem d (first + c))) := by
        by_cases hch : 2 * root + 1 + 1 < hi ∧
            less (elem d (first + (2 * root + 1))) (elem d (first + (2 * root + 1) + 1)) = true
        · refine ⟨2 * root + 2, by simp [hch], Or.inr rfl, by omega, ?_⟩
          rintro o (ho | ho) _
          · subst ho
            exact hr.of_less _ _ hch.2
          · subst ho
            exact hr.refl _
        · refine ⟨2 * root + 1, by simp [hch], Or.inl rfl, by omega, ?_⟩
          rintro o (ho | ho) ho2
          · subst ho
            exact hr.refl _
          · subst ho
            have hl : less (elem d (first + (2 * root + 1))) (elem d (first + (2 * root + 1) + 1)) = false := by
              by_contra hne
              exact hch ⟨by omega, by simpa using hne⟩
            exact hr.of_not_less _ _ hl
      rw [hcdef]
      by_cases hl : less (elem d (first + root)) (elem d (first + c)) = true
      · simp only [hl, Bool.not_true, Bool.false_eq_true, if_false]
        have hrc := hr.of_less _ _ hl
        have hs : ∀ k, k ≠ first + root → k ≠ first + c →
            elem (Swap d (first + root) (first + c)) k = elem d k := fun k hk1 hk2 => Swap_other d hk1 hk2
        have hsl : elem (Swap d (first + root) (first + c)) (first + root) = elem d (first + c) :=
          Swap_left d _ _ (by omega)
        have hsr : elem (Swap d (first + root) (first + c)) (first + c) = elem d (first + root) :=
          Swap_right d _ _ (by omega)
        obtain ⟨r1, r2⟩ := ih (Swap d (first + root) (first + c)) c (by omega) (by omega)
          (by rw [Swap_length]; exact hlen)
          (by
            intro i hi1 hi2 hic
            by_cases hir : i = root
            · subst hir
              constructor
              · intro hlt
                rw [hsl]
                by_cases hcc : c = 2 * i + 1
                · subst hcc
                  rw [hsr]
                  exact hrc
                · rw [hs _ (by omega) (by omega)]
                  exact hc3 _ (Or.inl rfl) hlt
              · intro hlt
                rw [hsl]
                by_cases hcc : c = 2 * i + 2
                · subst hcc
                  rw [hsr]
                  exact hrc
                · rw [hs _ (by omega) (by omega)]
                  exact hc3 _ (Or.inr rfl) hlt
            · have hh := h1 i hi1 hi2 hir
              constructor
              · intro hlt
                rw [hs (first + i) (by omega) (by omega)]
                by_cases hp : 2 * i + 1 = root
                · rw [hp, hsl]
                  exact h2 c i hc1 hc2 hi1 (Or.inl hp.symm)
                · rw [hs _ (by omega) (by omega)]
                  exact hh.1 hlt
              · intro hlt
                rw [hs (first + i) (by omega) (by omega)]
                by_cases hp : 2 * i + 2 = root
                · rw [hp, hsl]
                  exact h2 c i hc1 hc2 hi1 (Or.inr hp.symm)
                · rw [hs _ (by omega) (by omega)]
                  exact hh.2 hlt)
          (by
            intro cc p hcc1 hcc2 hp1 hp2
            have hpr : p = root := by omega
            subst hpr
            rw [hsl, hs _ (by omega) (by omega)]
            have hh := h1 c (by omega) hc2 (by omega)
            rcases hcc1 with hcc1 | hcc1
            · subst hcc1
              exact hh.1 hcc2
            · subst hcc1
              exact hh.2 hcc2)
        exact ⟨r1, (PermIn.swap d (by omega) (by omega) hlen).trans r2⟩
      · simp only [hl, Bool.not_false, if_true]
        have hl2 : less (elem d (first + root)) (elem d (first + c)) = false := by simpa using hl
        have hcr := hr.of_not_less _ _ hl2
        refine ⟨?_, PermIn.refl _ _ _⟩
        intro i hi1 hi2
        by_cases hir : i = root
        · subst hir
          exact ⟨fun h => hr.trans _ _ _ (hc3 _ (Or.inl rfl) h) hcr,
            fun h => hr.trans _ _ _ (hc3 _ (Or.inr rfl) h) hcr⟩
        · exact h1 i hi1 hi2 hir

theorem siftDown_func_spec (hr : Respects less le) (d : List α) (lo hi first : Nat)
    (hlen : first + hi ≤ d.length)
    (h : ∀ i, lo < i → i < hi → HeapAt le d first hi i) :
    (∀ i, lo ≤ i → i < hi → HeapAt le (siftDown_func less d lo hi first) first hi i)
      ∧ PermIn (first + lo) (first + hi) d (siftDown_func less d lo hi first) := by
  unfold siftDown_func
  apply siftDown_loop_spec hr lo hi first hi d lo (by omega) (Nat.le_refl _) hlen
  · intro i hi1 hi2 hne
    exact h i (by omega) hi2
  · intro c p _ _ hp1 hp2
    omega

theorem heapSort_build_spec (hr : Respects less le) (hi first : Nat) :
    ∀ (i : Nat) (d : List α), first + hi ≤ d.length →
      (∀ j, i < j → j < hi → HeapAt le d first hi j) →
      (∀ j, j < hi → HeapAt le (heapSort_build less hi first i d) first hi j)
        ∧ PermIn first (first + hi) d (heapSort_build less hi first i d) := by
  intro i
  induction i with
  | zero =>
    intro d hlen h
    simp only [heapSort_build]
    obtain ⟨r1, r2⟩ := siftDown_func_spec hr d 0 hi first hlen h
    exact ⟨fun j hj => r1 j (Nat.zero_le _) hj, r2⟩
  | succ i ih =>
    intro d hlen h
    simp only [heapSort_build]
    obtain ⟨r1, r2⟩ := siftDown_func_spec hr d (i + 1) hi first hlen h
    obtain ⟨s1, s2⟩ := ih _ (by rw [r2.length_eq]; exact hlen)
      (fun j hj1 hj2 => r1 j (by omega) hj2)
    exact ⟨s1, (r2.mono (by omega) (Nat.le_refl _)).trans s2⟩

theorem heap_root_max (hr : Respects less le) (d : List α) (first hi : Nat)
    (h : ∀ j, j < hi → HeapAt le d first hi j) :
    ∀ k, k < hi → le (elem d (first + k)) (elem d (first + 0)) := by
  intro k
  induction k using Nat.strong_induction_on with
  | _ k ih =>
    intro hk
    by_cases h0 : k = 0
    · subst h0
      exact hr.refl _
    · have hp := h ((k - 1) / 2) (by omega)
      have hpar := ih ((k - 1) / 2) (by omega) (by omega)
      by_cases hodd : k = 2 * ((k - 1) / 2) + 1
      · have := hp.1 (by omega)
        rw [← hodd] at this
        exact hr.trans _ _ _ this hpar
      · have hev : k = 2 * ((k - 1) / 2) + 2 := by omega
        have := hp.2 (by omega)
        rw [← hev] at this
        exact hr.trans _ _ _ this hpar

theorem heapSort_pop_spec (hr : Respects less le) (first hi : Nat) :
    ∀ (i : Nat) (d : List α), i + 1 ≤ hi ∨ (hi = 0 ∧ i = 0) → first + hi ≤ d.length →
      (∀ j, j < i + 1 → HeapAt le d first (i + 1) j) →
      SortedOn le d (first + i + 1) (first + hi) →
      (∀ x y, first ≤ x → x ≤ first + i → first + i < y → y < first + hi → le (elem d x) (elem d y)) →
      SortedOn le (heapSort_pop less first i d) first (first + hi)
        ∧ PermIn first (first + hi) d (heapSort_pop less first i d) := by
  intro i
  induction i with
  | zero =>
    intro d _ _ _ h2 h3
    simp only [heapSort_pop, siftDown_func, siftDown_loop, Nat.add_zero, Swap_self]
    refine ⟨?_, PermIn.refl _ _ _⟩
    intro x y hx hxy hy
    by_cases hxf : x = first
    · subst hxf
      exact h3 x y (Nat.le_refl _) (by omega) (by omega) hy
    · exact h2 x y (by omega) hxy hy
  | succ i ih =>
    intro d hihi hlen h1 h2 h3
    have hihi2 : i + 2 ≤ hi := by omega
    simp only [heapSort_pop]
    have hs : ∀ k, k ≠ first → k ≠ first + (i + 1) →
        elem (Swap d first (first + (i + 1))) k = elem d k :=
      fun k hk1 hk2 => Swap_other d hk1 hk2
    have hsl : elem (Swap d first (first + (i + 1))) first = elem d (first + (i + 1)) :=
      Swap_left d _ _ (by omega)
    have hsr : elem (Swap d first (first + (i + 1))) (first + (i + 1)) = elem d first :=
      Swap_right d _ _ (by omega)
    have hmax := heap_root_max hr d first (i + 2) h1
    obtain ⟨r1, r2⟩ := siftDown_func_spec hr (Swap d first (first + (i + 1))) 0
      (i + 1) first (by rw [Swap_length]; omega)
      (by
        intro j hj1 hj2
        have hh := h1 j (by omega)
        constructor
        · intro hlt
          rw [hs _ (by omega) (by omega), hs _ (by omega) (by omega)]
          exact hh.1 (by omega)
        · intro hlt
          rw [hs _ (by omega) (by omega), hs _ (by omega) (by omega)]
          exact hh.2 (by omega))
    simp only [Nat.add_zero] at r2
    -- every element now in `[first, first + i]` is below everything after it
    have hcross : ∀ k, first ≤ k → k < first + (i + 1) →
        ∀ y, first + i < y → y < first + hi →
          le (elem (siftDown_func less (Swap d first (first + (i + 1))) 0 (i + 1) first) k)
            (elem (Swap d first (first + (i + 1))) y) := by
      apply PermIn.forall_in r2
        (P := fun v => ∀ y, first + i < y → y < first + hi →
          le v (elem (Swap d first (first + (i + 1))) y))
      intro k hk1 hk2 y hy1 hy2
      have hk : ∃ k2, first ≤ k2 ∧ k2 ≤ first + (i + 1)
          ∧ elem (Swap d first (first + (i + 1))) k = elem d k2 := by
        by_cases hkf : k = first
        · exact ⟨first + (i + 1), by omega, by omega, by rw [hkf, hsl]⟩
        · exact ⟨k, hk1, by omega, hs k hkf (by omega)⟩
      obtain ⟨k2, hk21, hk22, hk23⟩ := hk
      rw [hk23]
      by_cases hy : y = first + (i + 1)
      · rw [hy, hsr]
        have := hmax (k2 - first) (by omega)
        have e : first + (k2 - first) = k2 := by omega
        rw [e] at this
        simpa using this
      · rw [hs y (by omega) hy]
        exact h3 k2 y hk21 (by omega) (by omega) hy2
    have hout : ∀ y, first + i < y →
        elem (siftDown_func less (Swap d first (first + (i + 1))) 0 (i + 1) first) y
          = elem (Swap d first (first + (i + 1))) y :=
      fun y hy => PermIn.outside r2 (by omega)
    obtain ⟨s1, s2⟩ := ih (siftDown_func less (Swap d first (first + (i + 1))) 0 (i + 1) first)
      (by omega) (by rw [r2.length_eq, Swap_length]; exact hlen)
      (fun j hj => r1 j (Nat.zero_le _) hj)
      (by
        intro x y hx hxy hy
        rw [hout x (by omega), hout y (by omega), hs y (by omega) (by omega)]
        by_cases hx1 : x = first + (i + 1)
        · rw [hx1, hsr]
          exact h3 first y (Nat.le_refl _) (by omega) (by omega) hy
        · rw [hs x (by omega) hx1]
          exact h2 x y (by omega) hxy hy)
      (by
        intro x y hx1 hx2 hy1 hy2
        rw [hout y hy1]
        exact hcross x hx1 (by omega) y hy1 hy2)
    refine ⟨s1, ?_⟩
    exact ((PermIn.swap d (by omega) (by omega) hlen).trans
      (r2.mono (Nat.le_refl _) (by omega))).trans s2

theorem heapSort_func_spec (hr : Respects less le) (d : List α) (a b : Nat) (hab : a ≤ b)
    (hb : b ≤ d.length) :
    SortedOn le (heapSort_func less d a b) a b ∧ PermIn a b d (heapSort_func less d a b) := by
  unfold heapSort_func
  simp only
  obtain ⟨r1, r2⟩ := heapSort_build_spec hr (b - a) a ((b - a - 1) / 2) d
    (by omega)
    (by
      intro j hj1 hj2
      exact ⟨fun h => by omega, fun h => by omega⟩)
  obtain ⟨s1, s2⟩ := heapSort_pop_spec hr a (b - a) (b - a - 1)
    (heapSort_build less (b - a) a ((b - a - 1) / 2) d) (by omega)
    (by rw [r2.length_eq]; omega)
    (by
      intro j hj
      by_cases h0 : b - a = 0
      · have hj0 : j = 0 := by omega
        subst hj0
        exact ⟨fun h => by omega, fun h => by omega⟩
      · have e : b - a - 1 + 1 = b - a := by omega
        rw [e]
        exact r1 j (by omega))
    (by intro x y hx hxy hy; omega)
    (by intro x y hx1 hx2 hy1 hy2; omega)
  have e : a + (b - a) = b := by omega
  rw [e] at s1 s2 r2
  exact ⟨s1, r2.trans s2⟩

theorem partitionLoop_spec {up down : List α → Nat → Bool} {p : α} {L R : α → Prop}
    (a b : Nat) (ht : Tests p L R a up down) :
    ∀ (fuel : Nat) (d : List α) (i j : Nat), a < i → i ≤ j + 1 → j < b → j + 2 ≤ i + fuel →
      b ≤ d.length →
      elem d a = p →
      (∀ k, a < k → k < i → L (elem d k)) →
      (∀ k, j < k → k < b → R (elem d k)) →
      (partitionLoop up down fuel d i j).2.1 = (partitionLoop up down fuel d i j).2.2 + 1
        ∧ a ≤ (partitionLoop up down fuel d i j).2.2
        ∧ (partitionLoop up down fuel d i j).2.2 < b
        ∧ elem (partitionLoop up down fuel d i j).1 a = p
        ∧ PermIn (a + 1) b d (partitionLoop up down fuel d i j).1
        ∧ (∀ k, a < k → k ≤ (partitionLoop up down fuel d i j).2.2 →
            L (elem (partitionLoop up down fuel d i j).1 k))
        ∧ (∀ k, (partitionLoop up down fuel d i j).2.2 < k → k < b →
            R (elem (partitionLoop up down fuel d i j).1 k)) := by
  intro fuel
  induction fuel with
  | zero =>
    intro d i j h1 h2 h3 h4
    omega
  | succ fuel ih =>
    intro d i j h1 h2 h3 h4 hlen hp h5 h6
    simp only [partitionLoop]
    obtain ⟨u1, u2, u3, u4⟩ := scanUp_spec up d j (j + 1 - i) i h2 (by omega)
    generalize scanUp up d j (j + 1 - i) i = i2 at u1 u2 u3 u4 ⊢
    obtain ⟨v1, v2, v3, v4⟩ := scanDown_spec down d i2 (by omega) j u2
    generalize scanDown down d i2 j = j2 at v1 v2 v3 v4 ⊢
    have hlow : ∀ k, a < k → k < i2 → L (elem d k) := by
      intro k hk1 hk2
      by_cases hki : k < i
      · exact h5 k hk1 hki
      · exact ht.up_true d k hp (u3 k (by omega) hk2)
    have hhigh : ∀ k, j2 < k → k < b → R (elem d k) := by
      intro k hk1 hk2
      by_cases hkj : j < k
      · exact h6 k hkj hk2
      · exact ht.down_true d k hp (v3 k hk1 (by omega))
    by_cases hc : i2 > j2
    · rw [if_pos hc]
      dsimp only
      exact ⟨by omega, by omega, by omega, hp, PermIn.refl _ _ _,
        fun k hk1 hk2 => hlow k hk1 (by omega), hhigh⟩
    · rw [if_neg hc]
      have hij : i2 ≤ j2 := by omega
      have hi2 := ht.up_false d i2 hp (u4 (by omega))
      have hj2 := ht.down_false d j2 hp (v4 hij)
      have hne : i2 ≠ j2 := by
        intro he
        have e1 := ht.excl d i2 (u4 (by omega))
        have e2 := v4 hij
        rw [← he, e1] at e2
        cases e2
      have hs : ∀ k, k ≠ i2 → k ≠ j2 → elem (Swap d i2 j2) k = elem d k :=
        fun k hk1 hk2 => Swap_other d hk1 hk2
      have hsl : elem (Swap d i2 j2) i2 = elem d j2 := Swap_left d _ _ (by omega)
      have hsr : elem (Swap d i2 j2) j2 = elem d i2 := Swap_right d _ _ (by omega)
      have hsa : elem (Swap d i2 j2) a = p := by rw [hs a (by omega) (by omega), hp]
      obtain ⟨r1, r2, r3, r4, r5, r6, r7⟩ := ih (Swap d i2 j2) (i2 + 1) (j2 - 1) (by omega)
        (by omega) (by omega) (by omega) (by rw [Swap_length]; exact hlen) hsa
        (by
          intro k hk1 hk2
          by_cases hk : k = i2
          · rw [hk, hsl]
            exact hj2
          · by_cases hkj : k = j2
            · omega
            · rw [hs k hk hkj]
              exact hlow k hk1 (by omega))
        (by
          intro k hk1 hk2
          by_cases hk : k = j2
          · rw [hk, hsr]
            exact hi2
          · by_cases hki : k = i2
            · omega
            · rw [hs k hki hk]
              exact hhigh k (by omega) hk2)
      exact ⟨r1, r2, r3, r4, (PermIn.swap d (by omega) (by omega) hlen).trans r5, r6, r7⟩

theorem partition_func_eq (less : α → α → Bool) (d : List α) (a b pivot : Nat) :
    (partition_func less d a b pivot).1
        = Swap (partitionLoop (lessThanPivot less a) (notLessThanPivot less a)
            (b + 1) (Swap d a pivot) (a + 1) (b - 1)).1
          (partitionLoop (lessThanPivot less a) (notLessThanPivot less a)
            (b + 1) (Swap d a pivot) (a + 1) (b - 1)).2.2 a
      ∧ (partition_func less d a b pivot).2.1
        = (partitionLoop (lessThanPivot less a) (notLessThanPivot less a)
            (b + 1) (Swap d a pivot) (a + 1) (b - 1)).2.2 := by
  unfold partition_func
  simp only [partitionLoop]
  split
  · exact ⟨rfl, rfl⟩
  · exact ⟨rfl, rfl⟩

/-- After `partition_func` the pivot is at index `mid`, the elements before it answer
true to `less · pivot` or are the pivot's and those after it answer false. -/
theorem partition_func_spec (hr : Respects less le) (d : List α) (a b pivot : Nat)
    (hab : a < b) (hp : a ≤ pivot ∧ pivot < b) (hb : b ≤ d.length) :
    a ≤ (partition_func less d a b pivot).2.1
      ∧ (partition_func less d a b pivot).2.1 < b
      ∧ PermIn a b d (partition_func less d a b pivot).1
      ∧ (∀ k, a ≤ k → k < (partition_func less d a b pivot).2.1 →
          le (elem (partition_func less d a b pivot).1 k)
            (elem (partition_func less d a b pivot).1 (partition_func less d a b pivot).2.1))
      ∧ (∀ k, (partition_func less d a b pivot).2.1 < k → k < b →
          less (elem (partition_func less d a b pivot).1 k)
            (elem (partition_func less d a b pivot).1 (partition_func less d a b pivot).2.1)
            = false) := by
  obtain ⟨e1, e2⟩ := partition_func_eq less d a b pivot
  rw [e1, e2]
  have ht : Tests (elem d pivot) (fun x => le x (elem d pivot)) (fun x => less x (elem d pivot) = false) a
      (lessThanPivot less a) (notLessThanPivot less a) :=
    { up_true := fun d i h1 h2 => by
        simp only [lessThanPivot, h1] at h2
        exact hr.of_less _ _ h2
      up_false := fun d i h1 h2 => by simpa only [lessThanPivot, h1] using h2
      down_true := fun d j h1 h2 => by simpa [notLessThanPivot, h1] using h2
      down_false := fun d j h1 h2 => by
        simp only [notLessThanPivot, h1] at h2
        exact hr.of_less _ _ (by simpa using h2)
      excl := fun d k h => by
        simp only [lessThanPivot] at h
        simp [notLessThanPivot, h] }
  obtain ⟨r1, r2, r3, r4, r5, r6, r7⟩ := partitionLoop_spec a b ht (b + 1) (Swap d a pivot)
    (a + 1) (b - 1) (by omega) (by omega) (by omega) (by omega)
    (by rw [Swap_length]; exact hb) (Swap_left d _ _ (by omega))
    (by intro k hk1 hk2; omega) (by intro k hk1 hk2; omega)
  revert r1 r2 r3 r4 r5 r6 r7
  rcases partitionLoop (lessThanPivot less a) (notLessThanPivot less a)
    (b + 1) (Swap d a pivot) (a + 1) (b - 1) with ⟨d2, i2, j2⟩
  intro r1 r2 r3 r4 r5 r6 r7
  dsimp only at r1 r2 r3 r4 r5 r6 r7 ⊢
  have hlen2 : b ≤ d2.length := by rw [r5.length_eq, Swap_length]; exact hb
  have hsl : elem (Swap d2 j2 a) j2 = elem d pivot := by rw [Swap_left d2 _ _ (by omega), r4]
  refine ⟨r2, r3, ?_, ?_, ?_⟩
  · exact ((PermIn.swap d (by omega) hp hb).trans (r5.mono (by omega) (Nat.le_refl _))).trans
      (PermIn.swap d2 (by omega) (by omega) hlen2)
  · intro k hk1 hk2
    rw [hsl]
    by_cases hka : k = a
    · rw [hka, Swap_right d2 _ _ (by omega)]
      exact r6 j2 (by omega) (Nat.le_refl _)
    · rw [Swap_other d2 (by omega) hka]
      exact r6 k (by omega) (by omega)
  · intro k hk1 hk2
    rw [hsl, Swap_other d2 (by omega) (by omega)]
    exact r7 k hk1 hk2

/-- After `partitionEqual_func` the elements before index `mid` answer false to
`less pivot ·` and those from `mid` on answer true. -/
theorem partitionEqual_func_spec (d : List α) (a b pivot : Nat)
    (hab : a < b) (hp : a ≤ pivot ∧ pivot < b) (hb : b ≤ d.length)
    (hirr : less (elem d pivot) (elem d pivot) = false) :
    a < (partitionEqual_func less d a b pivot).2
      ∧ (partitionEqual_func less d a b pivot).2 ≤ b
      ∧ PermIn a b d (partitionEqual_func less d a b pivot).1
      ∧ (∀ k, a ≤ k → k < (partitionEqual_func less d a b pivot).2 →
          less (elem d pivot) (elem (partitionEqual_func less d a b pivot).1 k) = false)
      ∧ (∀ k, (partitionEqual_func less d a b pivot).2 ≤ k → k < b →
          less (elem d pivot) (elem (partitionEqual_func less d a b pivot).1 k) = true) := by
  have e1 : (partitionEqual_func less d a b pivot).1
      = (partitionLoop (pivotNotLess less a) (pivotLess less a)
          (b + 1) (Swap d a pivot) (a + 1) (b - 1)).1 := rfl
  have e2 : (partitionEqual_func less d a b pivot).2
      = (partitionLoop (pivotNotLess less a) (pivotLess less a)
          (b + 1) (Swap d a pivot) (a + 1) (b - 1)).2.1 := rfl
  rw [e1, e2]
  have ht : Tests (elem d pivot) (fun x => less (elem d pivot) x = false) (fun x => less (elem d pivot) x = true)
      a (pivotNotLess less a) (pivotLess less a) :=
    { up_true := fun d i h1 h2 => by simpa [pivotNotLess, h1] using h2
      up_false := fun d i h1 h2 => by simpa [pivotNotLess, h1] using h2
      down_true := fun d j h1 h2 => by simpa only [pivotLess, h1] using h2
      down_false := fun d j h1 h2 => by simpa only [pivotLess, h1] using h2
      excl := fun d k h => by
        simp only [pivotNotLess] at h
        simpa [pivotLess] using h }
  obtain ⟨r1, r2, r3, r4, r5, r6, r7⟩ := partitionLoop_spec a b ht (b + 1) (Swap d a pivot)
    (a + 1) (b - 1) (by omega) (by omega) (by omega) (by omega)
    (by rw [Swap_length]; exact hb) (Swap_left d _ _ (by omega))
    (by intro k hk1 hk2; omega) (by intro k hk1 hk2; omega)
  revert r1 r2 r3 r4 r5 r6 r7
  rcases partitionLoop (pivotNotLess less a) (pivotLess less a)
    (b + 1) (Swap d a pivot) (a + 1) (b - 1) with ⟨d2, i2, j2⟩
  intro r1 r2 r3 r4 r5 r6 r7
  dsimp only at r1 r2 r3 r4 r5 r6 r7 ⊢
  refine ⟨by omega, by omega, ?_, ?_, ?_⟩
  · exact (PermIn.swap d (by omega) hp hb).trans (r5.mono (by omega) (Nat.le_refl _))
  · intro k hk1 hk2
    by_cases hka : k = a
    · rw [hka, r4]
      exact hirr
    · exact r6 k (by omega) (by omega)
  · intro k hk1 hk2
    exact r7 k (by omega) hk2

theorem AbovePrevious.of_permIn {a b : Nat} {d e : List α} (h : AbovePrevious less d a b)
    (hp : PermIn a b d e) : AbovePrevious less e a b := by
  intro ha k hk1 hk2
  rw [PermIn.outside hp (k := a - 1) (by omega)]
  exact PermIn.forall_in hp (P := fun v => less v (elem d (a - 1)) = false) (h ha) k hk1 hk2

theorem AbovePrevious.shrink {a b b2 : Nat} {d : List α} (h : AbovePrevious less d a b)
    (hb : b2 ≤ b) : AbovePrevious less d a b2 :=
  fun ha k hk1 hk2 => h ha k hk1 (by omega)

theorem shiftRight_permIn (less : α → α → Bool) (i b : Nat) :
    ∀ (fuel j : Nat) (d : List α), i + 1 ≤ j → b ≤ d.length →
      PermIn i b d (shiftRight less b fuel j d) := by
  intro fuel
  induction fuel with
  | zero =>
    intro j d _ _
    exact PermIn.refl _ _ _
  | succ fuel ih =>
    intro j d hj hlen
    simp only [shiftRight]
    by_cases hjb : j < b
    · rw [if_pos hjb]
      by_cases hl : (!less (elem d j) (elem d (j - 1))) = true
      · rw [if_pos hl]
        exact PermIn.refl _ _ _
      · rw [if_neg hl]
        exact (PermIn.swap d (by omega) (by omega) hlen).trans
          (ih (j + 1) _ (by omega) (by rw [Swap_length]; exact hlen))
    · rw [if_neg hjb]
      exact PermIn.refl _ _ _

/-- The loop that shifts an element to the left down to index 1 does what the loop bounded
by `a` does, as long as the element does not answer true to `less · data[a-1]`. -/
theorem insertionSort_inner_zero (less : α → α → Bool) (a : Nat) :
    ∀ (j : Nat) (d : List α), a ≤ j → j < d.length →
      (0 < a → less (elem d j) (elem d (a - 1)) = false) →
      insertionSort_inner less 0 j d = insertionSort_inner less a j d := by
  intro j
  induction j with
  | zero =>
    intro d _ _ _
    rfl
  | succ j ih =>
    intro d haj hlen h
    simp only [insertionSort_inner]
    by_cases ha : a = j + 1
    · have h1 := h (by omega)
      have e : a - 1 = j := by omega
      rw [e] at h1
      have c1 : ¬ (0 < j + 1 ∧ less (elem d (j + 1)) (elem d j) = true) := by
        rintro ⟨_, h2⟩
        rw [h1] at h2
        cases h2
      have c2 : ¬ (a < j + 1 ∧ less (elem d (j + 1)) (elem d j) = true) := by
        rintro ⟨h2, _⟩
        omega
      rw [if_neg c1, if_neg c2]
    · by_cases hc : less (elem d (j + 1)) (elem d j) = true
      · have c1 : (0 < j + 1 ∧ less (elem d (j + 1)) (elem d j) = true) := ⟨by omega, hc⟩
        have c2 : (a < j + 1 ∧ less (elem d (j + 1)) (elem d j) = true) := ⟨by omega, hc⟩
        rw [if_pos c1, if_pos c2]
        apply ih _ (by omega) (by rw [Swap_length]; omega)
        intro ha0
        rw [Swap_right d _ _ (by omega), Swap_other d (by omega) (by omega)]
        exact h ha0
      · have c1 : ¬ (0 < j + 1 ∧ less (elem d (j + 1)) (elem d j) = true) := fun h2 => hc h2.2
        have c2 : ¬ (a < j + 1 ∧ less (elem d (j + 1)) (elem d j) = true) := fun h2 => hc h2.2
        rw [if_neg c1, if_neg c2]

theorem SortedOn.extend (hr : Respects less le) (d : List α) (a i : Nat) (hai : a < i) :
    ∀ (n : Nat), SortedOn le d a i →
      (∀ k, i ≤ k → k < i + n → le (elem d (k - 1)) (elem d k)) → SortedOn le d a (i + n) := by
  intro n
  induction n with
  | zero =>
    intro h _
    exact h
  | succ n ih =>
    intro h hadj
    have h1 := ih h (fun k hk1 hk2 => hadj k hk1 (by omega))
    intro x y hx hxy hy
    by_cases hyl : y < i + n
    · exact h1 x y hx hxy hyl
    · have hy2 : y = i + n := by omega
      have hlast := hadj y (by omega) (by omega)
      by_cases hxl : x = y - 1
      · rw [hxl]
        exact hlast
      · exact hr.trans _ _ _ (h1 x (y - 1) hx (by omega) (by omega)) hlast

theorem partialInsertionSort_loop_spec (hr : Respects less le) (a b : Nat) :
    ∀ (steps i : Nat) (d : List α), a < i → i ≤ b → b ≤ d.length →
      SortedOn le d a i → AbovePrevious less d a b →
      PermIn a b d (partialInsertionSort_loop less a b steps i d).1
        ∧ ((partialInsertionSort_loop less a b steps i d).2 = true →
            SortedOn le (partialInsertionSort_loop less a b steps i d).1 a b) := by
  intro steps
  induction steps with
  | zero =>
    intro i d _ _ _ _ _
    exact ⟨PermIn.refl _ _ _, fun h => by simp [partialInsertionSort_loop] at h⟩
  | succ steps ih =>
    intro i d hai hib hlen hsorted habove
    simp only [partialInsertionSort_loop]
    obtain ⟨u1, u2, u3, u4⟩ := scanUp_spec (notLessThanPrevious less) d (b - 1) (b - i) i
      (by omega) (by omega)
    revert u1 u2 u3 u4
    generalize scanUp (notLessThanPrevious less) d (b - 1) (b - i) i = i2
    intro u1 u2 u3 u4
    have hs2 : SortedOn le d a i2 := by
      have := SortedOn.extend hr d a i hai (i2 - i) hsorted
        (by
          intro k hk1 hk2
          have := u3 k hk1 (by omega)
          simp only [notLessThanPrevious, Bool.not_eq_true'] at this
          exact hr.of_not_less _ _ this)
      have e : i + (i2 - i) = i2 := by omega
      rw [e] at this
      exact this
    by_cases hi2 : i2 = b
    · rw [if_pos hi2]
      refine ⟨PermIn.refl _ _ _, fun _ => ?_⟩
      rw [hi2] at hs2
      exact hs2
    · rw [if_neg hi2]
      by_cases hshort : b - a < 50
      · rw [if_pos hshort]
        exact ⟨PermIn.refl _ _ _, fun h => by simp at h⟩
      · rw [if_neg hshort]
        have hi2b : i2 < b := by omega
        -- the swap
        have p1 : PermIn a b d (Swap d i2 (i2 - 1)) :=
          PermIn.swap d (by omega) (by omega) hlen
        have hs : ∀ k, k ≠ i2 → k ≠ i2 - 1 → elem (Swap d i2 (i2 - 1)) k = elem d k :=
          fun k hk1 hk2 => Swap_other d hk1 hk2
        -- the shift to the left
        obtain ⟨d2, hd2, p2, s2⟩ : ∃ d2,
            (if i2 - a ≥ 2 then insertionSort_inner less 0 (i2 - 1) (Swap d i2 (i2 - 1))
              else Swap d i2 (i2 - 1)) = d2
            ∧ PermIn a b (Swap d i2 (i2 - 1)) d2 ∧ SortedOn le d2 a i2 := by
          by_cases hge : i2 - a ≥ 2
          · rw [if_pos hge]
            refine ⟨_, rfl, ?_⟩
            rw [insertionSort_inner_zero less a (i2 - 1) (Swap d i2 (i2 - 1)) (by omega)
              (by rw [Swap_length]; omega)
              (by
                intro ha0
                rw [Swap_right d _ _ (by omega), hs (a - 1) (by omega) (by omega)]
                exact habove ha0 i2 (by omega) hi2b)]
            obtain ⟨r1, r2⟩ := insertionSort_inner_spec hr a (i2 - 1) (i2 - 1)
              (Swap d i2 (i2 - 1)) (by omega) (Nat.le_refl _) (by rw [Swap_length]; omega)
              (by
                intro x y hx hxy hy
                rw [hs x (by omega) (by omega), hs y (by omega) (by omega)]
                exact hs2 x y hx hxy (by omega))
              (by intro x y hx hxy hy; omega)
              (by intro x y hx hxj hjy hy; omega)
              (by intro y hjy hy; omega)
            have e : i2 - 1 + 1 = i2 := by omega
            rw [e] at r1 r2
            exact ⟨r2.mono (Nat.le_refl _) (by omega), r1⟩
          · rw [if_neg hge]
            refine ⟨_, rfl, PermIn.refl _ _ _, ?_⟩
            intro x y hx hxy hy
            omega
        rw [hd2]
        -- the shift to the right
        obtain ⟨d3, hd3, p3⟩ : ∃ d3,
            (if b - i2 ≥ 2 then shiftRight less b (b - (i2 + 1)) (i2 + 1) d2 else d2) = d3
            ∧ PermIn i2 b d2 d3 := by
          by_cases hge : b - i2 ≥ 2
          · rw [if_pos hge]
            exact ⟨_, rfl, shiftRight_permIn less i2 b _ _ d2 (Nat.le_refl _)
              (by rw [p2.length_eq, Swap_length]; exact hlen)⟩
          · rw [if_neg hge]
            exact ⟨_, rfl, PermIn.refl _ _ _⟩
        rw [hd3]
        have p13 : PermIn a b d d3 := (p1.trans p2).trans (p3.mono (by omega) (Nat.le_refl _))
        have s3 : SortedOn le d3 a i2 := by
          intro x y hx hxy hy
          rw [PermIn.outside p3 (k := x) (by omega), PermIn.outside p3 (k := y) (by omega)]
          exact s2 x y hx hxy hy
        obtain ⟨q1, q2⟩ := ih i2 d3 (by omega) (by omega) (by rw [p13.length_eq]; exact hlen) s3
          (habove.of_permIn p13)
        exact ⟨p13.trans q1, q2⟩

theorem partialInsertionSort_func_spec (hr : Respects less le) (d : List α) (a b : Nat)
    (hab : a < b) (hb : b ≤ d.length) (habove : AbovePrevious less d a b) :
    PermIn a b d (partialInsertionSort_func less d a b).1
      ∧ ((partialInsertionSort_func less d a b).2 = true →
          SortedOn le (partialInsertionSort_func less d a b).1 a b) :=
  partialInsertionSort_loop_spec hr a b 5 (a + 1) d (by omega) (by omega) hb
    (by intro x y hx hxy hy; omega) habove

theorem breakPatterns_func_permIn (Next : Nat → Nat) (d : List α) (a b : Nat) (hb : b ≤ d.length) :
    PermIn a b d (breakPatterns_func Next d a b) := by
  unfold breakPatterns_func
  simp only
  by_cases h : b - a ≥ 8
  · rw [if_pos h]
    have o1 := breakPatterns_other_lt (Next (b - a)) (b - a) (by omega)
    have o2 := breakPatterns_other_lt (Next (Next (b - a))) (b - a) (by omega)
    have o3 := breakPatterns_other_lt
      (Next (Next (Next (b - a)))) (b - a) (by omega)
    have hq : 2 ≤ (b - a) / 4 := by omega
    have hq2 : (b - a) / 4 * 4 ≤ b - a := Nat.div_mul_le_self _ _
    refine ((PermIn.swap d (by omega) (by omega) hb).trans
      (PermIn.swap _ (by omega) (by omega) (by rw [Swap_length]; exact hb))).trans
      (PermIn.swap _ (by omega) (by omega) (by rw [Swap_length, Swap_length]; exact hb))
  · rw [if_neg h]
    exact PermIn.refl _ _ _

theorem reverseRange_loop_permIn (a b : Nat) :
    ∀ (fuel : Nat) (d : List α) (i j : Nat), a ≤ i → j < b → b ≤ d.length →
      PermIn a b d (reverseRange_loop fuel d i j) := by
  intro fuel
  induction fuel with
  | zero =>
    intro d i j _ _ _
    exact PermIn.refl _ _ _
  | succ fuel ih =>
    intro d i j hi hj hlen
    simp only [reverseRange_loop]
    by_cases hij : i < j
    · rw [if_pos hij]
      exact (PermIn.swap d (by omega) (by omega) hlen).trans
        (ih _ (i + 1) (j - 1) (by omega) (by omega) (by rw [Swap_length]; exact hlen))
    · rw [if_neg hij]
      exact PermIn.refl _ _ _

theorem reverseRange_func_permIn (d : List α) (a b : Nat) (hab : a < b) (hb : b ≤ d.length) :
    PermIn a b d (reverseRange_func d a b) :=
  reverseRange_loop_permIn a b (b - a) d a (b - 1) (Nat.le_refl _) (by omega) hb

theorem order2_func_fst (less : α → α → Bool) (d : List α) (a b swaps : Nat) :
    (order2_func less d a b swaps).1 = a ∨ (order2_func less d a b swaps).1 = b := by
  unfold order2_func
  split
  · exact Or.inr rfl
  · exact Or.inl rfl

theorem order2_func_snd (less : α → α → Bool) (d : List α) (a b swaps : Nat) :
    (order2_func less d a b swaps).2.1 = a ∨ (order2_func less d a b swaps).2.1 = b := by
  unfold order2_func
  split
  · exact Or.inl rfl
  · exact Or.inr rfl

theorem median_func_mem (less : α → α → Bool) (d : List α) (a b c swaps : Nat) :
    (median_func less d a b c swaps).1 = a ∨ (median_func less d a b c swaps).1 = b
      ∨ (median_func less d a b c swaps).1 = c := by
  unfold median_func
  simp only
  have h1 := order2_func_fst less d a b swaps
  have h2 := order2_func_snd less d a b swaps
  revert h1 h2
  generalize order2_func less d a b swaps = r1
  intro h1 h2
  have h3 := order2_func_fst less d r1.2.1 c r1.2.2
  revert h3
  generalize order2_func less d r1.2.1 c r1.2.2 = r2
  intro h3
  have h4 := order2_func_snd less d r1.1 r2.1 r2.2.2
  revert h4
  generalize order2_func less d r1.1 r2.1 r2.2.2 = r3
  intro h4
  omega

theorem medianAdjacent_func_mem (less : α → α → Bool) (d : List α) (a swaps : Nat) :
    a - 1 ≤ (medianAdjacent_func less d a swaps).1
      ∧ (medianAdjacent_func less d a swaps).1 ≤ a + 1 := by
  unfold medianAdjacent_func
  rcases median_func_mem less d (a - 1) a (a + 1) swaps with h | h | h <;> omega

theorem choosePivot_func_mem (less : α → α → Bool) (d : List α) (a b : Nat) (hab : 8 ≤ b - a) :
    a ≤ (choosePivot_func less d a b).1 ∧ (choosePivot_func less d a b).1 < b := by
  have key : ∀ r : Nat × Nat, (a ≤ r.1 ∧ r.1 < b) →
      a ≤ (if r.2 = 0 then (r.1, sortedHint.increasingHint)
          else if r.2 = 4 * 3 then (r.1, sortedHint.decreasingHint)
          else (r.1, sortedHint.unknownHint)).1
        ∧ (if r.2 = 0 then (r.1, sortedHint.increasingHint)
          else if r.2 = 4 * 3 then (r.1, sortedHint.decreasingHint)
          else (r.1, sortedHint.unknownHint)).1 < b := by
    intro r hr
    split
    · exact hr
    · split
      · exact hr
      · exact hr
  unfold choosePivot_func
  simp only
  apply key
  rw [if_pos hab]
  have hq2 : (b - a) / 4 * 4 ≤ b - a := Nat.div_mul_le_self _ _
  by_cases h50 : b - a ≥ 50
  · rw [if_pos h50]
    simp only
    have m1 := medianAdjacent_func_mem less d (a + (b - a) / 4 * 1) 0
    have m2 := medianAdjacent_func_mem less d (a + (b - a) / 4 * 2)
      (medianAdjacent_func less d (a + (b - a) / 4 * 1) 0).2
    have m3 := medianAdjacent_func_mem less d (a + (b - a) / 4 * 3)
      (medianAdjacent_func less d (a + (b - a) / 4 * 2)
        (medianAdjacent_func less d (a + (b - a) / 4 * 1) 0).2).2
    rcases median_func_mem less d
      (medianAdjacent_func less d (a + (b - a) / 4 * 1) 0).1
      (medianAdjacent_func less d (a + (b - a) / 4 * 2)
        (medianAdjacent_func less d (a + (b - a) / 4 * 1) 0).2).1
      (medianAdjacent_func less d (a + (b - a) / 4 * 3)
        (medianAdjacent_func less d (a + (b - a) / 4 * 2)
          (medianAdjacent_func less d (a + (b - a) / 4 * 1) 0).2).2).1
      (medianAdjacent_func less d (a + (b - a) / 4 * 3)
        (medianAdjacent_func less d (a + (b - a) / 4 * 2)
          (medianAdjacent_func less d (a + (b - a) / 4 * 1) 0).2).2).2 with h | h | h <;>
      rw [h] <;> omega
  · rw [if_neg h50]
    simp only
    rcases median_func_mem less d (a + (b - a) / 4 * 1) (a + (b - a) / 4 * 2)
      (a + (b - a) / 4 * 3) 0 with h | h | h <;> rw [h] <;> omega

theorem pdqsort_prepare_spec (Next : Nat → Nat) (hr : Respects less le) (d : List α) (a b limit : Nat)
    (wasBalanced wasPartitioned : Bool) (hab : 8 ≤ b - a) (hb : b ≤ d.length)
    (habove : AbovePrevious less d a b) :
    PermIn a b d (pdqsort_prepare Next less d a b limit wasBalanced wasPartitioned).1
      ∧ a ≤ (pdqsort_prepare Next less d a b limit wasBalanced wasPartitioned).2.2.1
      ∧ (pdqsort_prepare Next less d a b limit wasBalanced wasPartitioned).2.2.1 < b
      ∧ ((pdqsort_prepare Next less d a b limit wasBalanced wasPartitioned).2.2.2 = true →
          SortedOn le (pdqsort_prepare Next less d a b limit wasBalanced wasPartitioned).1 a b) := by
  unfold pdqsort_prepare
  simp only
  -- breakPatterns
  obtain ⟨d1, hd1, p1⟩ : ∃ d1, (if (!wasBalanced) = true then breakPatterns_func Next d a b else d) = d1
      ∧ PermIn a b d d1 := by
    split
    · exact ⟨_, rfl, breakPatterns_func_permIn Next d a b hb⟩
    · exact ⟨_, rfl, PermIn.refl _ _ _⟩
  rw [hd1]
  have hb1 : b ≤ d1.length := by rw [p1.length_eq]; exact hb
  -- choosePivot
  have hc := choosePivot_func_mem less d1 a b hab
  revert hc
  generalize choosePivot_func less d1 a b = c
  intro hc
  -- reverseRange
  obtain ⟨d2, hd2, p2⟩ : ∃ d2,
      (if c.2 = sortedHint.decreasingHint then reverseRange_func d1 a b else d1) = d2
      ∧ PermIn a b d1 d2 := by
    split
    · exact ⟨_, rfl, reverseRange_func_permIn d1 a b (by omega) hb1⟩
    · exact ⟨_, rfl, PermIn.refl _ _ _⟩
  rw [hd2]
  have hb2 : b ≤ d2.length := by rw [p2.length_eq]; exact hb1
  obtain ⟨pivot, hpivot, hp1, hp2⟩ : ∃ pivot,
      (if c.2 = sortedHint.decreasingHint then (b - 1) - (c.1 - a) else c.1) = pivot
      ∧ a ≤ pivot ∧ pivot < b := by
    split
    · exact ⟨_, rfl, by omega, by omega⟩
    · exact ⟨_, rfl, hc.1, hc.2⟩
  rw [hpivot]
  have p12 : PermIn a b d d2 := p1.trans p2
  generalize (wasBalanced && wasPartitioned
    && decide ((if c.2 = sortedHint.decreasingHint then sortedHint.increasingHint else c.2)
        = sortedHint.increasingHint)) = cond
  cases cond
  · rw [if_neg (by simp)]
    exact ⟨p12, hp1, hp2, fun h => by simp at h⟩
  · rw [if_pos rfl]
    obtain ⟨q1, q2⟩ := partialInsertionSort_func_spec hr d2 a b (by omega) hb2
      (habove.of_permIn p12)
    exact ⟨p12.trans q1, hp1, hp2, q2⟩

theorem SortedOn.join (hr : Respects less le) (d : List α) (a mid b : Nat)
    (h1 : SortedOn le d a mid) (h2 : SortedOn le d (mid + 1) b)
    (h3 : ∀ k, a ≤ k → k < mid → le (elem d k) (elem d mid))
    (h4 : ∀ k, mid < k → k < b → le (elem d mid) (elem d k)) : SortedOn le d a b := by
  intro x y hx hxy hy
  by_cases hxm : x < mid
  · by_cases hym : y < mid
    · exact h1 x y hx hxy hym
    · by_cases hym2 : y = mid
      · rw [hym2]
        exact h3 x hx hxm
      · exact hr.trans _ _ _ (h3 x hx hxm) (h4 y (by omega) hy)
  · by_cases hxm2 : x = mid
    · rw [hxm2]
      exact h4 y (by omega) hy
    · exact h2 x y (by omega) hxy hy

theorem pdqsort_loop_spec (Next : Nat → Nat) (hr : Respects less le) :
    ∀ (fuel : Nat) (d : List α) (a b limit : Nat) (wasBalanced wasPartitioned : Bool),
      b - a < fuel → a ≤ b → b ≤ d.length → AbovePrevious less d a b →
      SortedOn le (pdqsort_loop Next less fuel d a b limit wasBalanced wasPartitioned) a b
        ∧ PermIn a b d (pdqsort_loop Next less fuel d a b limit wasBalanced wasPartitioned) := by
  intro fuel
  induction fuel with
  | zero =>
    intro d a b limit wb wp h
    omega
  | succ fuel ih =>
    intro d a b limit wb wp hfuel hab hb habove
    simp only [pdqsort_loop]
    by_cases hsmall : b - a ≤ 12
    · rw [if_pos hsmall]
      exact insertionSort_func_spec hr d a b hb
    · rw [if_neg hsmall]
      by_cases hlimit : limit = 0
      · rw [if_pos hlimit]
        exact heapSort_func_spec hr d a b hab hb
      · rw [if_neg hlimit]
        obtain ⟨p1, hpa, hpb, hdone⟩ := pdqsort_prepare_spec Next hr d a b limit wb wp
          (by omega) hb habove
        revert p1 hpa hpb hdone
        generalize pdqsort_prepare Next less d a b limit wb wp = s
        obtain ⟨d1, limit1, pivot, done⟩ := s
        intro p1 hpa hpb hdone
        dsimp only at p1 hpa hpb hdone ⊢
        have hb1 : b ≤ d1.length := by rw [p1.length_eq]; exact hb
        have habove1 : AbovePrevious less d1 a b := habove.of_permIn p1
        by_cases hd : done = true
        · rw [if_pos hd]
          exact ⟨hdone hd, p1⟩
        · rw [if_neg hd]
          by_cases heq : a > 0 ∧ less (elem d1 (a - 1)) (elem d1 pivot) = false
          · -- the pivot equals the previous pivot: partitionEqual
            rw [if_pos heq]
            have hpp : less (elem d1 pivot) (elem d1 (a - 1)) = false :=
              habove1 heq.1 pivot hpa hpb
            have hirr : less (elem d1 pivot) (elem d1 pivot) = false :=
              hr.not_less_trans _ _ _ hpp heq.2
            obtain ⟨e1, e2, e3, e4, e5⟩ := partitionEqual_func_spec d1 a b pivot
              (by omega) ⟨hpa, hpb⟩ hb1 hirr
            revert e1 e2 e3 e4 e5
            generalize partitionEqual_func less d1 a b pivot = e
            obtain ⟨d2, mid⟩ := e
            intro e1 e2 e3 e4 e5
            dsimp only at e1 e2 e3 e4 e5 ⊢
            obtain ⟨r1, r2⟩ := ih d2 mid b limit1 wb wp (by omega) e2
              (by rw [e3.length_eq]; exact hb1)
              (by
                intro _ k hk1 hk2
                by_contra hne
                have ht : less (elem d2 k) (elem d2 (mid - 1)) = true := by simpa using hne
                have := hr.less_trans _ _ _ (e5 k hk1 hk2) ht
                rw [e4 (mid - 1) (by omega) (by omega)] at this
                cases this)
            have p2 : PermIn a b d1 (pdqsort_loop Next less fuel d2 mid b limit1 wb wp) :=
              e3.trans (r2.mono (by omega) (Nat.le_refl _))
            refine ⟨?_, p1.trans p2⟩
            -- the pivot is below every element of the range
            have hmin : ∀ k, a ≤ k → k < b →
                le (elem d1 pivot) (elem (pdqsort_loop Next less fuel d2 mid b limit1 wb wp) k) := by
              apply PermIn.forall_in p2 (P := fun v => le (elem d1 pivot) v)
              intro k hk1 hk2
              exact hr.trans _ _ _ (hr.of_not_less _ _ heq.2)
                (hr.of_not_less _ _ (habove1 heq.1 k hk1 hk2))
            intro x y hx hxy hy
            by_cases hxm : x < mid
            · rw [PermIn.outside r2 (k := x) (by omega)]
              exact hr.trans _ _ _ (hr.of_not_less _ _ (e4 x hx hxm)) (hmin y (by omega) hy)
            · exact r1 x y (by omega) hxy hy
          · rw [if_neg heq]
            obtain ⟨q1, q2, q3, q4, q5⟩ := partition_func_spec hr d1 a b pivot
              (by omega) ⟨hpa, hpb⟩ hb1
            revert q1 q2 q3 q4 q5
            generalize partition_func less d1 a b pivot = p
            obtain ⟨d2, mid, alreadyPartitioned⟩ := p
            intro q1 q2 q3 q4 q5
            dsimp only at q1 q2 q3 q4 q5 ⊢
            have hb2 : b ≤ d2.length := by rw [q3.length_eq]; exact hb1
            have habove2 : AbovePrevious less d2 a b := habove1.of_permIn q3
            have hright : AbovePrevious less d2 (mid + 1) b := by
              intro _ k hk1 hk2
              exact q5 k (by omega) hk2
            by_cases hlr : mid - a < b - mid
            · rw [if_pos hlr]
              -- left part first, by a recursive call
              obtain ⟨r1, r2⟩ := ih d2 a mid limit1 true true (by omega) q1 (by omega)
                (habove2.shrink (by omega))
              generalize pdqsort_loop Next less fuel d2 a mid limit1 true true = d3 at r1 r2 ⊢
              have hb3 : b ≤ d3.length := by rw [r2.length_eq]; exact hb2
              obtain ⟨t1, t2⟩ := ih d3 (mid + 1) b limit1
                (decide (mid - a ≥ (b - a) / 8)) alreadyPartitioned (by omega) (by omega) hb3
                (by
                  intro h0 k hk1 hk2
                  rw [PermIn.outside r2 (k := k) (by omega),
                    PermIn.outside r2 (k := mid + 1 - 1) (by omega)]
                  exact hright h0 k hk1 hk2)
              generalize pdqsort_loop Next less fuel d3 (mid + 1) b limit1
                (decide (mid - a ≥ (b - a) / 8)) alreadyPartitioned = d4 at t1 t2 ⊢
              refine ⟨?_, ((p1.trans q3).trans (r2.mono (Nat.le_refl _) (by omega))).trans
                (t2.mono (by omega) (Nat.le_refl _))⟩
              have hmid : elem d4 mid = elem d2 mid := by
                rw [PermIn.outside t2 (k := mid) (by omega),
                  PermIn.outside r2 (k := mid) (by omega)]
              apply SortedOn.join hr d4 a mid b
              · intro x y hx hxy hy
                rw [PermIn.outside t2 (k := x) (by omega), PermIn.outside t2 (k := y) (by omega)]
                exact r1 x y hx hxy hy
              · exact t1
              · intro k hk1 hk2
                rw [hmid, PermIn.outside t2 (k := k) (by omega)]
                exact PermIn.forall_in r2 (P := fun v => le v (elem d2 mid)) q4 k hk1 hk2
              · intro k hk1 hk2
                rw [hmid]
                apply PermIn.forall_in t2 (P := fun v => le (elem d2 mid) v) _ k (by omega) hk2
                intro k2 hk21 hk22
                rw [PermIn.outside r2 (k := k2) (by omega)]
                exact hr.of_not_less _ _ (q5 k2 (by omega) hk22)
            · rw [if_neg hlr]
              -- right part first, by a recursive call
              obtain ⟨r1, r2⟩ := ih d2 (mid + 1) b limit1 true true (by omega) (by omega) hb2
                hright
              generalize pdqsort_loop Next less fuel d2 (mid + 1) b limit1 true true = d3 at r1 r2 ⊢
              have hb3 : b ≤ d3.length := by rw [r2.length_eq]; exact hb2
              obtain ⟨t1, t2⟩ := ih d3 a mid limit1
                (decide (b - mid ≥ (b - a) / 8)) alreadyPartitioned (by omega) q1 (by omega)
                (by
                  intro h0 k hk1 hk2
                  rw [PermIn.outside r2 (k := k) (by omega),
                    PermIn.outside r2 (k := a - 1) (by omega)]
                  exact habove2 h0 k hk1 (by omega))
              generalize pdqsort_loop Next less fuel d3 a mid limit1
                (decide (b - mid ≥ (b - a) / 8)) alreadyPartitioned = d4 at t1 t2 ⊢
              refine ⟨?_, ((p1.trans q3).trans (r2.mono (by omega) (Nat.le_refl _))).trans
                (t2.mono (Nat.le_refl _) (by omega))⟩
              have hmid : elem d4 mid = elem d2 mid := by
                rw [PermIn.outside t2 (k := mid) (by omega),
                  PermIn.outside r2 (k := mid) (by omega)]
              apply SortedOn.join hr d4 a mid b
              · exact t1
              · intro x y hx hxy hy
                rw [PermIn.outside t2 (k := x) (by omega), PermIn.outside t2 (k := y) (by omega)]
                exact r1 x y hx hxy hy
              · intro k hk1 hk2
                rw [hmid]
                apply PermIn.forall_in t2 (P := fun v => le v (elem d2 mid)) _ k hk1 hk2
                intro k2 hk21 hk22
                rw [PermIn.outside r2 (k := k2) (by omega)]
                exact q4 k2 hk21 hk22
              · intro k hk1 hk2
                rw [hmid, PermIn.outside t2 (k := k) (by omega)]
                apply PermIn.forall_in r2 (P := fun v => le (elem d2 mid) v) _ k (by omega) hk2
                intro k2 hk21 hk22
                exact hr.of_not_less _ _ (q5 k2 (by omega) hk22)

/-- `sort.Slice` returns a permutation of its input that is in order for every preorder
`le` that the comparator refines. -/
theorem Slice_spec (Next : Nat → Nat) (hr : Respects less le) (x : List α) :
    (Slice Next less x).Perm x ∧ (Slice Next less x).Pairwise le := by
  unfold Slice pdqsort_func
  simp only
  obtain ⟨r1, r2⟩ := pdqsort_loop_spec Next hr (x.length - 0 + 1) x 0 x.length
    (bitsLen x.length) true true (by omega) (Nat.zero_le _) (Nat.le_refl _)
    (by intro h; omega)
  refine ⟨PermIn.list_perm r2, ?_⟩
  rw [List.pairwise_iff_getElem]
  intro i j hi hj hij
  have := r1 i j (Nat.zero_le _) hij (by rw [← r2.length_eq]; exact hj)
  rw [elem_eq_getElem _ i hi, elem_eq_getElem _ j hj] at this
  exact this

end sort

/-! ## The claims -/

open entity usecase inputs

/-- C1 (evaluation of the code where it departs from the claim): `jst.IsSameDate` does not
compare the calendar dates of the JST wall clock.  23:30 JST on 2024-01-01 and 00:10 JST
on 2024-01-02 fall on different JST calendar dates, yet `IsSameDate` answers true; 08:00 JST
and 10:00 JST on 2024-01-02 fall on the same JST calendar date, yet `IsSameDate` answers
false. -/
theorem IsSameDate_is_not_JST_date_equality :
    (lateEvening.In jstLoaded).Date = (2024, 1, 1)
      ∧ (lateEvening.In jstLoaded).Clock = (23, 30, 0)
      ∧ (afterMidnight.In jstLoaded).Date = (2024, 1, 2)
      ∧ (afterMidnight.In jstLoaded).Clock = (0, 10, 0)
      ∧ jst.IsSameDate jstLoaded lateEvening afterMidnight = true
      ∧ (earlyMorning.In jstLoaded).Date = (2024, 1, 2)
      ∧ (midMorning.In jstLoaded).Date = (2024, 1, 2)
      ∧ jst.IsSameDate jstLoaded earlyMorning midMorning = false := by
  decide

/-- C2 (evaluation of the code where it departs from the claim): a single fetched program
dated yesterday, 2024-01-01 at 23:30 JST, is kept in the Programs list when now is
2024-01-02 at 00:10 JST. -/
theorem Execute_keeps_program_dated_yesterday :
    ((program "A" none lateEvening).StartTime.In jstLoaded).Date = (2024, 1, 1)
      ∧ (jst.Now jstLoaded afterMidnight).Date = (2024, 1, 2)
      ∧ (Execute jstLoaded (getter [program "A" none lateEvening] []) (fixedClock afterMidnight)).1
          = (some { Programs := [program "A" none lateEvening], LibraryEntries := [] }, none) := by
  decide

/-- C3: when both fetches succeed, the Programs list comes from the programs kept by the
date filter (a sub-sequence of the fetched ones; the filtered list when the clock reads
`now` throughout) and the LibraryEntries list from all library entries, in the same order
and number, by the image checks alone: every output program has the Title,
OfficialSiteURL, Episode, Channel and StartTime of its input, and its ImageURL is nil
when the input ImageURL was present, non-empty and reported invalid by the validator
call made for it, and is the input ImageURL otherwise. -/
theorem Execute_image_invalidation (jstLocation : time.Location)
    (ag : AnnictInfoGetter) (clock : Nat → time.Time)
    (ps ls : List Program)
    (htoday : ag.repo.FetchTodayPrograms = (ps, none))
    (hlib : ag.repo.FetchLibraryEntries = (ls, none)) :
    ∃ out kept, (Execute jstLocation ag clock).1 = (some out, none)
      ∧ kept.Sublist ps
      ∧ (∀ now, (∀ k, clock k = now) →
          kept = ps.filter
            (fun p => !p.StartTime.IsZero
              && jst.IsSameDate jstLocation p.StartTime (jst.Now jstLocation now)))
      ∧ ImageChecked ag 0 kept out.Programs
      ∧ ImageChecked ag (kept.filter (fun r => (imageToCheck r).isSome)).length
          ls out.LibraryEntries := by
  obtain ⟨h1, _⟩ := Execute_of_fetched jstLocation ag clock ps ls htoday hlib
  refine ⟨_, retained jstLocation clock 0 ps, h1, retained_sublist jstLocation clock 0 ps, ?_, ?_, ?_⟩
  · intro now hnow
    exact retained_constant_clock jstLocation clock now hnow 0 ps
  · exact runChecks_ImageChecked ag 0 (retained jstLocation clock 0 ps)
  · have h := runChecks_ImageChecked ag (runChecks ag 0 (retained jstLocation clock 0 ps)).2.length ls
    simp only [runChecks_snd_length] at h ⊢
    exact h

theorem Execute_image_invalidation_witness :
    ∃ out kept,
      (Execute jstLoaded (getter threeToday oneEntry) (fixedClock evening)).1 = (some out, none)
      ∧ kept.Sublist threeToday
      ∧ (∀ now, (∀ k, fixedClock evening k = now) →
          kept = threeToday.filter
            (fun p => !p.StartTime.IsZero
              && jst.IsSameDate jstLoaded p.StartTime (jst.Now jstLoaded now)))
      ∧ ImageChecked (getter threeToday oneEntry) 0 kept out.Programs
      ∧ ImageChecked (getter threeToday oneEntry)
          (kept.filter (fun r => (imageToCheck r).isSome)).length oneEntry out.LibraryEntries :=
  Execute_image_invalidation jstLoaded (getter threeToday oneEntry) (fixedClock evening)
    threeToday oneEntry rfl rfl

/-- C4 (evaluation of the code where it departs from the claim): a program of today
whose ImageURL is present but empty leaves `Execute` with its ImageURL still present
although the validator was never asked. -/
theorem Execute_keeps_unvalidated_empty_image :
    (Execute jstLoaded (getter [program "A" (some "") evening] []) (fixedClock evening)).1
        = (some { Programs := [program "A" (some "") evening], LibraryEntries := [] }, none)
      ∧ (program "A" (some "") evening).Work.ImageURL.isSome = true
      ∧ validatorCalls
          (Execute jstLoaded (getter [program "A" (some "") evening] []) (fixedClock evening)).2 = [] := by
  decide

/-- Every program in either list of the output of `Execute` whose ImageURL is present
and non-empty carries a URL that the validator was asked about, in a call of this run,
and reported valid. -/
theorem Execute_present_image_validated (jstLocation : time.Location)
    (ag : AnnictInfoGetter) (clock : Nat → time.Time)
    (out : AnnictInfoGetterOutput) (hout : (Execute jstLocation ag clock).1.1 = some out)
    (q : Program) (hq : q ∈ out.Programs ++ out.LibraryEntries)
    (url : String) (hurl : q.Work.ImageURL = some url) (hne : url ≠ "") :
    ∃ k, (validatorCalls (Execute jstLocation ag clock).2)[k]? = some (url, true)
      ∧ (ag.validator.ValidateURL k url).1 = true := by
  rcases htoday : ag.repo.FetchTodayPrograms with ⟨ps, _ | e⟩
  · rcases hlib : ag.repo.FetchLibraryEntries with ⟨ls, _ | e⟩
    · obtain ⟨h1, h2⟩ := Execute_of_fetched jstLocation ag clock ps ls htoday hlib
      rw [h1] at hout
      simp only [Option.some.injEq] at hout
      subst hout
      rw [h2]
      simp only [List.mem_append] at hq
      rcases hq with hq | hq
      · obtain ⟨j, hj1, hj2⟩ := runChecks_evidence ag 0 _ q hq url hurl hne
        refine ⟨j, ?_, by simpa using hj2⟩
        rw [List.getElem?_append_left]
        · exact hj1
        · by_contra hlt
          rw [List.getElem?_eq_none (Nat.le_of_not_lt hlt)] at hj1
          cases hj1
      · obtain ⟨j, hj1, hj2⟩ := runChecks_evidence ag _ _ q hq url hurl hne
        refine ⟨(runChecks ag 0 (retained jstLocation clock 0 ps)).2.length + j, ?_, hj2⟩
        rw [List.getElem?_append_right (by omega)]
        simpa using hj1
    · simp [Execute, htoday, hlib] at hout
  · simp [Execute, htoday] at hout

theorem Execute_present_image_validated_witness :
    ∃ k, (validatorCalls (Execute jstLoaded
            (getter [program "A" (some "https://example.com/ok.png") evening] [])
            (fixedClock evening)).2)[k]? = some ("https://example.com/ok.png", true)
      ∧ ((getter [program "A" (some "https://example.com/ok.png") evening] []).validator.ValidateURL
            k "https://example.com/ok.png").1 = true :=
  Execute_present_image_validated jstLoaded
    (getter [program "A" (some "https://example.com/ok.png") evening] []) (fixedClock evening)
    { Programs := [program "A" (some "https://example.com/ok.png") evening], LibraryEntries := [] }
    (by decide) (program "A" (some "https://example.com/ok.png") evening) (by decide)
    "https://example.com/ok.png" (by decide) (by decide)

/-- C5: when FetchTodayPrograms fails with error `e`, `Execute` returns no output and an
error that wraps `e`, and the only call it makes is FetchTodayPrograms: neither
FetchLibraryEntries nor the validator (nor the clock) is invoked. -/
theorem Execute_today_fetch_error (jstLocation : time.Location)
    (ag : AnnictInfoGetter) (clock : Nat → time.Time)
    (ps : List Program) (e : GoError)
    (htoday : ag.repo.FetchTodayPrograms = (ps, some e)) :
    (Execute jstLocation ag clock).1.1 = none
      ∧ (∃ err, (Execute jstLocation ag clock).1.2 = some err ∧ err.Unwrap = some e)
      ∧ (Execute jstLocation ag clock).2 = [Call.FetchTodayPrograms] := by
  simp [Execute, htoday, Errorf, GoError.Unwrap]

theorem Execute_today_fetch_error_witness :
    (Execute jstLoaded todayFails (fixedClock evening)).1.1 = none
      ∧ (∃ err, (Execute jstLoaded todayFails (fixedClock evening)).1.2 = some err
          ∧ err.Unwrap = some (GoError.errorString "timeout"))
      ∧ (Execute jstLoaded todayFails (fixedClock evening)).2 = [Call.FetchTodayPrograms] :=
  Execute_today_fetch_error jstLoaded todayFails (fixedClock evening) [] (GoError.errorString "timeout") rfl

/-- C6: `Execute` returns an error exactly when one of the two fetches fails, and it
returns no output exactly when it returns an error, whatever the validator answers; when
FetchLibraryEntries fails after FetchTodayPrograms succeeded, the result is no output and
the wrapped error, the today programs already processed being discarded. -/
theorem Execute_error_iff_fetch_fails (jstLocation : time.Location)
    (ag : AnnictInfoGetter) (clock : Nat → time.Time) :
    ((Execute jstLocation ag clock).1.2 ≠ none
        ↔ (ag.repo.FetchTodayPrograms.2 ≠ none ∨ ag.repo.FetchLibraryEntries.2 ≠ none))
      ∧ ((Execute jstLocation ag clock).1.1 = none ↔ (Execute jstLocation ag clock).1.2 ≠ none)
      ∧ (∀ e, ag.repo.FetchTodayPrograms.2 = none → ag.repo.FetchLibraryEntries.2 = some e →
          (Execute jstLocation ag clock).1 = (none, some (Errorf "failed to find programs" e))) := by
  rcases htoday : ag.repo.FetchTodayPrograms with ⟨ps, _ | e1⟩
  · rcases hlib : ag.repo.FetchLibraryEntries with ⟨ls, _ | e2⟩
    · simp [Execute, htoday, hlib]
    · simp [Execute, htoday, hlib]
  · simp [Execute, htoday]

theorem Execute_error_iff_fetch_fails_witness :
    (Execute jstLoaded libraryFails (fixedClock evening)).1
        = (none, some (Errorf "failed to find programs" (GoError.errorString "timeout")))
      ∧ validatorCalls (Execute jstLoaded libraryFails (fixedClock evening)).2
        = [("https://example.com/ok.png", true)] :=
  ⟨(Execute_error_iff_fetch_fails jstLoaded libraryFails (fixedClock evening)).2.2
      (GoError.errorString "timeout") rfl rfl, by decide⟩

/-! ### Repository: ordering of the library entries -/

theorem repository.libraryEntriesLess_respects :
    sort.Respects repository.libraryEntriesLess repository.startsNoLater := by
  constructor
  · intro x
    unfold repository.startsNoLater
    cases h : x.StartTime.IsZero
    · exact Or.inr ⟨rfl, Int.le_refl _⟩
    · exact Or.inl rfl
  · intro x y z h1 h2
    unfold repository.startsNoLater at *
    rcases h1 with h1 | ⟨h1, h1b⟩
    · exact Or.inl h1
    · rcases h2 with h2 | ⟨h2, h2b⟩
      · rw [h1] at h2
        cases h2
      · exact Or.inr ⟨h2, Int.le_trans h2b h1b⟩
  · intro x y h
    unfold repository.libraryEntriesLess at h
    unfold repository.startsNoLater
    cases hx : x.StartTime.IsZero
    · cases hy : y.StartTime.IsZero
      · simp only [hx, hy, Bool.false_eq_true, if_false, time.Time.After, decide_eq_true_eq] at h
        exact Or.inr ⟨rfl, Int.le_of_lt h⟩
      · simp [hx, hy] at h
    · exact Or.inl rfl
  · intro x y h
    unfold repository.libraryEntriesLess at h
    unfold repository.startsNoLater
    cases hx : x.StartTime.IsZero
    · cases hy : y.StartTime.IsZero
      · simp only [hx, hy, Bool.false_eq_true, if_false, time.Time.After,
          decide_eq_false_iff_not, Int.not_lt] at h
        exact Or.inr ⟨rfl, h⟩
      · exact Or.inl rfl
    · simp [hx] at h
  · intro x y z h1 h2
    unfold repository.libraryEntriesLess at *
    cases hx : x.StartTime.IsZero
    · cases hy : y.StartTime.IsZero
      · cases hz : z.StartTime.IsZero
        · simp only [hx, hy, hz, Bool.false_eq_true, if_false, time.Time.After,
            decide_eq_true_eq] at h1 h2 ⊢
          exact Int.lt_trans h2 h1
        · simp [hy, hz] at h2
      · simp [hx, hy] at h1
    · simp
  · intro x y z h1 h2
    unfold repository.libraryEntriesLess at *
    cases hx : x.StartTime.IsZero
    · cases hy : y.StartTime.IsZero
      · cases hz : z.StartTime.IsZero
        · simp only [hx, hy, hz, Bool.false_eq_true, if_false, time.Time.After,
            decide_eq_false_iff_not, Int.not_lt] at h1 h2 ⊢
          exact Int.le_trans h1 h2
        · simp [hx]
      · simp [hy] at h2
    · simp [hx] at h1

/-- C7: when the query succeeds, the list returned by `FetchLibraryEntries` is a
permutation of the mapped entries in which, for any two positions, the entry at the
later position has an unset StartTime only if the entry at the earlier one has (every
entry with an unset StartTime comes before every entry with a set StartTime), and two
entries with a set StartTime are in descending order of StartTime. -/
theorem FetchLibraryEntries_sorted (jstLocation : time.Location)
    (Parse : String → Option time.Time) (Next : Nat → Nat)
    (r : repository.annictRepository) (timeNow : time.Time)
    (resp : annict.GetLibraryEntries) (viewer : annict.GetLibraryEntries_Viewer)
    (libraryEntries : annict.GetLibraryEntries_Viewer_LibraryEntries)
    (hresp : r.GetLibraryEntries [jst.GetAnnictSeason jstLocation (jst.Now jstLocation timeNow)]
      = (some resp, none))
    (hviewer : resp.Viewer = some viewer)
    (hentries : viewer.LibraryEntries = some libraryEntries) :
    (repository.FetchLibraryEntries jstLocation Parse Next r timeNow).2 = none
      ∧ (repository.FetchLibraryEntries jstLocation Parse Next r timeNow).1.Perm
          (libraryEntries.Nodes.filterMap (repository.mapAnnictLibraryEntriesToDomainProgram Parse))
      ∧ (repository.FetchLibraryEntries jstLocation Parse Next r timeNow).1.Pairwise
          (fun p q => (q.StartTime.IsZero = true → p.StartTime.IsZero = true)
            ∧ (p.StartTime.IsZero = false → q.StartTime.IsZero = false →
                q.StartTime.abs ≤ p.StartTime.abs)) := by
  unfold repository.FetchLibraryEntries
  simp only [hresp, hviewer, hentries]
  obtain ⟨h1, h2⟩ := sort.Slice_spec Next repository.libraryEntriesLess_respects
    (libraryEntries.Nodes.filterMap (repository.mapAnnictLibraryEntriesToDomainProgram Parse))
  refine ⟨trivial, h1, h2.imp ?_⟩
  intro p q hpq
  unfold repository.startsNoLater at hpq
  rcases hpq with hp | ⟨hq, hle⟩
  · constructor
    · intro _
      exact hp
    · intro hp2
      rw [hp] at hp2
      cases hp2
  · constructor
    · intro hq2
      rw [hq] at hq2
      cases hq2
    · intro _ _
      exact hle

theorem FetchLibraryEntries_sorted_witness :
    ((repository.FetchLibraryEntries jstLoaded parseTwo sort.xorshift_Next
        threeEntriesRepository
          evening).1.map (fun p => (p.Work.Title, p.StartTime))
      = [("B", time.Time.zero), ("A", evening), ("C", evening.Add (-time.Hour))])
    ∧ ((repository.FetchLibraryEntries jstLoaded parseTwo sort.xorshift_Next
        threeEntriesRepository
          evening).2 = none
      ∧ (repository.FetchLibraryEntries jstLoaded parseTwo sort.xorshift_Next
        threeEntriesRepository
          evening).1.Perm
          (threeEntries.Nodes.filterMap
            (repository.mapAnnictLibraryEntriesToDomainProgram parseTwo))
      ∧ (repository.FetchLibraryEntries jstLoaded parseTwo sort.xorshift_Next
        threeEntriesRepository
          evening).1.Pairwise
          (fun p q => (q.StartTime.IsZero = true → p.StartTime.IsZero = true)
            ∧ (p.StartTime.IsZero = false → q.StartTime.IsZero = false →
                q.StartTime.abs ≤ p.StartTime.abs))) :=
  ⟨by decide, FetchLibraryEntries_sorted jstLoaded parseTwo sort.xorshift_Next
    threeEntriesRepository evening
    { Viewer := some { LibraryEntries := some threeEntries } }
    { LibraryEntries := some threeEntries } threeEntries rfl rfl rfl⟩

/-! ### Validator -/

/-- C8: `ValidateURL` returns either (true, url), with the URL unchanged, or (false, "");
it returns (true, url) exactly when the URL is non-empty, the request was built and
completed without error, the status lies in [200, 300) and the Content-Type starts with
"image/".  So an empty URL, a failed or timed-out request, a 404, a redirect status and a
200 with text/html all give (false, ""). -/
theorem ValidateURL_valid_iff
    (NewRequestWithContext : time.Duration → String → String → Except GoError validator.Request)
    (v : validator.httpImageValidator) (url : String) :
    (validator.ValidateURL NewRequestWithContext v url = (true, url)
        ∨ validator.ValidateURL NewRequestWithContext v url = (false, ""))
      ∧ ((validator.ValidateURL NewRequestWithContext v url).1 = true
          ↔ (url ≠ "" ∧ ∃ req resp,
              NewRequestWithContext validator.imageCheckTimeout "HEAD" url = .ok req
              ∧ v.httpClient.Do req = .ok resp
              ∧ 200 ≤ resp.StatusCode ∧ resp.StatusCode < 300
              ∧ strings.HasPrefix resp.ContentType "image/" = true)) := by
  unfold validator.ValidateURL
  by_cases hu : url = ""
  · simp [hu]
  · cases hr : NewRequestWithContext validator.imageCheckTimeout "HEAD" url with
    | error e => simp [hu]
    | ok req =>
      cases hd : v.httpClient.Do req with
      | error e => simp [hu, hd]
      | ok resp =>
        by_cases hs : 200 ≤ resp.StatusCode ∧ resp.StatusCode < 300
        · by_cases hc : strings.HasPrefix resp.ContentType "image/" = true
          · simp [hu, hd, hs, hc]
          · simp [hu, hd, hs, hc]
        · simp only [hu, hd, hs, if_false, Bool.false_eq_true, false_iff, or_true, true_and,
            ne_eq, not_false_eq_true]
          rintro ⟨req2, resp2, h1, h2, h3, h4, _⟩
          cases h1
          rw [hd] at h2
          cases h2
          exact hs ⟨h3, h4⟩

theorem ValidateURL_valid_iff_witness :
    validator.ValidateURL newRequest (answering 200 "image/png") "https://example.com/a.png"
        = (true, "https://example.com/a.png")
      ∧ validator.ValidateURL newRequest (answering 404 "image/png") "https://example.com/a.png"
        = (false, "")
      ∧ validator.ValidateURL newRequest (answering 200 "text/html") "https://example.com/a.png"
        = (false, "")
      ∧ validator.ValidateURL newRequest (answering 301 "image/png") "https://example.com/a.png"
        = (false, "")
      ∧ validator.ValidateURL newRequest timingOut "https://example.com/a.png" = (false, "")
      ∧ validator.ValidateURL newRequest (answering 200 "image/png") "" = (false, "")
      ∧ ((validator.ValidateURL newRequest (answering 200 "image/png")
            "https://example.com/a.png").1 = true
          ↔ ("https://example.com/a.png" ≠ "" ∧ ∃ req resp,
              newRequest validator.imageCheckTimeout "HEAD" "https://example.com/a.png" = .ok req
              ∧ (answering 200 "image/png").httpClient.Do req = .ok resp
              ∧ 200 ≤ resp.StatusCode ∧ resp.StatusCode < 300
              ∧ strings.HasPrefix resp.ContentType "image/" = true)) :=
  ⟨by decide, by decide, by decide, by decide, by decide, by decide,
    (ValidateURL_valid_iff newRequest (answering 200 "image/png") "https://example.com/a.png").2⟩

/-! ### Mappers -/

theorem repository.mapWork_OfficialSiteURL_ne_empty (w : annict.Work) :
    (repository.mapWork w Program.zero.Work).OfficialSiteURL ≠ some "" := by
  unfold repository.mapWork
  by_cases hz : w.IsZero = true
  · simp [hz, Program.zero]
  · simp only [hz, Bool.not_false, if_true, Bool.false_eq_true]
    have key : (if repository.nonEmpty w.OfficialSiteURL = true then
        ({ Program.zero.Work with Title := w.Title, OfficialSiteURL := w.OfficialSiteURL } :
          entity.Work)
        else { Program.zero.Work with Title := w.Title }).OfficialSiteURL ≠ some "" := by
      cases ho : w.OfficialSiteURL with
      | none => simp [repository.nonEmpty, Program.zero]
      | some u =>
        by_cases hu : u = ""
        · simp [repository.nonEmpty, hu, Program.zero]
        · simp [repository.nonEmpty, hu]
    cases hi : w.Image with
    | none => simpa using key
    | some image =>
      simp only
      split
      · simpa using key
      · split
        · simpa using key
        · simpa using key

/-- C9 (evaluation of the code where it departs from the claim): for a work record with no
recommended image and an empty social-preview image URL, both mappers produce a Program
whose ImageURL is present but empty, while the empty official site URL of the same record
does collapse to an absent OfficialSiteURL. -/
theorem mappers_keep_empty_social_preview_image :
    (repository.mapAnnictProgramToDomainProgram parseOne (some nodeWithEmptyOgImage)).map
        (fun prog => (prog.Work.OfficialSiteURL, prog.Work.ImageURL)) = some (none, some "")
      ∧ (repository.mapAnnictLibraryEntriesToDomainProgram parseOne
            (some entryWithEmptyOgImage)).map
        (fun prog => (prog.Work.OfficialSiteURL, prog.Work.ImageURL)) = some (none, some "") := by
  decide

/-- C10 (counterexample): a today-program node whose episode record is zero-valued, and a
library-entry node without next episode, are mapped to Programs with an empty
Episode.NumberText. -/
theorem mappers_leave_NumberText_empty_without_episode :
    (repository.mapAnnictProgramToDomainProgram parseOne (some nodeWithoutEpisode)).map
        (fun prog => prog.Episode.NumberText) = some ""
      ∧ (repository.mapAnnictLibraryEntriesToDomainProgram parseOne
            (some entryWithoutNextEpisode)).map
        (fun prog => prog.Episode.NumberText) = some "" := by
  decide

theorem repository.episodeNumberText_ne_empty (n : Int) :
    repository.episodeNumberText n ≠ "" := by
  intro h
  have h2 := congrArg String.length h
  simp only [repository.episodeNumberText, String.length_append] at h2
  have h3 : "第".length = 1 := by decide
  have h4 : "".length = 0 := by decide
  omega

theorem repository.getD_ne_empty_of_nonEmpty (x : Option String)
    (h : repository.nonEmpty x = true) : x.getD "" ≠ "" := by
  cases x with
  | none => simp [repository.nonEmpty] at h
  | some s => simpa [repository.nonEmpty] using h

/-- C10 (amended): for every non-absent source node whose episode record is present (a
today-program node with a non-zero Episode, a library-entry node with a non-nil
NextEpisode), the Program produced by the mapper has a non-empty Episode.NumberText. -/
theorem mappers_NumberText_ne_empty (Parse : String → Option time.Time) :
    (∀ node : annict.GetPrograms_Viewer_Programs_Nodes, node.Episode.IsZero = false →
        ∃ prog, repository.mapAnnictProgramToDomainProgram Parse (some node) = some prog
          ∧ prog.Episode.NumberText ≠ "")
      ∧ (∀ node : annict.GetLibraryEntries_Viewer_LibraryEntries_Nodes,
          node.NextEpisode.isSome = true →
        ∃ prog, repository.mapAnnictLibraryEntriesToDomainProgram Parse (some node) = some prog
          ∧ prog.Episode.NumberText ≠ "") := by
  constructor
  · intro node hz
    refine ⟨_, rfl, ?_⟩
    simp only [hz, Bool.not_false, if_true]
    by_cases hc : node.Channel.IsZero = true
    all_goals
      simp only [hc, Bool.not_true, Bool.not_false, Bool.false_eq_true, if_false, if_true]
      by_cases hn : repository.nonEmpty node.Episode.NumberText = true
      · simp only [hn, if_true]
        exact repository.getD_ne_empty_of_nonEmpty _ hn
      · simp only [hn, Bool.false_eq_true, if_false]
        cases node.Episode.Number with
        | none => decide
        | some n => exact repository.episodeNumberText_ne_empty n
  · intro node hs
    refine ⟨_, rfl, ?_⟩
    cases he : node.NextEpisode with
    | none => simp [he] at hs
    | some nextEpisode =>
      have hnum : (if repository.nonEmpty nextEpisode.NumberText = true
          then nextEpisode.NumberText.getD "" else "不明") ≠ "" := by
        by_cases hn : repository.nonEmpty nextEpisode.NumberText = true
        · simp only [hn, if_true]
          exact repository.getD_ne_empty_of_nonEmpty _ hn
        · simp only [hn, Bool.false_eq_true, if_false]
          decide
      cases node.NextProgram with
      | none => simpa using hnum
      | some nextProgram =>
        by_cases hc : nextProgram.Channel.IsZero = true
        · simpa [hc] using hnum
        · simpa [hc] using hnum

theorem mappers_NumberText_ne_empty_witness :
    (∃ prog, repository.mapAnnictProgramToDomainProgram parseOne (some nodeWithEmptyOgImage)
          = some prog ∧ prog.Episode.NumberText ≠ "")
      ∧ (∃ prog, repository.mapAnnictLibraryEntriesToDomainProgram parseOne
          (some entryWithEmptyOgImage) = some prog ∧ prog.Episode.NumberText ≠ "") :=
  ⟨(mappers_NumberText_ne_empty parseOne).1 nodeWithEmptyOgImage (by decide),
   (mappers_NumberText_ne_empty parseOne).2 entryWithEmptyOgImage (by decide)⟩

/-! ### Repository: episode title and number text -/

/-- Both mappers copy the title of a present episode record as it is. -/
theorem repository.mappers_copy_episode_title (Parse : String → Option time.Time) :
    (∀ node : annict.GetPrograms_Viewer_Programs_Nodes, node.Episode.IsZero = false →
      (repository.mapAnnictProgramToDomainProgram Parse (some node)).map
        (fun p => p.Episode.Title) = some node.Episode.Title)
    ∧ (∀ (node : annict.GetLibraryEntries_Viewer_LibraryEntries_Nodes)
        (nextEpisode : annict.NextEpisode), node.NextEpisode = some nextEpisode →
      (repository.mapAnnictLibraryEntriesToDomainProgram Parse (some node)).map
        (fun p => p.Episode.Title) = some nextEpisode.Title) := by
  constructor
  · intro node h
    cases ht : node.Episode.Title <;>
      cases hc : node.Channel.IsZero <;>
        simp [repository.mapAnnictProgramToDomainProgram, h, ht, hc, Program.zero]
  · intro node nextEpisode h
    cases ht : nextEpisode.Title <;>
      cases hp : node.NextProgram <;>
        simp [repository.mapAnnictLibraryEntriesToDomainProgram, h, ht, hp, Program.zero] <;>
        split <;> rfl

/-- C11, at a source episode title that is present and empty: both mappers return a
Program whose Episode.Title is present and empty, not absent. -/
theorem mappers_keep_empty_episode_title :
    (repository.mapAnnictProgramToDomainProgram parseOne (some nodeWithEmptyEpisodeTitle)).map
        (fun p => p.Episode.Title) = some (some "")
    ∧ (repository.mapAnnictLibraryEntriesToDomainProgram parseOne
        (some entryWithEmptyEpisodeTitle)).map (fun p => p.Episode.Title) = some (some "") := by
  decide

/-- C12: for every today-program node whose episode record is not zero-valued,
`mapAnnictProgramToDomainProgram` returns a Program whose Episode.NumberText is the
source number text when that is present and non-empty; otherwise the text "第N話" made
from the raw episode number N when that is present; otherwise "不明". -/
theorem mapAnnictProgramToDomainProgram_NumberText (Parse : String → Option time.Time)
    (node : annict.GetPrograms_Viewer_Programs_Nodes) (h : node.Episode.IsZero = false) :
    ∃ prog, repository.mapAnnictProgramToDomainProgram Parse (some node) = some prog
      ∧ (∀ s, node.Episode.NumberText = some s → s ≠ "" → prog.Episode.NumberText = s)
      ∧ (∀ n, node.Episode.NumberText = none ∨ node.Episode.NumberText = some "" →
          node.Episode.Number = some n →
          prog.Episode.NumberText = "第" ++ toString n ++ "話")
      ∧ (node.Episode.NumberText = none ∨ node.Episode.NumberText = some "" →
          node.Episode.Number = none → prog.Episode.NumberText = "不明") := by
  refine ⟨_, rfl, ?_, ?_, ?_⟩
  · intro s hs hne
    simp [h, hs, hne, repository.nonEmpty]
    split <;> rfl
  · intro n hs hn
    rcases hs with hs | hs <;>
      simp [h, hs, hn, repository.nonEmpty, repository.episodeNumberText] <;>
      split <;> rfl
  · intro hs hn
    rcases hs with hs | hs <;> simp [h, hs, hn, repository.nonEmpty] <;> split <;> rfl

theorem mapAnnictProgramToDomainProgram_NumberText_witness :
    (repository.mapAnnictProgramToDomainProgram parseOne
        (some (nodeWithEpisode (some "第3話") (some 3)))).map
        (fun p => p.Episode.NumberText) = some "第3話"
    ∧ (repository.mapAnnictProgramToDomainProgram parseOne
        (some (nodeWithEpisode (some "") (some 12)))).map
        (fun p => p.Episode.NumberText) = some "第12話"
    ∧ (repository.mapAnnictProgramToDomainProgram parseOne
        (some (nodeWithEpisode none none))).map
        (fun p => p.Episode.NumberText) = some "不明"
    ∧ ∃ prog, repository.mapAnnictProgramToDomainProgram parseOne
          (some (nodeWithEpisode (some "") (some 12))) = some prog
      ∧ (∀ s, (nodeWithEpisode (some "") (some 12)).Episode.NumberText = some s → s ≠ "" →
          prog.Episode.NumberText = s)
      ∧ (∀ n, (nodeWithEpisode (some "") (some 12)).Episode.NumberText = none
            ∨ (nodeWithEpisode (some "") (some 12)).Episode.NumberText = some "" →
          (nodeWithEpisode (some "") (some 12)).Episode.Number = some n →
          prog.Episode.NumberText = "第" ++ toString n ++ "話")
      ∧ ((nodeWithEpisode (some "") (some 12)).Episode.NumberText = none
            ∨ (nodeWithEpisode (some "") (some 12)).Episode.NumberText = some "" →
          (nodeWithEpisode (some "") (some 12)).Episode.Number = none →
          prog.Episode.NumberText = "不明") :=
  ⟨by decide, by decide, by decide,
    mapAnnictProgramToDomainProgram_NumberText parseOne
      (nodeWithEpisode (some "") (some 12)) (by decide)⟩

/-! ### Presenter -/

namespace presenter

open slack

theorem foldl_programBlocks (jstLocation : time.Location)
    (programs : List Program) (acc : List Block) :
    programs.foldl (fun blocks program => blocks ++ programBlocks jstLocation program) acc
      = acc ++ formatProgramList jstLocation programs := by
  induction programs generalizing acc with
  | nil => simp [formatProgramList]
  | cons program rest ih =>
    unfold formatProgramList
    rw [List.foldl_cons, List.foldl_cons, ih, ih ([] ++ programBlocks jstLocation program)]
    simp [formatProgramList]

theorem formatProgramList_nil (jstLocation : time.Location) :
    formatProgramList jstLocation [] = [] := rfl

/-- The blocks of a list of programs are the blocks of its programs, in the order of the
list. -/
theorem formatProgramList_cons (jstLocation : time.Location)
    (program : Program) (rest : List Program) :
    formatProgramList jstLocation (program :: rest)
      = programBlocks jstLocation program ++ formatProgramList jstLocation rest := by
  unfold formatProgramList
  rw [List.foldl_cons, foldl_programBlocks jstLocation]
  simp [formatProgramList]

/-- Every program renders as exactly one section block, followed by an image block when
it has an ImageURL. -/
theorem countSections_programBlocks (jstLocation : time.Location) (program : Program) :
    countSections (programBlocks jstLocation program) = 1 := by
  unfold programBlocks countSections
  cases h : program.Work.ImageURL <;>
    simp [h, NewSectionBlock, NewImageBlock, List.countP_cons]

theorem countSections_formatProgramList (jstLocation : time.Location) (programs : List Program) :
    countSections (formatProgramList jstLocation programs) = programs.length := by
  induction programs with
  | nil => rfl
  | cons program rest ih =>
    rw [formatProgramList_cons jstLocation]
    unfold countSections at *
    rw [List.countP_append, ih]
    have h := countSections_programBlocks jstLocation program
    unfold countSections at h
    rw [h, List.length_cons]
    omega

theorem sliceTo_of_nonneg {α : Type} (s : List α) (high : Int) (h0 : 0 ≤ high)
    (h1 : high ≤ s.length) : sliceTo s high = some (s.take high.toNat) := by
  unfold sliceTo
  rw [if_pos ⟨h0, h1⟩]

theorem sliceTo_of_neg {α : Type} (s : List α) (high : Int) (h : high < 0) :
    sliceTo s high = none := by
  unfold sliceTo
  rw [if_neg]
  omega

/-- When the limit is not negative, or there is no library entry, `FormatCombinedPrograms`
returns: the header with the date; the blocks of the today programs, or the placeholder of
the today section; the divider; the header of the unwatched section; the blocks of the
library entries up to the limit, or the placeholder of the unwatched section. -/
theorem FormatCombinedPrograms_blocks (jstLocation : time.Location) (p : SlackProgramPresenter)
    (todaysPrograms unwatchedPrograms : List Program) (date : time.Time)
    (h : 0 ≤ p.annictLimitNumToDisplay ∨ unwatchedPrograms = []) :
    FormatCombinedPrograms jstLocation p todaysPrograms unwatchedPrograms date
      = some ([Block.HeaderBlock
                { Type_ := "plain_text",
                  Text := ":calendar: " ++ jst.FormatDate jstLocation date ++ " 放送予定のアニメ",
                  Emoji := true, Verbatim := false }]
          ++ (if todaysPrograms = [] then
                [Block.SectionBlock
                  { Type_ := "mrkdwn", Text := "本日の放送予定は見つかりませんでした。",
                    Emoji := false, Verbatim := false }]
              else formatProgramList jstLocation todaysPrograms)
          ++ [Block.DividerBlock,
              Block.HeaderBlock
                { Type_ := "plain_text", Text := ":eyes: 未視聴のアニメ",
                  Emoji := true, Verbatim := false }]
          ++ (if unwatchedPrograms = [] then
                [Block.SectionBlock
                  { Type_ := "mrkdwn", Text := "未視聴のアニメは見つかりませんでした。",
                    Emoji := false, Verbatim := false }]
              else
                formatProgramList jstLocation
                  (unwatchedPrograms.take p.annictLimitNumToDisplay.toNat))) := by
  unfold FormatCombinedPrograms
  simp only [NewHeaderBlock, NewSectionBlock, NewDividerBlock, NewTextBlockObject,
    PlainTextType, MarkdownType, List.nil_append, List.length_eq_zero]
  by_cases hu : unwatchedPrograms = []
  · by_cases ht : todaysPrograms = [] <;> simp [hu, ht]
  · have h0 : 0 ≤ p.annictLimitNumToDisplay := by
      rcases h with h | h
      · exact h
      · exact absurd h hu
    simp only [hu, if_false]
    by_cases hl : (unwatchedPrograms.length : Int) > p.annictLimitNumToDisplay
    · rw [if_pos hl, sliceTo_of_nonneg _ _ h0 (by omega)]
      by_cases ht : todaysPrograms = [] <;> simp [ht]
    · rw [if_neg hl, List.take_of_length_le (by omega)]
      by_cases ht : todaysPrograms = [] <;> simp [ht]

/-- A program whose ImageURL is present and empty is rendered with an image block whose
URL is empty: the image block is attached under the test `ImageURL != nil` alone. -/
theorem programBlocks_at_empty_ImageURL :
    programBlocks jstLoaded (program "A" (some "") evening)
      = [Block.SectionBlock
          { Type_ := "mrkdwn", Text := "*A*\n • 第1話 \n • :tv: TOKYO MX 2024-01-02 20:00",
            Emoji := false, Verbatim := false },
         Block.ImageBlock "" "A image" "" none] := by
  decide

/-- `FormatCombinedPrograms` panics exactly when the limit is negative and there is a
library entry. -/
theorem FormatCombinedPrograms_eq_none_iff (jstLocation : time.Location) (p : SlackProgramPresenter)
    (todaysPrograms unwatchedPrograms : List Program) (date : time.Time) :
    FormatCombinedPrograms jstLocation p todaysPrograms unwatchedPrograms date = none
      ↔ p.annictLimitNumToDisplay < 0 ∧ unwatchedPrograms ≠ [] := by
  constructor
  · intro hn
    by_cases h : 0 ≤ p.annictLimitNumToDisplay ∨ unwatchedPrograms = []
    · rw [FormatCombinedPrograms_blocks jstLocation p _ _ _ h] at hn
      cases hn
    · constructor
      · omega
      · intro hu
        exact h (Or.inr hu)
  · rintro ⟨hl, hu⟩
    unfold FormatCombinedPrograms
    have hlen : unwatchedPrograms.length ≠ 0 := by
      intro h0
      exact hu (List.length_eq_zero.mp h0)
    simp only [hlen, if_false]
    rw [if_pos (by omega), sliceTo_of_neg _ _ hl]

end presenter

/-- C13, at a negative limit: with the limit -1, one today program and one library entry,
`FormatCombinedPrograms` returns no blocks; the expression `unwatchedPrograms[:limit]`
panics. -/
theorem FormatCombinedPrograms_returns_no_blocks_at_negative_limit :
    presenter.FormatCombinedPrograms jstLoaded (presenter.NewSlackProgramPresenter (-1))
      [program "A" none evening] [program "B" none evening] evening = none := by
  decide

/-- C14, at a negative maximum count: with m = -1, an empty today list and three library
entries, nothing is rendered at all, the call panics. -/
theorem FormatCombinedPrograms_renders_nothing_at_negative_limit :
    presenter.FormatCombinedPrograms jstLoaded (presenter.NewSlackProgramPresenter (-1))
      [] threeLibrary evening = none := by
  decide

/-- C14, amended: for every non-empty library list of length n and every maximum count m
that is not negative, `FormatCombinedPrograms` returns the today part, in which the today
list is rendered whole, followed by the blocks of the first min(n, m) library entries in
order and nothing else; these blocks hold exactly min(n, m) sections. -/
theorem FormatCombinedPrograms_truncates (jstLocation : time.Location) (m : Int)
    (todaysPrograms unwatchedPrograms : List Program) (date : time.Time)
    (hm : 0 ≤ m) (hn : unwatchedPrograms ≠ []) :
    ∃ todayPart unwatchedPart,
      presenter.FormatCombinedPrograms jstLocation (presenter.NewSlackProgramPresenter m)
          todaysPrograms unwatchedPrograms date = some (todayPart ++ unwatchedPart)
      ∧ todayPart
          = [slack.Block.HeaderBlock
              { Type_ := "plain_text",
                Text := ":calendar: " ++ jst.FormatDate jstLocation date ++ " 放送予定のアニメ",
                Emoji := true, Verbatim := false }]
            ++ (if todaysPrograms = [] then
                  [slack.Block.SectionBlock
                    { Type_ := "mrkdwn", Text := "本日の放送予定は見つかりませんでした。",
                      Emoji := false, Verbatim := false }]
                else presenter.formatProgramList jstLocation todaysPrograms)
            ++ [slack.Block.DividerBlock,
                slack.Block.HeaderBlock
                  { Type_ := "plain_text", Text := ":eyes: 未視聴のアニメ",
                    Emoji := true, Verbatim := false }]
      ∧ unwatchedPart
          = presenter.formatProgramList jstLocation
              (unwatchedPrograms.take (min unwatchedPrograms.length m.toNat))
      ∧ presenter.countSections unwatchedPart = min unwatchedPrograms.length m.toNat := by
  refine ⟨_, _, ?_, rfl, rfl, ?_⟩
  · rw [presenter.FormatCombinedPrograms_blocks jstLocation (presenter.NewSlackProgramPresenter m) _ _ _
      (Or.inl hm)]
    simp only [hn, if_false, presenter.NewSlackProgramPresenter]
    have ht : unwatchedPrograms.take (min unwatchedPrograms.length m.toNat)
        = unwatchedPrograms.take m.toNat := by
      rcases Nat.le_total unwatchedPrograms.length m.toNat with hle | hle
      · rw [Nat.min_eq_left hle, List.take_of_length_le hle,
          List.take_of_length_le (Nat.le_refl _)]
      · rw [Nat.min_eq_right hle]
    rw [ht]
  · rw [presenter.countSections_formatProgramList jstLocation, List.length_take]
    omega

theorem FormatCombinedPrograms_truncates_witness :
    (presenter.FormatCombinedPrograms jstLoaded (presenter.NewSlackProgramPresenter 2) []
        threeLibrary evening
      = some [slack.Block.HeaderBlock
                { Type_ := "plain_text", Text := ":calendar: 2024-01-02 放送予定のアニメ",
                  Emoji := true, Verbatim := false },
              slack.Block.SectionBlock
                { Type_ := "mrkdwn", Text := "本日の放送予定は見つかりませんでした。",
                  Emoji := false, Verbatim := false },
              slack.Block.DividerBlock,
              slack.Block.HeaderBlock
                { Type_ := "plain_text", Text := ":eyes: 未視聴のアニメ",
                  Emoji := true, Verbatim := false },
              slack.Block.SectionBlock
                { Type_ := "mrkdwn",
                  Text := "*A*\n • 第1話 \n • :tv: TOKYO MX 2024-01-02 20:00",
                  Emoji := false, Verbatim := false },
              slack.Block.ImageBlock "https://example.com/a.png" "A image" "" none,
              slack.Block.SectionBlock
                { Type_ := "mrkdwn",
                  Text := "*B*\n • 第1話 \n • :tv: TOKYO MX 2024-01-02 20:00",
                  Emoji := false, Verbatim := false }])
    ∧ ∃ todayPart unwatchedPart,
      presenter.FormatCombinedPrograms jstLoaded (presenter.NewSlackProgramPresenter 2)
          [] threeLibrary evening = some (todayPart ++ unwatchedPart)
      ∧ todayPart
          = [slack.Block.HeaderBlock
              { Type_ := "plain_text",
                Text := ":calendar: " ++ jst.FormatDate jstLoaded evening ++ " 放送予定のアニメ",
                Emoji := true, Verbatim := false }]
            ++ (if ([] : List Program) = [] then
                  [slack.Block.SectionBlock
                    { Type_ := "mrkdwn", Text := "本日の放送予定は見つかりませんでした。",
                      Emoji := false, Verbatim := false }]
                else presenter.formatProgramList jstLoaded [])
            ++ [slack.Block.DividerBlock,
                slack.Block.HeaderBlock
                  { Type_ := "plain_text", Text := ":eyes: 未視聴のアニメ",
                    Emoji := true, Verbatim := false }]
      ∧ unwatchedPart
          = presenter.formatProgramList jstLoaded
              (threeLibrary.take (min threeLibrary.length (2 : Int).toNat))
      ∧ presenter.countSections unwatchedPart = min threeLibrary.length (2 : Int).toNat :=
  ⟨by decide,
    FormatCombinedPrograms_truncates jstLoaded 2 [] threeLibrary evening (by decide) (by decide)⟩

/-- C15: for every Program, the first block rendered for it is a section whose text
starts with the title line, followed by a line break; the title line is the hyperlink
"<URL|Title>", with OfficialSiteURL as target, when OfficialSiteURL is present, and the
emphasized title "*Title*" when it is absent.  As in the data model, an OfficialSiteURL
is present when it is set and not empty, and absent when it is nil or empty. -/
theorem programBlocks_title_line (jstLocation : time.Location) (program : Program) :
    (∃ tail, presenter.programBlocks jstLocation program
        = slack.Block.SectionBlock
            { Type_ := "mrkdwn", Text := presenter.programText jstLocation program,
              Emoji := false, Verbatim := false } :: tail)
      ∧ (∀ url, program.Work.OfficialSiteURL = some url → url ≠ "" →
          ∃ rest, presenter.programText jstLocation program
            = "<" ++ url ++ "|" ++ program.Work.Title ++ ">" ++ "\n" ++ rest)
      ∧ (program.Work.OfficialSiteURL = none ∨ program.Work.OfficialSiteURL = some "" →
          ∃ rest, presenter.programText jstLocation program
            = "*" ++ program.Work.Title ++ "*" ++ "\n" ++ rest) := by
  refine ⟨?_, ?_, ?_⟩
  · unfold presenter.programBlocks
    cases h : program.Work.ImageURL
    · exact ⟨[], rfl⟩
    · exact ⟨_, rfl⟩
  · intro url hu hne
    unfold presenter.programText presenter.programTitle
    simp only [hu, hne, ne_eq, not_false_eq_true, if_true, String.empty_append,
      String.append_assoc]
    exact ⟨_, rfl⟩
  · intro hu
    unfold presenter.programText presenter.programTitle
    rcases hu with hu | hu
    · simp only [hu, String.empty_append, String.append_assoc]
      exact ⟨_, rfl⟩
    · simp only [hu, ne_eq, not_true_eq_false, if_false, String.empty_append,
        String.append_assoc]
      exact ⟨_, rfl⟩

theorem programBlocks_title_line_witness :
    (presenter.programText jstLoaded (programWithSite (some "https://example.com/"))
        = "<https://example.com/|A>\n • 第1話 「B」\n • :tv: TOKYO MX 2024-01-02 20:00")
    ∧ (presenter.programText jstLoaded (programWithSite none)
        = "*A*\n • 第1話 「B」\n • :tv: TOKYO MX 2024-01-02 20:00")
    ∧ (∃ rest, presenter.programText jstLoaded (programWithSite (some "https://example.com/"))
        = "<" ++ "https://example.com/" ++ "|"
            ++ (programWithSite (some "https://example.com/")).Work.Title ++ ">" ++ "\n"
            ++ rest) :=
  ⟨by decide, by decide,
    (programBlocks_title_line jstLoaded (programWithSite (some "https://example.com/"))).2.1
      "https://example.com/" rfl (by decide)⟩

/-- C16, at a negative maximum count: with the limit 0 the library entries are cut to
none and blocks are returned, but with the limit -5 and one library entry the call
returns nothing; the expression `unwatchedPrograms[:limit]` panics. -/
theorem FormatCombinedPrograms_panics_on_negative_limit :
    (presenter.FormatCombinedPrograms jstLoaded (presenter.NewSlackProgramPresenter 0)
        [] oneEntry evening).isSome = true
    ∧ presenter.FormatCombinedPrograms jstLoaded (presenter.NewSlackProgramPresenter (-5))
        [] oneEntry evening = none := by
  decide

/-! ### Seasons -/

namespace time

theorem isLeap_eq_true_iff (year : Int) :
    isLeap year = true ↔ year % 4 = 0 ∧ (year % 100 ≠ 0 ∨ year % 400 = 0) := by
  simp [isLeap]

/-- The day of the year computed by `yearDay` is at most 364, or 365 in a leap year. -/
theorem yearDay_snd_le (days : Int) :
    (yearDay days).2 ≤ 365 ∧ (isLeap (yearDay days).1 = false → (yearDay days).2 ≤ 364) := by
  unfold yearDay
  simp only []
  generalize hd : (days % 146097).toNat = d0
  generalize days / 146097 = n400
  have h0 : d0 < 146097 := by omega
  obtain ⟨q, hq⟩ : ∃ q, q = d0 / 36524 := ⟨_, rfl⟩
  have hq1 : 36524 * q ≤ d0 := by omega
  have hq2 : d0 < 36524 * q + 36524 := by omega
  have hq3 : q ≤ 4 := by omega
  rw [← hq]
  obtain ⟨n100, hn100⟩ : ∃ n, n = q - q / 4 := ⟨_, rfl⟩
  rw [← hn100]
  obtain ⟨d1, hd1⟩ : ∃ d, d = d0 - 36524 * n100 := ⟨_, rfl⟩
  rw [← hd1]
  have hd1le : d1 ≤ 36524 := by
    interval_cases q <;> omega
  have hd1lt : n100 < 3 → d1 < 36524 := by
    intro h
    interval_cases q <;> omega
  obtain ⟨n4, hn4⟩ : ∃ n, n = d1 / 1461 := ⟨_, rfl⟩
  rw [← hn4]
  have hn4le : n4 ≤ 24 := by omega
  obtain ⟨d2, hd2⟩ : ∃ d, d = d1 - 1461 * n4 := ⟨_, rfl⟩
  rw [← hd2]
  have hd2lt : d2 < 1461 := by omega
  obtain ⟨r, hr⟩ : ∃ r, r = d2 / 365 := ⟨_, rfl⟩
  rw [← hr]
  have hr1 : 365 * r ≤ d2 := by omega
  have hr2 : d2 < 365 * r + 365 := by omega
  have hr3 : r ≤ 4 := by omega
  constructor
  · interval_cases r <;> omega
  · intro hl
    have hl2 : ¬ (isLeap (400 * n400 + 100 * (n100 : Int) + 4 * (n4 : Int)
        + ((r - r / 4 : Nat) : Int) + 1) = true) := by
      rw [hl]
      exact Bool.false_ne_true
    rw [isLeap_eq_true_iff] at hl2
    interval_cases r
    · omega
    · omega
    · omega
    · omega
    · have hn1 : (4 - 4 / 4 : Nat) = 3 := rfl
      rw [hn1] at hl2 ⊢
      by_cases h24 : n4 = 24
      · have hn : n100 = 3 := by
          by_contra hne
          have := hd1lt (by omega)
          omega
        subst h24
        subst hn
        exfalso
        apply hl2
        constructor
        · omega
        · right
          omega
      · exfalso
        apply hl2
        constructor
        · omega
        · left
          omega

theorem monthDay_fst_range (year : Int) (yday : Nat) (h1 : yday ≤ 365)
    (h2 : isLeap year = false → yday ≤ 364) :
    1 ≤ (monthDay year yday).1 ∧ (monthDay year yday).1 ≤ 12 := by
  unfold monthDay
  split
  · simp
  · rename_i hc
    simp only []
    obtain ⟨day, hday⟩ : ∃ d, d = (if (isLeap year && decide (59 < yday)) = true then yday - 1
        else yday) := ⟨_, rfl⟩
    rw [← hday]
    have hle : day ≤ 364 := by
      cases hl : isLeap year
      · have := h2 hl
        simp [hl] at hday
        omega
      · simp [hl] at hday hc
        split at hday <;> omega
    obtain ⟨m, hm⟩ : ∃ m, m = day / 31 := ⟨_, rfl⟩
    rw [← hm]
    have hm1 : m ≤ 11 := by omega
    split
    · rename_i hb
      constructor
      · simp
      · interval_cases m <;> simp [daysBefore] at hb ⊢
        omega
    · constructor
      · simp
      · simp
        omega

/-- The month of every Time lies between 1 and 12. -/
theorem Time.Month_range (t : Time) : 1 ≤ t.Month ∧ t.Month ≤ 12 := by
  unfold Time.Month Time.Date
  simp only []
  have h := yearDay_snd_le t.days
  exact monthDay_fst_range _ _ h.1 h.2

end time

/-- C17, when `init` could not load the zone: the package variable is then UTC, and for
2024-12-31 23:00 UTC, which is 1 January 2025 in Japan, `GetAnnictSeason` returns
"2024-autumn", the season of the date in UTC, where the claim says the winter of 2025. -/
theorem GetAnnictSeason_follows_UTC_after_failed_load :
    jstFallback = time.UTC
      ∧ (newYearsEveUTC.In time.asiaTokyo).Date = (2025, 1, 1)
      ∧ (newYearsEveUTC.In jstFallback).Date = (2024, 12, 31)
      ∧ jst.GetAnnictSeason jstFallback newYearsEveUTC = "2024-autumn" := by
  decide

/-- C17, amended: whatever `time.LoadLocation` answered to `init`, for every instant t
`GetAnnictSeason` returns the year of t in the package location, a hyphen and a season;
the package location is the zone that was loaded, or UTC when none was; the season is
"winter" when the month of t in that location is 1 to 3, "spring" when 4 to 6, "summer"
when 7 to 9 and "autumn" when 10 to 12, one of which is always the case, so that the
season is never empty.  With the zone Asia/Tokyo loaded, 2024-12-31 23:00 UTC, which is
1 January in Japan, gives "2025-winter"; the last minute of March in Japan gives
"2024-winter" and the next minute "2024-spring"; and 1950-06-30 14:30 UTC, which summer
time puts on 1 July in Japan, gives "1950-summer". -/
theorem GetAnnictSeason_quarter :
    (∀ (loaded : Option time.Location) (t : time.Time), ∃ season,
      jst.GetAnnictSeason (jst.init loaded) t
          = toString (t.In (jst.init loaded)).Year ++ "-" ++ season
        ∧ season ≠ ""
        ∧ ((1 ≤ (t.In (jst.init loaded)).Month ∧ (t.In (jst.init loaded)).Month ≤ 3
              ∧ season = "winter")
          ∨ (4 ≤ (t.In (jst.init loaded)).Month ∧ (t.In (jst.init loaded)).Month ≤ 6
              ∧ season = "spring")
          ∨ (7 ≤ (t.In (jst.init loaded)).Month ∧ (t.In (jst.init loaded)).Month ≤ 9
              ∧ season = "summer")
          ∨ (10 ≤ (t.In (jst.init loaded)).Month ∧ (t.In (jst.init loaded)).Month ≤ 12
              ∧ season = "autumn")))
    ∧ (∀ loc : time.Location, jst.init (some loc) = loc)
    ∧ jst.init none = time.UTC
    ∧ jst.GetAnnictSeason jstLoaded newYearsEveUTC = "2025-winter"
    ∧ jst.GetAnnictSeason jstLoaded endOfMarch = "2024-winter"
    ∧ jst.GetAnnictSeason jstLoaded startOfApril = "2024-spring"
    ∧ jst.GetAnnictSeason jstLoaded summerNight1950 = "1950-summer" := by
  refine ⟨?_, fun _ => rfl, rfl, by decide, by decide, by decide, by decide⟩
  intro loaded t
  have hm := time.Time.Month_range (t.In (jst.init loaded))
  unfold jst.GetAnnictSeason
  simp only []
  generalize (t.In (jst.init loaded)).Month = m at hm ⊢
  by_cases h1 : m ≥ 1 ∧ m ≤ 3
  · refine ⟨"winter", ?_, by decide, Or.inl ⟨h1.1, h1.2, rfl⟩⟩
    rw [if_pos h1]
  · by_cases h2 : m ≥ 4 ∧ m ≤ 6
    · refine ⟨"spring", ?_, by decide, Or.inr (Or.inl ⟨h2.1, h2.2, rfl⟩)⟩
      rw [if_neg h1, if_pos h2]
    · by_cases h3 : m ≥ 7 ∧ m ≤ 9
      · refine ⟨"summer", ?_, by decide, Or.inr (Or.inr (Or.inl ⟨h3.1, h3.2, rfl⟩))⟩
        rw [if_neg h1, if_neg h2, if_pos h3]
      · have h4 : m ≥ 10 ∧ m ≤ 12 := by omega
        refine ⟨"autumn", ?_, by decide, Or.inr (Or.inr (Or.inr ⟨h4.1, h4.2, rfl⟩))⟩
        rw [if_neg h1, if_neg h2, if_neg h3, if_pos h4]
